import Mathlib

/-!
Verification of the process-lifecycle core of the airix kernel
(`src/kernel/process.c`): PID bitmap allocation, process-record
management, address-space construction (exec), cloning (fork) and
reclamation (destroy), with manual physical-frame accounting.

The C source is shallowly embedded: the module's global state (PID
bitmap, PID cursor, physical-frame free list, frame contents, slab
pool, IDT, scheduler queue) is a `Kernel` record threaded through every
function; `struct process` is the `Process` record; machine `uint32_t`
arithmetic on `mem_pages` is `Nat` arithmetic modulo `2^32`; fatal
`panic` calls become the `Except.error` branch of a result.

Collaborator subsystems (`mm/pmm.c`, `mm/vmm.c`, `mm/paging.c`,
`mm/slab.c`, `kernel/elf.c`, `kernel/idt.c`, `kernel/sched.c`) and the
headers defining the constants are not part of the given source tree;
each of their operations is modelled from the specification's statement
of its contract and is marked as such in its doc comment.
-/

/-- Size in bytes of one physical frame / virtual page.
Modelled from the spec: `PAGE_SIZE` comes from `mm/paging.h`, which is
not in the source tree; the design is standard two-level 32-bit x86
paging, whose page size is 4096 bytes. -/
def PAGE_SIZE : Nat := 4096

/-- Number of page-table entries in one page table (and of directory
entries in one directory).
Modelled from the spec: `NUM_PTE` comes from `mm/paging.h`, which is not
in the source tree; standard 32-bit x86 two-level paging has 1024
entries per table. -/
def NUM_PTE : Nat := 1024

/-- Virtual address where the kernel window begins; user space is below.
Modelled from the spec: `KERNEL_BASE` comes from `mm/paging.h`, which is
not in the source tree; the conventional split used by this kernel is
3 GiB (`0xC0000000`). -/
def KERNEL_BASE : Nat := 0xC0000000

/-- Number of user-space page-directory entries: the walk bound
`KERNEL_BASE / (NUM_PTE * PAGE_SIZE)` used by `proc_free` and
`init_proc_from_proc`. -/
def USER_PDE : Nat := KERNEL_BASE / (NUM_PTE * PAGE_SIZE)

/-- Top of the fixed kernel-stack range, from `kernel/process.c`:
`KERNEL_BASE - 16 * PAGE_SIZE`. -/
def PROC_KERNEL_STACK : Nat := KERNEL_BASE - 16 * PAGE_SIZE

/-- Top of the fixed user-stack range, from `kernel/process.c`:
`KERNEL_BASE - 1024 * PAGE_SIZE`. -/
def PROC_USER_STACK : Nat := KERNEL_BASE - 1024 * PAGE_SIZE

/-- The system-call interrupt vector, from `kernel/process.c`. -/
def SYSCALL_INT_NUM : Nat := 0x80

/-- Modulus of `uint32_t` arithmetic. -/
def M32 : Nat := 4294967296

/-- `uint32_t` increment: `x + 1` modulo `2^32`. -/
def inc32 (x : Nat) : Nat := (x + 1) % M32

/-- `uint32_t` decrement: `x - 1` modulo `2^32`. -/
def dec32 (x : Nat) : Nat := (x + (M32 - 1)) % M32

/-- `uint32_t` addition modulo `2^32`. -/
def add32 (x y : Nat) : Nat := (x + y) % M32

/-- Page-table/page flag bit for writable mappings.
Modelled from the spec: `VMM_WRITABLE` comes from `mm/vmm.h`, not in the
source tree; the exact bit value is immaterial to the claims. -/
def VMM_WRITABLE : Nat := 2

/-- Page-table/page flag bit for user-accessible mappings.
Modelled from the spec: `VMM_USER` comes from `mm/vmm.h`, not in the
source tree; the exact bit value is immaterial to the claims. -/
def VMM_USER : Nat := 4

/-- Process state `RUNNING`; the numeric value comes from
`kernel/process.h` (not in the source tree) and is immaterial. -/
def PROC_STATE_RUNNING : Nat := 1

/-- Process state `DEAD`; the numeric value is immaterial. -/
def PROC_STATE_DEAD : Nat := 2

/-- Byte contents of one physical frame. -/
def PageData : Type := Nat → Nat

/-- One page table: the physical address of the frame it occupies plus
its 1024 entries, each a pair of (physical page address, flags); a zero
physical address means the slot is unmapped, exactly as the C code
tests `if (page)`. -/
structure PageTable where
  addr : Nat
  entry : Nat → Nat × Nat

/-- One page directory: the physical address of the frame it occupies,
its slots (a slot either holds a page table together with the
directory-entry flags, or is empty), and whether the kernel's shared
mappings have been copied in by `pg_copy_kernel_space`. -/
structure PageDir where
  addr : Nat
  slot : Nat → Option (PageTable × Nat)
  kernelCopied : Bool

/-- The directory used for a null `page_dir` dereference; never reached
under the stated hypotheses. -/
def emptyDir : PageDir := ⟨0, fun _ => none, false⟩

/-- `struct process` from `kernel/process.h` (header not in the source
tree; the fields are the ones `kernel/process.c` reads and writes, and
the spec's §3 data model).  The C `parent` field is a non-owning pointer
to the source record; it is modelled as the parent's PID, the record's
unique identifier, per the spec's design note on parent back-references.
`context` is the opaque saved machine context. -/
structure Process where
  pid : Int
  state : Nat
  status : Int
  page_dir : Option PageDir
  mem_pages : Nat
  entry : Nat
  kernel_stack : Nat
  user_stack : Nat
  context : Nat
  parent : Option Int

/-- The all-zero process record produced by `memset(proc, 0, ...)`. -/
def zeroProcess : Process :=
  { pid := 0, state := 0, status := 0, page_dir := none, mem_pages := 0,
    entry := 0, kernel_stack := 0, user_stack := 0, context := 0,
    parent := none }

/-- The state of the kernel subsystems touched by `kernel/process.c`:
the physical-frame free list (`mm/pmm.c`), the byte contents of every
frame, the PID bitmap and rotating cursor (file-static globals
`pid_map` and `pid_gen`), the number of free records in the slab cache,
the list of interrupt vectors installed in the IDT, and the scheduler's
queue. -/
structure Kernel where
  pmm_free : List Nat
  mem : Nat → PageData
  pid_map : Nat → Nat
  pid_gen : Nat
  slab_avail : Nat
  idt_vectors : List Nat
  sched_queue : List Process

/-- The boot state: all C globals zero-initialized, no frames, empty
pool. -/
def initKernel : Kernel :=
  { pmm_free := [], mem := fun _ => fun _ => 0, pid_map := fun _ => 0,
    pid_gen := 0, slab_avail := 0, idt_vectors := [], sched_queue := [] }

/-- Test of bit `pid` of the PID bitmap, exactly as the C code reads it:
bit `pid % 8` of byte `pid_map[pid / 8]`. -/
def pid_test (m : Nat → Nat) (pid : Nat) : Bool :=
  m (pid / 8) &&& (1 <<< (pid % 8)) != 0

/-- Setting bit `pid` of the PID bitmap:
`pid_map[pid / 8] |= (1 << (pid % 8))`. -/
def pid_set (m : Nat → Nat) (pid : Nat) : Nat → Nat :=
  fun i => if i = pid / 8 then m i ||| (1 <<< (pid % 8)) else m i

/-- Clearing bit `pid` of the PID bitmap:
`pid_map[pid / 8] &= ~(1 << (pid % 8))`, with the complement taken at
the 8-bit width of `char`. -/
def pid_clear (m : Nat → Nat) (pid : Nat) : Nat → Nat :=
  fun i => if i = pid / 8 then m i &&& (255 ^^^ (1 <<< (pid % 8))) else m i

/-- The scan loop of `alloc_pid`, by remaining iteration count.  Each
iteration reads the candidate `pid_gen`, advances the cursor modulo
`N` (= `PROC_MAX_NUM`, from `kernel/process.h`, not in the source tree,
hence kept as a parameter), and claims the candidate if its bit is
clear. -/
def alloc_pid_loop (N : Nat) : Nat → Kernel → Int × Kernel
  | 0, k => (-1, k)
  | fuel + 1, k =>
    let pid := k.pid_gen
    let k1 : Kernel := { k with pid_gen := (k.pid_gen + 1) % N }
    if pid_test k.pid_map pid then alloc_pid_loop N fuel k1
    else ((pid : Int), { k1 with pid_map := pid_set k.pid_map pid })

/-- `alloc_pid`: scans up to `N` candidates starting at the rotating
cursor; returns `-1` after a full unsuccessful scan. -/
def alloc_pid (N : Nat) (k : Kernel) : Int × Kernel :=
  alloc_pid_loop N N k

/-- `free_pid`: clears the PID's bitmap bit. -/
def free_pid (pid : Nat) (k : Kernel) : Kernel :=
  { k with pid_map := pid_clear k.pid_map pid }

/-- Physical-frame allocation.
Modelled from the spec: the frame allocator (`mm/pmm.c`, not in the
source tree) hands out one physical page, returning its address, or `0`
on exhaustion.  The allocator's pool is the `pmm_free` list; allocation
pops its head. -/
def pmm_alloc_page_address (k : Kernel) : Nat × Kernel :=
  match k.pmm_free with
  | [] => (0, k)
  | a :: rest => (a, { k with pmm_free := rest })

/-- Physical-frame release.
Modelled from the spec: returns one physical page to the allocator's
pool. -/
def pmm_free_page_address (a : Nat) (k : Kernel) : Kernel :=
  { k with pmm_free := a :: k.pmm_free }

/-- Directory allocation.
Modelled from the spec: allocates one physical frame holding a fresh,
empty top-level directory (`mm/vmm.c`, not in the source tree); fails
by returning no directory when no frame is available. -/
def vmm_alloc_vaddr_space (k : Kernel) : Option PageDir × Kernel :=
  let (a, k1) := pmm_alloc_page_address k
  if a = 0 then (none, k1)
  else (some ⟨a, fun _ => none, false⟩, k1)

/-- Directory release.
Modelled from the spec: frees the directory's own frame. -/
def vmm_free_vaddr_space (dir : PageDir) (k : Kernel) : Kernel :=
  pmm_free_page_address dir.addr k

/-- Page-table allocation.
Modelled from the spec: allocates one physical frame holding a fresh,
empty page table; fails when no frame is available. -/
def vmm_alloc_page_table (k : Kernel) : Option PageTable × Kernel :=
  let (a, k1) := pmm_alloc_page_address k
  if a = 0 then (none, k1)
  else (some ⟨a, fun _ => (0, 0)⟩, k1)

/-- Page-table release.
Modelled from the spec: frees the table's own frame. -/
def vmm_free_page_table (tab : PageTable) (k : Kernel) : Kernel :=
  pmm_free_page_address tab.addr k

/-- Reading directory slot `pde` together with its flags.
Modelled from the spec: address-space primitive looking up a mapping
with its flags; an empty slot reports no table and leaves the flags
output `0`. -/
def vmm_get_page_table_index (dir : PageDir) (pde : Nat) :
    Option PageTable × Nat :=
  match dir.slot pde with
  | none => (none, 0)
  | some (tab, f) => (some tab, f)

/-- Reading table entry `pte`: the mapped physical page address (`0` if
unmapped) and its flags.
Modelled from the spec: address-space lookup primitive. -/
def vmm_get_page_index (tab : PageTable) (pte : Nat) : Nat × Nat :=
  tab.entry pte

/-- Installing table `tab` at directory slot `pde` with flags.
Modelled from the spec: address-space mapping primitive. -/
def vmm_map_page_table_index (dir : PageDir) (pde : Nat)
    (tab : PageTable) (flag : Nat) : PageDir :=
  { dir with slot := fun i => if i = pde then some (tab, flag) else dir.slot i }

/-- Mapping physical page `paddr` at table entry `pte` with flags.
Modelled from the spec: address-space mapping primitive. -/
def vmm_map_page_index (tab : PageTable) (pte : Nat) (paddr : Nat)
    (flag : Nat) : PageTable :=
  { tab with entry := fun i => if i = pte then (paddr, flag) else tab.entry i }

/-- Removing and returning the table at directory slot `pde` (the
trailing `0` argument of the C call means the table is handed back, not
freed).
Modelled from the spec: address-space unmapping primitive. -/
def vmm_unmap_page_table_index (dir : PageDir) (pde : Nat) :
    Option PageTable × PageDir :=
  ((dir.slot pde).map Prod.fst,
   { dir with slot := fun i => if i = pde then none else dir.slot i })

/-- Clearing table entry `pte` and returning the physical page address
that was mapped there (`0` if none).
Modelled from the spec: address-space unmapping primitive. -/
def vmm_unmap_page_index (tab : PageTable) (pte : Nat) : Nat × PageTable :=
  ((tab.entry pte).1,
   { tab with entry := fun i => if i = pte then (0, 0) else tab.entry i })

/-- Copying the kernel's shared global mappings into a directory.
Modelled from the spec: `pg_copy_kernel_space` (`mm/paging.c`, not in
the source tree) re-establishes the kernel-space half of the directory;
those mappings are owned by the kernel, never by the process, so the
model only records that the copy happened. -/
def pg_copy_kernel_space (dir : PageDir) : PageDir :=
  { dir with kernelCopied := true }

/-- Overwriting the full contents of physical frame `a`. -/
def mem_write (k : Kernel) (a : Nat) (d : PageData) : Kernel :=
  { k with mem := fun x => if x = a then d else k.mem x }

/-- `memcpy(CAST_PHYSICAL_TO_VIRTUAL(dst), CAST_PHYSICAL_TO_VIRTUAL(src),
PAGE_SIZE)`: copies one whole frame through the identity-mapped kernel
window. -/
def memcpy_page (k : Kernel) (dst src : Nat) : Kernel :=
  mem_write k dst (k.mem src)

/-- Slab allocation of one process record.
Modelled from the spec: the fixed-capacity record pool (`mm/slab.c`,
not in the source tree) either hands out a zeroed-later record
(modelled as a success flag plus a decremented free count) or fails. -/
def slab_alloc (k : Kernel) : Bool × Kernel :=
  match k.slab_avail with
  | 0 => (false, k)
  | n + 1 => (true, { k with slab_avail := n })

/-- Slab release of one process record.
Modelled from the spec: returns the record to the pool. -/
def slab_free (k : Kernel) : Kernel :=
  { k with slab_avail := k.slab_avail + 1 }

/-- Installing an interrupt gate.
Modelled from the spec: `idt_set_entry` (`kernel/idt.c`, not in the
source tree) routes the given vector; the model records the vector so
installations can be counted.  Selector, handler, gate type and
privilege level do not affect any claim and are not modelled. -/
def idt_set_entry (vector : Nat) (k : Kernel) : Kernel :=
  { k with idt_vectors := k.idt_vectors ++ [vector] }

/-- Handing a runnable record to the scheduler.
Modelled from the spec: `sched_add` appends to the runnable set. -/
def sched_add (p : Process) (k : Kernel) : Kernel :=
  { k with sched_queue := k.sched_queue ++ [p] }

/-- Diagnostic carried by a kernel `panic` from this module: the
process identifier and the offending `mem_pages` count. -/
def Panic : Type := Int × Nat

/-- `proc_initialize`: one-time module setup — installs the system-call
gate at vector `0x80` and creates the record cache.  The cache capacity
`cap` abstracts the pool size provided by the slab allocator. -/
def proc_initialize (cap : Nat) (k : Kernel) : Kernel :=
  let k1 := idt_set_entry SYSCALL_INT_NUM k
  { k1 with slab_avail := cap }

/-- The inner loop of `proc_free`: for each listed table entry, unmap
it and, when a page was mapped there, free the page's frame and
decrement `mem_pages` (threaded as `mp`). -/
def free_ptes : List Nat → PageTable → Nat → Kernel → PageTable × Nat × Kernel
  | [], tab, mp, k => (tab, mp, k)
  | pte :: rest, tab, mp, k =>
    let (paddr, tab1) := vmm_unmap_page_index tab pte
    if paddr ≠ 0 then
      free_ptes rest tab1 (dec32 mp) (pmm_free_page_address paddr k)
    else free_ptes rest tab1 mp k

/-- The outer loop of `proc_free`: for each listed directory slot,
unmap it and, when it held a table, free every page mapped in the
table, then free the table's own frame, decrementing `mem_pages` for
each freed frame. -/
def free_pdes : List Nat → PageDir → Nat → Kernel → PageDir × Nat × Kernel
  | [], dir, mp, k => (dir, mp, k)
  | pde :: rest, dir, mp, k =>
    let r := vmm_unmap_page_table_index dir pde
    match r.1 with
    | none => free_pdes rest r.2 mp k
    | some tab =>
      let s := free_ptes (List.range NUM_PTE) tab mp k
      free_pdes rest r.2 (dec32 s.2.1) (vmm_free_page_table s.1 s.2.2)

/-- `proc_free`: walks the user-space half of the directory freeing
every mapped page and every table, frees the directory, releases the
PID, and — if `mem_pages` has not reached exactly zero — halts with the
leak diagnostic; otherwise returns the record to the slab. -/
def proc_free (proc : Process) (k : Kernel) : Except Panic Kernel :=
  let s :=
    match proc.page_dir with
    | none => (proc.mem_pages, k)
    | some dir =>
      let r := free_pdes (List.range USER_PDE) dir proc.mem_pages k
      (dec32 r.2.1, vmm_free_vaddr_space r.1 r.2.2)
  let k3 := if proc.pid ≠ -1 then free_pid proc.pid.toNat s.2 else s.2
  if s.1 ≠ 0 then .error (proc.pid, s.1)
  else .ok (slab_free k3)

/-- `proc_alloc`: obtains a record from the slab, zeroes every field,
assigns a PID; on PID exhaustion the record is freed again and no
record is returned. -/
def proc_alloc (N : Nat) (k : Kernel) : Except Panic (Option Process × Kernel) :=
  let t := slab_alloc k
  if !t.1 then .ok (none, t.2)
  else
    let a := alloc_pid N t.2
    let proc : Process := { zeroProcess with pid := a.1 }
    if a.1 = -1 then
      match proc_free proc a.2 with
      | .error e => .error e
      | .ok k3 => .ok (none, k3)
    else .ok (some proc, a.2)

/-- One loadable image for the exec path.
Modelled from the spec: the executable-image loader's input is the raw
bytes; for the model an image is its parse result — a validity flag
(does it parse), the entry address, and the list of user pages its
segments occupy, each with its mapping flags and byte contents. -/
structure Image where
  valid : Bool
  entry : Nat
  pages : List (Nat × Nat × PageData)

/-- `vmm_map`: maps `paddr` at virtual address `vaddr` in `dir`.
Modelled from the spec: the address-space mapping primitive returns the
number of extra page-table frames newly consumed (`1` the first time a
given directory slot is touched, else `0`) and a negative value on
failure, leaking nothing on failure. -/
def vmm_map (dir : PageDir) (vaddr paddr flags : Nat) (k : Kernel) :
    Int × PageDir × Kernel :=
  let pde := vaddr / (NUM_PTE * PAGE_SIZE)
  let pte := (vaddr / PAGE_SIZE) % NUM_PTE
  match dir.slot pde with
  | some (tab, tf) =>
    (0, vmm_map_page_table_index dir pde (vmm_map_page_index tab pte paddr flags) tf, k)
  | none =>
    let (ta, k1) := pmm_alloc_page_address k
    if ta = 0 then (-1, dir, k)
    else
      let tab := vmm_map_page_index ⟨ta, fun _ => (0, 0)⟩ pte paddr flags
      (1, vmm_map_page_table_index dir pde tab flags, k1)

/-- Segment-mapping loop of the image loader.
Modelled from the spec: for each page of the image's segments, allocate
a frame, map it at the segment's virtual address, copy the bytes in,
and account the newly consumed frames in `mem_pages`; a failed mapping
frees the frame it had just allocated (failure must not leak the frames
allocated in that step). -/
def elf_map_pages : List (Nat × Nat × PageData) → Process → Kernel →
    Bool × Process × Kernel
  | [], proc, k => (true, proc, k)
  | (va, fl, data) :: rest, proc, k =>
    let dir := proc.page_dir.getD emptyDir
    let p := pmm_alloc_page_address k
    if p.1 = 0 then (false, proc, p.2)
    else
      let v := vmm_map dir va p.1 fl p.2
      if v.1 < 0 then (false, proc, pmm_free_page_address p.1 v.2.2)
      else
        let k3 := mem_write v.2.2 p.1 data
        elf_map_pages rest
          { proc with page_dir := some v.2.1,
                      mem_pages := add32 proc.mem_pages (v.1.toNat + 1) } k3

/-- `elf_load_program`.
Modelled from the spec: the loader parses the binary format (rejecting
an invalid image before mapping anything), maps its segments into the
given address space, and on success stores the entry address in the
process record. -/
def elf_load_program (img : Image) (proc : Process) (k : Kernel) :
    Bool × Process × Kernel :=
  if !img.valid then (false, proc, k)
  else elf_map_pages img.pages { proc with entry := img.entry } k

/-- `alloc_proc_stacks`: allocates one frame for the kernel stack and
maps it just below `PROC_KERNEL_STACK`, then one frame for the user
stack mapped just below `PROC_USER_STACK`; each successful mapping adds
`extra_pages + 1` to `mem_pages`; a failed mapping frees the frame that
was just allocated. -/
def alloc_proc_stacks (proc : Process) (k : Kernel) : Bool × Process × Kernel :=
  let dir := proc.page_dir.getD emptyDir
  let p1 := pmm_alloc_page_address k
  if p1.1 = 0 then (false, proc, p1.2)
  else
    let v1 := vmm_map dir (PROC_KERNEL_STACK - PAGE_SIZE) p1.1 VMM_WRITABLE p1.2
    if v1.1 < 0 then (false, proc, pmm_free_page_address p1.1 v1.2.2)
    else
      let proc1 := { proc with page_dir := some v1.2.1,
                               mem_pages := add32 proc.mem_pages (v1.1.toNat + 1) }
      let p2 := pmm_alloc_page_address v1.2.2
      if p2.1 = 0 then (false, proc1, p2.2)
      else
        let v2 := vmm_map v1.2.1 (PROC_USER_STACK - PAGE_SIZE) p2.1
          (VMM_WRITABLE ||| VMM_USER) p2.2
        if v2.1 < 0 then (false, proc1, pmm_free_page_address p2.1 v2.2.2)
        else
          (true,
           { proc1 with page_dir := some v2.2.1,
                        mem_pages := add32 proc1.mem_pages (v2.1.toNat + 1),
                        kernel_stack := PROC_KERNEL_STACK,
                        user_stack := PROC_USER_STACK }, v2.2.2)

/-- `init_proc_from_elf`: allocates a fresh address space, loads the
image, allocates and maps both stacks, then copies the kernel's shared
mappings. -/
def init_proc_from_elf (proc : Process) (img : Image) (k : Kernel) :
    Bool × Process × Kernel :=
  let d := vmm_alloc_vaddr_space k
  match d.1 with
  | none => (false, proc, d.2)
  | some dir =>
    let proc1 := { proc with page_dir := some dir,
                             mem_pages := inc32 proc.mem_pages }
    let t := elf_load_program img proc1 d.2
    if !t.1 then (false, t.2.1, t.2.2)
    else
      let u := alloc_proc_stacks t.2.1 t.2.2
      if !u.1 then (false, u.2.1, u.2.2)
      else
        (true,
         { u.2.1 with
             page_dir := some (pg_copy_kernel_space (u.2.1.page_dir.getD emptyDir)) },
         u.2.2)

/-- `proc_exec`: acquires a record, builds its address space from the
image, and on success marks it running and hands it to the scheduler;
on failure the half-built record is destroyed and failure is
reported. -/
def proc_exec (N : Nat) (img : Image) (k : Kernel) : Except Panic (Bool × Kernel) :=
  match proc_alloc N k with
  | .error e => .error e
  | .ok (none, k1) => .ok (false, k1)
  | .ok (some proc, k1) =>
    let t := init_proc_from_elf proc img k1
    if !t.1 then
      match proc_free t.2.1 t.2.2 with
      | .error e => .error e
      | .ok k3 => .ok (false, k3)
    else
      .ok (true, sched_add { t.2.1 with state := PROC_STATE_RUNNING } t.2.2)

/-- The inner loop of the clone walk: for each listed entry of the
source table, if a page is mapped there, allocate a fresh frame, copy
the page bytes, map the fresh frame at the same slot of the clone's
table with the same flags, and count it. -/
def clone_ptes : List Nat → PageTable → PageTable → Nat → Kernel →
    Bool × PageTable × Nat × Kernel
  | [], _, ctab, mp, k => (true, ctab, mp, k)
  | pte :: rest, stab, ctab, mp, k =>
    let g := vmm_get_page_index stab pte
    if g.1 ≠ 0 then
      let p := pmm_alloc_page_address k
      if p.1 = 0 then (false, ctab, mp, p.2)
      else
        let k2 := memcpy_page p.2 p.1 g.1
        let ctab1 := vmm_map_page_index ctab pte p.1 g.2
        clone_ptes rest stab ctab1 (inc32 mp) k2
    else clone_ptes rest stab ctab mp k

/-- The outer loop of the clone walk: for each listed directory slot of
the source that holds a table, allocate a fresh table, map it at the
same slot of the clone's directory with the same flags, count it, and
copy the table's pages.  As in the C code, the clone's directory holds
the table from the moment it is mapped, so a mid-walk failure leaves
the partially filled table reachable from the directory. -/
def clone_pdes : List Nat → PageDir → PageDir → Nat → Kernel →
    Bool × PageDir × Nat × Kernel
  | [], _, cdir, mp, k => (true, cdir, mp, k)
  | pde :: rest, sdir, cdir, mp, k =>
    let g := vmm_get_page_table_index sdir pde
    match g.1 with
    | none => clone_pdes rest sdir cdir mp k
    | some stab =>
      let a := vmm_alloc_page_table k
      match a.1 with
      | none => (false, cdir, mp, a.2)
      | some ctab0 =>
        let s := clone_ptes (List.range NUM_PTE) stab ctab0 (inc32 mp) a.2
        let cdir1 := vmm_map_page_table_index cdir pde s.2.1 g.2
        if s.1 then clone_pdes rest sdir cdir1 s.2.2.1 s.2.2.2
        else (false, cdir1, s.2.2.1, s.2.2.2)

/-- `init_proc_from_proc`: allocates a fresh directory for the clone,
deep-copies every user-space mapping of the source, and re-establishes
the kernel's shared mappings. -/
def init_proc_from_proc (clone : Process) (proc : Process) (k : Kernel) :
    Bool × Process × Kernel :=
  let (dir?, k1) := vmm_alloc_vaddr_space k
  match dir? with
  | none => (false, clone, k1)
  | some cdir0 =>
    let sdir := proc.page_dir.getD emptyDir
    let s := clone_pdes (List.range USER_PDE) sdir cdir0 (inc32 clone.mem_pages) k1
    if s.1 then
      (true,
       { clone with page_dir := some (pg_copy_kernel_space s.2.1),
                    mem_pages := s.2.2.1 },
       s.2.2.2)
    else
      (false, { clone with page_dir := some s.2.1, mem_pages := s.2.2.1 }, s.2.2.2)

/-- `proc_clone`: acquires a record, deep-copies the source's address
space into it, checks the frame self-consistency invariant (panicking
on mismatch), copies context, entry and stack tops verbatim, records
the parent, marks the clone running and hands it to the scheduler. -/
def proc_clone (N : Nat) (proc : Process) (k : Kernel) :
    Except Panic (Option Process × Kernel) :=
  match proc_alloc N k with
  | .error e => .error e
  | .ok (none, k1) => .ok (none, k1)
  | .ok (some clone, k1) =>
    let t := init_proc_from_proc clone proc k1
    if !t.1 then
      match proc_free t.2.1 t.2.2 with
      | .error e => .error e
      | .ok k3 => .ok (none, k3)
    else
      if t.2.1.mem_pages ≠ proc.mem_pages then .error (t.2.1.pid, t.2.1.mem_pages)
      else
        let clone2 := { t.2.1 with
          state := PROC_STATE_RUNNING,
          context := proc.context,
          entry := proc.entry,
          kernel_stack := proc.kernel_stack,
          user_stack := proc.user_stack,
          parent := some proc.pid }
        .ok (some clone2, sched_add clone2 t.2.2)

/-- `proc_exit`: records the exit status, marks the record dead, and
yields to the scheduler (the context switch itself is outside this
module). -/
def proc_exit (proc : Process) (status : Int) : Process :=
  { proc with status := status, state := PROC_STATE_DEAD }

/-- The physical page frames mapped by the listed entries of a table. -/
def tableFramesOn (l : List Nat) (tab : PageTable) : List Nat :=
  l.filterMap (fun i => if (tab.entry i).1 ≠ 0 then some (tab.entry i).1 else none)

/-- The physical page frames mapped by a table. -/
def tableFrames (tab : PageTable) : List Nat :=
  tableFramesOn (List.range NUM_PTE) tab

/-- The frames owned through one directory slot: the pages mapped in
its table plus the table's own frame; none for an empty slot. -/
def slotFrames (dir : PageDir) (pde : Nat) : List Nat :=
  match dir.slot pde with
  | none => []
  | some (tab, _) => tableFrames tab ++ [tab.addr]

/-- The frames owned through the listed directory slots. -/
def userFramesOn (l : List Nat) (dir : PageDir) : List Nat :=
  l.flatMap (slotFrames dir)

/-- The frames owned through the user-space half of the directory. -/
def userFrames (dir : PageDir) : List Nat :=
  userFramesOn (List.range USER_PDE) dir

/-- Every frame a process owns through its directory: the directory's
own frame, each page table reachable from a user-space slot, and each
page mapped in those tables. -/
def ownedFrames (dir : PageDir) : List Nat :=
  dir.addr :: userFrames dir

/-- Number of page tables reachable from user-space directory slots. -/
def userTableCount (dir : PageDir) : Nat :=
  ((List.range USER_PDE).filter (fun pde => (dir.slot pde).isSome)).length

/-- Number of pages mapped in the user-space page tables. -/
def userPageCount (dir : PageDir) : Nat :=
  ((List.range USER_PDE).map (fun pde =>
    match dir.slot pde with
    | none => 0
    | some (tab, _) => (tableFrames tab).length)).sum

theorem userFramesOn_length (dir : PageDir) (l : List Nat) :
    (userFramesOn l dir).length =
      (l.map (fun pde =>
        match dir.slot pde with
        | none => 0
        | some (tab, _) => (tableFrames tab).length)).sum
      + (l.filter (fun pde => (dir.slot pde).isSome)).length := by
  induction l with
  | nil => simp [userFramesOn]
  | cons pde rest ih =>
    simp only [userFramesOn, List.flatMap_cons, List.map_cons, List.filter_cons,
      List.length_append, List.sum_cons] at *
    cases h : dir.slot pde with
    | none => simp [slotFrames, h, ih]
    | some tf =>
      obtain ⟨tab, f⟩ := tf
      simp [slotFrames, h, ih]
      omega

/-- The frames a process owns number one (the directory) plus one per
reachable user-space page table plus one per page mapped in those
tables. -/
theorem ownedFrames_length (dir : PageDir) :
    (ownedFrames dir).length = 1 + userTableCount dir + userPageCount dir := by
  simp only [ownedFrames, userFrames, List.length_cons, userFramesOn_length,
    userTableCount, userPageCount]
  omega

theorem shiftLeft_one_eq (j : Nat) : (1 <<< j) = 2 ^ j := by
  rw [Nat.shiftLeft_eq, one_mul]

theorem pid_test_eq_testBit (m : Nat → Nat) (pid : Nat) :
    pid_test m pid = (m (pid / 8)).testBit (pid % 8) := by
  unfold pid_test
  rw [shiftLeft_one_eq, Nat.and_two_pow]
  cases h : (m (pid / 8)).testBit (pid % 8)
  · simp [h]
  · have h2 : (2 : Nat) ^ (pid % 8) ≠ 0 := pow_ne_zero _ (by norm_num)
    simp [h, h2]

theorem pid_test_set (m : Nat → Nat) (p q : Nat) :
    pid_test (pid_set m p) q = (pid_test m q || decide (q = p)) := by
  rw [pid_test_eq_testBit, pid_test_eq_testBit]
  simp only [pid_set]
  by_cases h : q / 8 = p / 8
  · rw [if_pos h, shiftLeft_one_eq, Nat.testBit_or, Nat.testBit_two_pow]
    have hiff : decide (p % 8 = q % 8) = decide (q = p) := by
      apply decide_eq_decide.mpr
      constructor
      · intro hx; omega
      · intro hx; omega
    rw [hiff]
  · rw [if_neg h]
    have hqp : decide (q = p) = false := by
      apply decide_eq_false
      intro hh
      exact h (by rw [hh])
    rw [hqp, Bool.or_false]

theorem pid_test_clear (m : Nat → Nat) (p q : Nat) :
    pid_test (pid_clear m p) q = (pid_test m q && !decide (q = p)) := by
  rw [pid_test_eq_testBit, pid_test_eq_testBit]
  simp only [pid_clear]
  by_cases h : q / 8 = p / 8
  · rw [if_pos h, shiftLeft_one_eq]
    rw [show (255 : Nat) = 2 ^ 8 - 1 by norm_num]
    rw [Nat.testBit_and, Nat.testBit_xor, Nat.testBit_two_pow_sub_one,
      Nat.testBit_two_pow]
    have h8 : decide (q % 8 < 8) = true := by
      apply decide_eq_true
      exact Nat.mod_lt _ (by norm_num)
    rw [h8]
    have hiff : decide (p % 8 = q % 8) = decide (q = p) := by
      apply decide_eq_decide.mpr
      constructor
      · intro hx; omega
      · intro hx; omega
    rw [hiff, Bool.true_xor]
  · rw [if_neg h]
    have hqp : decide (q = p) = false := by
      apply decide_eq_false
      intro hh
      exact h (by rw [hh])
    rw [hqp, Bool.not_false, Bool.and_true]

theorem alloc_pid_loop_found (N : Nat) (h0 : 0 < N) :
    ∀ fuel j (k : Kernel), k.pid_gen < N → j < fuel →
      (∀ i, i < j → pid_test k.pid_map ((k.pid_gen + i) % N) = true) →
      pid_test k.pid_map ((k.pid_gen + j) % N) = false →
      alloc_pid_loop N fuel k =
        ((((k.pid_gen + j) % N : Nat) : Int),
         { k with pid_map := pid_set k.pid_map ((k.pid_gen + j) % N),
                  pid_gen := ((k.pid_gen + j) % N + 1) % N }) := by
  intro fuel
  induction fuel with
  | zero =>
    intro j k hg hj hall hunset
    omega
  | succ fuel ih =>
    intro j k hg hj hall hunset
    simp only [alloc_pid_loop]
    cases j with
    | zero =>
      rw [Nat.add_zero, Nat.mod_eq_of_lt hg] at hunset
      simp only [hunset, Bool.false_eq_true, if_false]
      have e0 : (k.pid_gen + 0) % N = k.pid_gen := by
        rw [Nat.add_zero, Nat.mod_eq_of_lt hg]
      rw [e0]
    | succ j =>
      have h0test : pid_test k.pid_map k.pid_gen = true := by
        have h := hall 0 (Nat.succ_pos j)
        rwa [Nat.add_zero, Nat.mod_eq_of_lt hg] at h
      simp only [h0test, if_true]
      have hg1 : ({ k with pid_gen := (k.pid_gen + 1) % N } : Kernel).pid_gen < N :=
        Nat.mod_lt _ h0
      have hall1 : ∀ i, i < j →
          pid_test k.pid_map (((k.pid_gen + 1) % N + i) % N) = true := by
        intro i hi
        rw [Nat.mod_add_mod]
        have e : k.pid_gen + 1 + i = k.pid_gen + (i + 1) := by omega
        rw [e]
        exact hall (i + 1) (by omega)
      have hunset1 : pid_test k.pid_map (((k.pid_gen + 1) % N + j) % N) = false := by
        rw [Nat.mod_add_mod]
        have e : k.pid_gen + 1 + j = k.pid_gen + (j + 1) := by omega
        rw [e]
        exact hunset
      have key := ih j { k with pid_gen := (k.pid_gen + 1) % N } hg1
        (Nat.lt_of_succ_lt_succ hj) hall1 hunset1
      rw [key]
      have e2 : ((k.pid_gen + 1) % N + j) % N = (k.pid_gen + (j + 1)) % N := by
        rw [Nat.mod_add_mod]
        have e : k.pid_gen + 1 + j = k.pid_gen + (j + 1) := by omega
        rw [e]
      rw [e2]

theorem alloc_pid_loop_none (N : Nat) (h0 : 0 < N) :
    ∀ fuel (k : Kernel), k.pid_gen < N →
      (∀ i, i < fuel → pid_test k.pid_map ((k.pid_gen + i) % N) = true) →
      alloc_pid_loop N fuel k = (-1, { k with pid_gen := (k.pid_gen + fuel) % N }) := by
  intro fuel
  induction fuel with
  | zero =>
    intro k hg _
    have e0 : (k.pid_gen + 0) % N = k.pid_gen := by
      rw [Nat.add_zero, Nat.mod_eq_of_lt hg]
    rw [e0]
    rfl
  | succ fuel ih =>
    intro k hg hall
    simp only [alloc_pid_loop]
    have h0test : pid_test k.pid_map k.pid_gen = true := by
      have h := hall 0 (Nat.succ_pos fuel)
      rwa [Nat.add_zero, Nat.mod_eq_of_lt hg] at h
    simp only [h0test, if_true]
    have hg1 : ({ k with pid_gen := (k.pid_gen + 1) % N } : Kernel).pid_gen < N :=
      Nat.mod_lt _ h0
    have hall1 : ∀ i, i < fuel →
        pid_test k.pid_map (((k.pid_gen + 1) % N + i) % N) = true := by
      intro i hi
      rw [Nat.mod_add_mod]
      have e : k.pid_gen + 1 + i = k.pid_gen + (i + 1) := by omega
      rw [e]
      exact hall (i + 1) (by omega)
    have key := ih { k with pid_gen := (k.pid_gen + 1) % N } hg1 hall1
    rw [key]
    have e2 : ((k.pid_gen + 1) % N + fuel) % N = (k.pid_gen + (fuel + 1)) % N := by
      rw [Nat.mod_add_mod]
      have e : k.pid_gen + 1 + fuel = k.pid_gen + (fuel + 1) := by omega
      rw [e]
    rw [e2]

theorem rotation_hit (N g p : Nat) (hg : g < N) (hp : p < N) :
    (g + (p + N - g) % N) % N = p := by
  rw [Nat.add_comm g ((p + N - g) % N), Nat.mod_add_mod, Nat.add_comm (p + N - g) g]
  have e : g + (p + N - g) = p + N := by omega
  rw [e, Nat.add_mod_right, Nat.mod_eq_of_lt hp]

/-- C10: when every PID bit is set, `alloc_pid` fails with the allocator
state unchanged: no bitmap bit is modified and the cursor `pid_gen` ends
at exactly its entry value, having been advanced `PROC_MAX_NUM` times
modulo `PROC_MAX_NUM`. -/
theorem alloc_pid_full_scan_unchanged (N : Nat) (k : Kernel) (h0 : 0 < N)
    (hg : k.pid_gen < N) (hfull : ∀ p, p < N → pid_test k.pid_map p = true) :
    alloc_pid N k = (-1, k) := by
  unfold alloc_pid
  have hall : ∀ i, i < N → pid_test k.pid_map ((k.pid_gen + i) % N) = true := by
    intro i _
    exact hfull _ (Nat.mod_lt _ h0)
  rw [alloc_pid_loop_none N h0 N k hg hall, Nat.add_mod_right,
    Nat.mod_eq_of_lt hg]

/-- C7: `alloc_pid` scans at most `PROC_MAX_NUM` candidates starting at
the rotating cursor `pid_gen`; it returns the first candidate whose
bitmap bit is unset, with that bit now set and the cursor advanced to
the returned PID plus one modulo `PROC_MAX_NUM`; after a full
unsuccessful scan it returns `-1`.  (Allocation thus resumes from the
cursor — round-robin — rather than from the lowest free PID, as the
concrete run in the witness shows.) -/
theorem alloc_pid_first_fit_round_robin (N : Nat) (k : Kernel) (h0 : 0 < N)
    (hg : k.pid_gen < N) :
    (∀ j, j < N →
      (∀ i, i < j → pid_test k.pid_map ((k.pid_gen + i) % N) = true) →
      pid_test k.pid_map ((k.pid_gen + j) % N) = false →
      alloc_pid N k =
        ((((k.pid_gen + j) % N : Nat) : Int),
         { k with pid_map := pid_set k.pid_map ((k.pid_gen + j) % N),
                  pid_gen := ((k.pid_gen + j) % N + 1) % N }))
    ∧ ((∀ i, i < N → pid_test k.pid_map ((k.pid_gen + i) % N) = true) →
      alloc_pid N k = (-1, { k with pid_gen := k.pid_gen })) := by
  constructor
  · intro j hj hall hunset
    exact alloc_pid_loop_found N h0 N j k hg hj hall hunset
  · intro hall
    unfold alloc_pid
    rw [alloc_pid_loop_none N h0 N k hg hall, Nat.add_mod_right,
      Nat.mod_eq_of_lt hg]

/-- Concrete allocator state for the C7 witness: cursor at 2, all PIDs
free. -/
def pidK0 : Kernel := { initKernel with pid_gen := 2 }

theorem alloc_pid_first_fit_round_robin_witness :
    alloc_pid 4 pidK0 =
      ((2 : Int), { pidK0 with pid_map := pid_set pidK0.pid_map 2, pid_gen := 3 }) :=
  (alloc_pid_first_fit_round_robin 4 pidK0 (by norm_num) (by decide)).1 0
    (by norm_num) (fun i hi => absurd hi (by omega)) (by decide)

/-- Concrete allocator state for the C10 witness: 3 PIDs, all assigned,
cursor at 1. -/
def pidKFull : Kernel :=
  { initKernel with pid_map := fun i => if i = 0 then 7 else 0, pid_gen := 1 }

theorem alloc_pid_full_scan_unchanged_witness :
    alloc_pid 3 pidKFull = (-1, pidKFull) :=
  alloc_pid_full_scan_unchanged 3 pidKFull (by norm_num) (by decide) (by decide)

theorem alloc_pid_cases (N : Nat) (k : Kernel) (h0 : 0 < N) (hg : k.pid_gen < N) :
    (alloc_pid N k = (-1, k) ∧ ∀ p, p < N → pid_test k.pid_map p = true)
    ∨ (∃ p, p < N ∧ pid_test k.pid_map p = false ∧
        alloc_pid N k =
          ((p : Int), { k with pid_map := pid_set k.pid_map p,
                               pid_gen := (p + 1) % N })) := by
  by_cases hfull : ∀ p, p < N → pid_test k.pid_map p = true
  · left
    refine ⟨?_, hfull⟩
    unfold alloc_pid
    have hall : ∀ i, i < N → pid_test k.pid_map ((k.pid_gen + i) % N) = true := by
      intro i _
      exact hfull _ (Nat.mod_lt _ h0)
    rw [alloc_pid_loop_none N h0 N k hg hall, Nat.add_mod_right, Nat.mod_eq_of_lt hg]
  · right
    push_neg at hfull
    obtain ⟨p, hp, hunset⟩ := hfull
    have hunset2 : pid_test k.pid_map p = false := by
      cases hb : pid_test k.pid_map p
      · rfl
      · exact absurd hb hunset
    have hex : ∃ j, j < N ∧ pid_test k.pid_map ((k.pid_gen + j) % N) = false :=
      ⟨(p + N - k.pid_gen) % N, Nat.mod_lt _ h0, by
        rw [rotation_hit N k.pid_gen p hg hp]; exact hunset2⟩
    obtain ⟨hj0N, hj0unset⟩ := Nat.find_spec hex
    have hall : ∀ i, i < Nat.find hex →
        pid_test k.pid_map ((k.pid_gen + i) % N) = true := by
      intro i hi
      have hmin := Nat.find_min hex hi
      cases hb : pid_test k.pid_map ((k.pid_gen + i) % N)
      · exact absurd ⟨by omega, hb⟩ hmin
      · rfl
    refine ⟨(k.pid_gen + Nat.find hex) % N, Nat.mod_lt _ h0, hj0unset, ?_⟩
    exact alloc_pid_loop_found N h0 N (Nat.find hex) k hg hj0N hall hj0unset

/-- One operation on the PID allocator: an `alloc_pid` call or a
`free_pid` call. -/
inductive PidOp where
  | alloc : PidOp
  | free : Nat → PidOp

/-- Effect of one allocator operation on the kernel state, alongside a
ghost list of the PIDs currently handed out and not yet released: a
successful `alloc_pid` appends its result, `free_pid p` removes `p`. -/
def pid_step (N : Nat) : PidOp → Kernel × List Nat → Kernel × List Nat
  | .alloc, (k, live) =>
    let (r, k1) := alloc_pid N k
    if r = -1 then (k1, live) else (k1, live ++ [r.toNat])
  | .free p, (k, live) => (free_pid p k, live.erase p)

/-- Running a sequence of allocator operations. -/
def pid_run (N : Nat) : List PidOp → Kernel × List Nat → Kernel × List Nat
  | [], s => s
  | op :: ops, s => pid_run N ops (pid_step N op s)

/-- A sequence is valid when `free_pid` is only ever applied to a PID
that is currently assigned, the callers' contract stated by the spec. -/
def pid_valid (N : Nat) : List PidOp → Kernel × List Nat → Bool
  | [], _ => true
  | .alloc :: ops, s => pid_valid N ops (pid_step N .alloc s)
  | .free p :: ops, s => s.2.contains p && pid_valid N ops (pid_step N (.free p) s)

/-- The allocator invariant: the ghost list of live PIDs has no
duplicates and coincides with the set bits below `N`, and the cursor is
in range. -/
def PidInv (N : Nat) (s : Kernel × List Nat) : Prop :=
  s.2.Nodup ∧ (∀ p, p ∈ s.2 ↔ (p < N ∧ pid_test s.1.pid_map p = true)) ∧
    s.1.pid_gen < N

theorem pid_step_inv (N : Nat) (h0 : 0 < N) (s : Kernel × List Nat)
    (hinv : PidInv N s) :
    ∀ op, (∀ p, op = PidOp.free p → p ∈ s.2) → PidInv N (pid_step N op s) := by
  obtain ⟨k, live⟩ := s
  obtain ⟨hnd, hiff, hg⟩ := hinv
  intro op hop
  cases op with
  | alloc =>
    obtain hc | hc := alloc_pid_cases N k h0 hg
    · simp only [pid_step, hc.1]
      exact ⟨hnd, hiff, hg⟩
    · obtain ⟨p, hp, hunset, heq⟩ := hc
      have hne : ¬ ((p : Int) = -1) := by omega
      simp only [pid_step, heq, if_neg hne, Int.toNat_natCast]
      have hpnotin : p ∉ live := by
        intro hmem
        have hT := ((hiff p).mp hmem).2
        rw [hT] at hunset
        exact absurd hunset (by simp)
      refine ⟨?_, ?_, Nat.mod_lt _ h0⟩
      · simp [List.nodup_append, hnd, hpnotin]
      · intro q
        simp only [List.mem_append, List.mem_singleton, pid_test_set]
        constructor
        · intro hq
          cases hq with
          | inl hql =>
            obtain ⟨hqN, hqT⟩ := (hiff q).mp hql
            exact ⟨hqN, by simp [hqT]⟩
          | inr hqp =>
            subst hqp
            exact ⟨hp, by simp⟩
        · intro ⟨hqN, hqT⟩
          by_cases hqp : q = p
          · exact Or.inr hqp
          · left
            apply (hiff q).mpr
            refine ⟨hqN, ?_⟩
            simp [hqp] at hqT
            exact hqT
  | free p =>
    have hpmem : p ∈ live := hop p rfl
    simp only [pid_step, free_pid]
    refine ⟨hnd.erase p, ?_, hg⟩
    intro q
    rw [hnd.mem_erase_iff]
    simp only [pid_test_clear]
    constructor
    · intro ⟨hqp, hql⟩
      obtain ⟨hqN, hqT⟩ := (hiff q).mp hql
      exact ⟨hqN, by simp [hqT, hqp]⟩
    · intro ⟨hqN, hqT⟩
      by_cases hqp : q = p
      · subst hqp
        simp at hqT
      · simp [hqp] at hqT
        exact ⟨hqp, (hiff q).mpr ⟨hqN, hqT⟩⟩

theorem pid_run_inv (N : Nat) (h0 : 0 < N) :
    ∀ ops (s : Kernel × List Nat), PidInv N s → pid_valid N ops s = true →
      PidInv N (pid_run N ops s) := by
  intro ops
  induction ops with
  | nil =>
    intro s hinv _
    exact hinv
  | cons op rest ih =>
    intro s hinv hvalid
    cases op with
    | alloc =>
      simp only [pid_valid] at hvalid
      exact ih _ (pid_step_inv N h0 s hinv .alloc (by intro p h; cases h)) hvalid
    | free p =>
      simp only [pid_valid, Bool.and_eq_true] at hvalid
      refine ih _ (pid_step_inv N h0 s hinv (.free p) ?_) hvalid.2
      intro q hq
      cases hq
      exact List.mem_of_elem_eq_true hvalid.1

/-- C4: for every valid sequence of `alloc_pid` and `free_pid` calls
from the boot state (`free_pid` applied only to currently assigned
PIDs), the PIDs simultaneously assigned are pairwise distinct, and a
further `alloc_pid` returns the failure value `-1` only when exactly
`PROC_MAX_NUM` PIDs are simultaneously assigned. -/
theorem pid_uniqueness_and_exhaustion (N : Nat) (ops : List PidOp) (h0 : 0 < N)
    (hvalid : pid_valid N ops (initKernel, []) = true) :
    (pid_run N ops (initKernel, [])).2.Nodup ∧
    ((alloc_pid N (pid_run N ops (initKernel, [])).1).1 = -1 →
      (pid_run N ops (initKernel, [])).2.length = N) := by
  have hinv0 : PidInv N (initKernel, []) := by
    refine ⟨List.nodup_nil, ?_, h0⟩
    intro p
    simp [initKernel, pid_test]
  have hinv := pid_run_inv N h0 ops _ hinv0 hvalid
  obtain ⟨hnd, hiff, hg⟩ := hinv
  refine ⟨hnd, ?_⟩
  intro hfail
  obtain hc | hc := alloc_pid_cases N (pid_run N ops (initKernel, [])).1 h0 hg
  · have hset : (pid_run N ops (initKernel, [])).2.toFinset = Finset.range N := by
      ext q
      rw [List.mem_toFinset, Finset.mem_range, hiff q]
      constructor
      · intro hx
        exact hx.1
      · intro hx
        exact ⟨hx, hc.2 q hx⟩
    calc (pid_run N ops (initKernel, [])).2.length
        = (pid_run N ops (initKernel, [])).2.toFinset.card :=
          (List.toFinset_card_of_nodup hnd).symm
      _ = N := by rw [hset, Finset.card_range]
  · obtain ⟨p, _, _, heq⟩ := hc
    rw [heq] at hfail
    simp only at hfail
    omega

theorem pid_uniqueness_and_exhaustion_witness :
    (pid_run 2 [PidOp.alloc, PidOp.alloc] (initKernel, [])).2.Nodup ∧
    ((alloc_pid 2 (pid_run 2 [PidOp.alloc, PidOp.alloc] (initKernel, [])).1).1 = -1 →
      (pid_run 2 [PidOp.alloc, PidOp.alloc] (initKernel, [])).2.length = 2) :=
  pid_uniqueness_and_exhaustion 2 [PidOp.alloc, PidOp.alloc] (by norm_num) (by decide)

theorem dec32_iterate_formula (n mp : Nat) (hmp : mp < M32) :
    dec32^[n] mp = (mp + n * (M32 - 1)) % M32 := by
  induction n with
  | zero =>
    simp [Nat.mod_eq_of_lt hmp]
  | succ n ih =>
    rw [Function.iterate_succ_apply', ih]
    unfold dec32
    rw [Nat.mod_add_mod]
    congr 1
    simp only [M32]
    ring

theorem dec32_iterate_self (n : Nat) (hn : n < M32) : dec32^[n] n = 0 := by
  rw [dec32_iterate_formula n n hn]
  have h : n + n * (M32 - 1) = n * M32 := by
    have hM : (1 : Nat) + (M32 - 1) = M32 := by norm_num [M32]
    calc n + n * (M32 - 1) = n * 1 + n * (M32 - 1) := by rw [Nat.mul_one]
      _ = n * (1 + (M32 - 1)) := by rw [Nat.mul_add]
      _ = n * M32 := by rw [hM]
  rw [h, Nat.mul_mod_left]

theorem dec32_iterate_ne (mp n : Nat) (hmp : mp < M32) (hn : n < M32)
    (hne : mp ≠ n) : dec32^[n] mp ≠ 0 := by
  rw [dec32_iterate_formula n mp hmp]
  have hexp : mp + n * (M32 - 1) = mp + M32 * n - n := by
    simp only [M32]
    omega
  rw [hexp]
  simp only [M32] at hmp hn ⊢
  omega

theorem filterMap_update_perm {α : Type} (x : α) :
    ∀ (l : List Nat) (j : Nat) (f g : Nat → Option α), l.Nodup → j ∈ l →
      (∀ i, i ≠ j → g i = f i) → f j = none → g j = some x →
      (l.filterMap g).Perm (x :: l.filterMap f) := by
  intro l
  induction l with
  | nil =>
    intro j f g _ hmem
    cases hmem
  | cons a rest ih =>
    intro j f g hnd hmem hsame hold hnew
    rcases List.mem_cons.mp hmem with rfl | hmemr
    · have hrest : rest.filterMap g = rest.filterMap f := by
        apply List.filterMap_congr
        intro i hi
        have : i ≠ j := by
          intro h
          subst h
          exact (List.nodup_cons.mp hnd).1 hi
        exact hsame i this
      simp [List.filterMap_cons, hold, hnew, hrest]
    · have haj : a ≠ j := by
        intro h
        subst h
        exact (List.nodup_cons.mp hnd).1 hmemr
      have hrest := ih j f g (List.nodup_cons.mp hnd).2 hmemr hsame hold hnew
      rw [List.filterMap_cons, List.filterMap_cons, hsame a haj]
      cases hfa : f a with
      | none => exact hrest
      | some y =>
        show (y :: rest.filterMap g).Perm (x :: y :: rest.filterMap f)
        exact (hrest.cons y).trans (List.Perm.swap x y _)

theorem flatMap_update_perm {α : Type} (extra : List α) :
    ∀ (l : List Nat) (j : Nat) (F G : Nat → List α), l.Nodup → j ∈ l →
      (∀ i, i ≠ j → G i = F i) → (G j).Perm (extra ++ F j) →
      (l.flatMap G).Perm (extra ++ l.flatMap F) := by
  intro l
  induction l with
  | nil =>
    intro j F G _ hmem
    cases hmem
  | cons a rest ih =>
    intro j F G hnd hmem hsame hperm
    rcases List.mem_cons.mp hmem with rfl | hmemr
    · have hrest : rest.flatMap G = rest.flatMap F := by
        apply List.flatMap_congr
        intro i hi
        have : i ≠ j := by
          intro h
          subst h
          exact (List.nodup_cons.mp hnd).1 hi
        exact hsame i this
      rw [List.flatMap_cons, List.flatMap_cons, hrest, ← List.append_assoc]
      exact hperm.append_right _
    · have haj : a ≠ j := by
        intro h
        subst h
        exact (List.nodup_cons.mp hnd).1 hmemr
      have hrest := ih j F G (List.nodup_cons.mp hnd).2 hmemr hsame hperm
      rw [List.flatMap_cons, List.flatMap_cons, hsame a haj]
      refine (hrest.append_left (F a)).trans ?_
      rw [← List.append_assoc, ← List.append_assoc]
      exact (List.perm_append_comm).append_right _

theorem tableFramesOn_clear (l : List Nat) (tab : PageTable) (pte : Nat)
    (h : pte ∉ l) :
    tableFramesOn l
      { tab with entry := fun i => if i = pte then (0, 0) else tab.entry i } =
    tableFramesOn l tab := by
  unfold tableFramesOn
  apply List.filterMap_congr
  intro i hi
  have hne : i ≠ pte := fun he => h (he ▸ hi)
  simp [hne]

theorem userFramesOn_clear (l : List Nat) (dir : PageDir) (pde : Nat)
    (h : pde ∉ l) :
    userFramesOn l
      { dir with slot := fun i => if i = pde then none else dir.slot i } =
    userFramesOn l dir := by
  unfold userFramesOn
  apply List.flatMap_congr
  intro i hi
  have hne : i ≠ pde := fun he => h (he ▸ hi)
  simp [slotFrames, hne]

theorem free_ptes_spec :
    ∀ (l : List Nat) (tab : PageTable) (mp : Nat) (k : Kernel), l.Nodup →
      ∃ tab2, free_ptes l tab mp k =
        (tab2, dec32^[(tableFramesOn l tab).length] mp,
         { k with pmm_free := (tableFramesOn l tab).reverse ++ k.pmm_free }) ∧
        tab2.addr = tab.addr := by
  intro l
  induction l with
  | nil =>
    intro tab mp k _
    refine ⟨tab, ?_, rfl⟩
    simp [free_ptes, tableFramesOn]
  | cons pte rest ih =>
    intro tab mp k hnd
    obtain ⟨hpte, hndr⟩ := List.nodup_cons.mp hnd
    have hclear := tableFramesOn_clear rest tab pte hpte
    by_cases hz : (tab.entry pte).1 = 0
    · obtain ⟨tab2, heq, haddr⟩ := ih
        { tab with entry := fun i => if i = pte then (0, 0) else tab.entry i }
        mp k hndr
      refine ⟨tab2, ?_, haddr⟩
      have hfm : tableFramesOn (pte :: rest) tab = tableFramesOn rest tab := by
        unfold tableFramesOn
        rw [List.filterMap_cons]
        simp [hz]
      rw [hfm]
      simp only [free_ptes, vmm_unmap_page_index, hz, ne_eq, not_true_eq_false,
        if_false]
      rw [heq, hclear]
    · obtain ⟨tab2, heq, haddr⟩ := ih
        { tab with entry := fun i => if i = pte then (0, 0) else tab.entry i }
        (dec32 mp) (pmm_free_page_address (tab.entry pte).1 k) hndr
      refine ⟨tab2, ?_, haddr⟩
      have hfm : tableFramesOn (pte :: rest) tab =
          (tab.entry pte).1 :: tableFramesOn rest tab := by
        unfold tableFramesOn
        rw [List.filterMap_cons]
        simp [hz]
      rw [hfm]
      simp only [free_ptes, vmm_unmap_page_index, hz, ne_eq, not_false_eq_true,
        if_true]
      rw [heq, hclear]
      rw [List.length_cons, Function.iterate_succ_apply]
      simp [pmm_free_page_address, List.append_assoc]

theorem free_pdes_cons_none (pde : Nat) (rest : List Nat) (dir : PageDir)
    (mp : Nat) (k : Kernel) (h : dir.slot pde = none) :
    free_pdes (pde :: rest) dir mp k =
      free_pdes rest
        { dir with slot := fun i => if i = pde then none else dir.slot i } mp k := by
  simp only [free_pdes, vmm_unmap_page_table_index, h, Option.map]

theorem free_pdes_cons_some (pde : Nat) (rest : List Nat) (dir : PageDir)
    (mp : Nat) (k : Kernel) (tab : PageTable) (tflag : Nat) (tab2 : PageTable)
    (mp2 : Nat) (k2 : Kernel) (h : dir.slot pde = some (tab, tflag))
    (hpt : free_ptes (List.range NUM_PTE) tab mp k = (tab2, mp2, k2)) :
    free_pdes (pde :: rest) dir mp k =
      free_pdes rest
        { dir with slot := fun i => if i = pde then none else dir.slot i }
        (dec32 mp2) (vmm_free_page_table tab2 k2) := by
  simp only [free_pdes, vmm_unmap_page_table_index, h, Option.map, hpt]

theorem free_pdes_spec :
    ∀ (l : List Nat) (dir : PageDir) (mp : Nat) (k : Kernel), l.Nodup →
      ∃ dir2, free_pdes l dir mp k =
        (dir2, dec32^[(userFramesOn l dir).length] mp,
         { k with pmm_free := (userFramesOn l dir).reverse ++ k.pmm_free }) ∧
        dir2.addr = dir.addr := by
  intro l
  induction l with
  | nil =>
    intro dir mp k _
    refine ⟨dir, ?_, rfl⟩
    simp [free_pdes, userFramesOn]
  | cons pde rest ih =>
    intro dir mp k hnd
    obtain ⟨hpde, hndr⟩ := List.nodup_cons.mp hnd
    have hclear := userFramesOn_clear rest dir pde hpde
    cases hslot : dir.slot pde with
    | none =>
      obtain ⟨dir2, heq, haddr⟩ := ih
        { dir with slot := fun i => if i = pde then none else dir.slot i }
        mp k hndr
      refine ⟨dir2, ?_, haddr⟩
      have hfm : userFramesOn (pde :: rest) dir = userFramesOn rest dir := by
        unfold userFramesOn
        rw [List.flatMap_cons]
        simp [slotFrames, hslot]
      rw [free_pdes_cons_none pde rest dir mp k hslot, heq, hclear, hfm]
    | some tf =>
      obtain ⟨tab, tflag⟩ := tf
      obtain ⟨tab2, heqt, haddrt⟩ :=
        free_ptes_spec (List.range NUM_PTE) tab mp k (List.nodup_range _)
      rw [show tableFramesOn (List.range NUM_PTE) tab = tableFrames tab from rfl]
        at heqt
      obtain ⟨dir2, heq, haddr⟩ := ih
        { dir with slot := fun i => if i = pde then none else dir.slot i }
        (dec32 (dec32^[(tableFrames tab).length] mp))
        { k with pmm_free := tab.addr :: ((tableFrames tab).reverse ++ k.pmm_free) }
        hndr
      refine ⟨dir2, ?_, haddr⟩
      have harg : vmm_free_page_table tab2
          { k with pmm_free := (tableFrames tab).reverse ++ k.pmm_free } =
          { k with pmm_free := tab.addr :: ((tableFrames tab).reverse ++ k.pmm_free) } := by
        simp only [vmm_free_page_table, pmm_free_page_address, haddrt]
      rw [free_pdes_cons_some pde rest dir mp k tab tflag tab2
          (dec32^[(tableFrames tab).length] mp)
          { k with pmm_free := (tableFrames tab).reverse ++ k.pmm_free }
          hslot heqt,
        harg, heq, hclear]
      have hfm : userFramesOn (pde :: rest) dir =
          (tableFrames tab ++ [tab.addr]) ++ userFramesOn rest dir := by
        unfold userFramesOn
        rw [List.flatMap_cons]
        simp [slotFrames, hslot, userFramesOn]
      rw [hfm]
      have hlen : ((tableFrames tab ++ [tab.addr]) ++ userFramesOn rest dir).length
          = (userFramesOn rest dir).length + (1 + (tableFrames tab).length) := by
        rw [List.length_append, List.length_append, List.length_cons,
          List.length_nil]
        omega
      rw [hlen, Function.iterate_add_apply, Function.iterate_add_apply,
        Function.iterate_one]
      rw [List.reverse_append, List.reverse_append, List.reverse_singleton,
        List.append_assoc, List.append_assoc, List.singleton_append]

set_option maxRecDepth 4000 in
theorem proc_free_spec (proc : Process) (k : Kernel) (dir : PageDir)
    (hdir : proc.page_dir = some dir) :
    proc_free proc k =
      (if dec32^[(ownedFrames dir).length] proc.mem_pages ≠ 0 then
        Except.error (proc.pid, dec32^[(ownedFrames dir).length] proc.mem_pages)
      else Except.ok (slab_free
        (if proc.pid ≠ -1 then
          free_pid proc.pid.toNat
            { k with pmm_free := dir.addr :: ((userFrames dir).reverse ++ k.pmm_free) }
         else
          { k with pmm_free := dir.addr :: ((userFrames dir).reverse ++ k.pmm_free) }))) := by
  obtain ⟨dir2, heq, haddr⟩ :=
    free_pdes_spec (List.range USER_PDE) dir proc.mem_pages k (List.nodup_range _)
  rw [show userFramesOn (List.range USER_PDE) dir = userFrames dir from rfl] at heq
  have hexp : dec32 (dec32^[(userFrames dir).length] proc.mem_pages) =
      dec32^[(ownedFrames dir).length] proc.mem_pages := by
    rw [show (ownedFrames dir).length = (userFrames dir).length + 1 from by
      simp [ownedFrames]]
    rw [Function.iterate_succ_apply']
  simp only [proc_free, hdir, heq, vmm_free_vaddr_space, pmm_free_page_address,
    haddr]
  rw [hexp]

theorem userFramesOn_length_le (dir : PageDir) :
    ∀ l : List Nat, (userFramesOn l dir).length ≤ l.length * (NUM_PTE + 1) := by
  intro l
  induction l with
  | nil => simp [userFramesOn]
  | cons pde rest ih =>
    unfold userFramesOn at ih ⊢
    rw [List.flatMap_cons, List.length_append, List.length_cons]
    have hslot : (slotFrames dir pde).length ≤ NUM_PTE + 1 := by
      unfold slotFrames
      cases h : dir.slot pde with
      | none => simp
      | some tf =>
        obtain ⟨tab, f⟩ := tf
        rw [List.length_append, List.length_cons, List.length_nil]
        have := List.length_filterMap_le
          (fun i => if (tab.entry i).1 ≠ 0 then some (tab.entry i).1 else none)
          (List.range NUM_PTE)
        rw [List.length_range] at this
        unfold tableFrames tableFramesOn
        omega
    rw [Nat.add_mul, Nat.one_mul]
    omega

theorem ownedFrames_length_lt (dir : PageDir) : (ownedFrames dir).length < M32 := by
  have h := userFramesOn_length_le dir (List.range USER_PDE)
  rw [List.length_range] at h
  have h2 : (userFrames dir).length ≤ USER_PDE * (NUM_PTE + 1) := by
    unfold userFrames
    exact h
  have h3 : (ownedFrames dir).length = (userFrames dir).length + 1 := by
    simp [ownedFrames]
  have hb : USER_PDE * (NUM_PTE + 1) + 1 < M32 := by decide
  omega

/-- C1: for a process whose `mem_pages` equals the number of frames it
owns (the directory, each user-space page table, and each page mapped
in those tables), `proc_free` frees every one of those frames back to
the physical allocator, decrementing `mem_pages` for each, so that
`mem_pages` is exactly zero immediately before the record is returned
to the slab pool (the call succeeds and the pool count rises by one);
any other `mem_pages` value at that point makes `proc_free` hit the
fatal leak panic instead. -/
theorem proc_free_frame_conservation (proc : Process) (k : Kernel) (dir : PageDir)
    (hdir : proc.page_dir = some dir) :
    (proc.mem_pages = (ownedFrames dir).length →
      ∃ k2, proc_free proc k = .ok k2 ∧
        k2.pmm_free.Perm (ownedFrames dir ++ k.pmm_free) ∧
        k2.slab_avail = k.slab_avail + 1) ∧
    (proc.mem_pages < M32 → proc.mem_pages ≠ (ownedFrames dir).length →
      ∃ d, proc_free proc k = .error d) := by
  have hlen := ownedFrames_length_lt dir
  constructor
  · intro hmp
    rw [proc_free_spec proc k dir hdir]
    have hz : dec32^[(ownedFrames dir).length] proc.mem_pages = 0 := by
      rw [hmp]
      exact dec32_iterate_self _ hlen
    rw [hz]
    simp only [ne_eq, not_true_eq_false, if_false]
    have hperm : (dir.addr :: ((userFrames dir).reverse ++ k.pmm_free)).Perm
        (ownedFrames dir ++ k.pmm_free) := by
      rw [show ownedFrames dir ++ k.pmm_free =
        dir.addr :: (userFrames dir ++ k.pmm_free) from rfl]
      exact ((List.reverse_perm (userFrames dir)).append_right k.pmm_free).cons
        dir.addr
    by_cases hpid : proc.pid ≠ -1
    · refine ⟨_, by rw [if_pos hpid], ?_, rfl⟩
      simp only [slab_free, free_pid]
      exact hperm
    · refine ⟨_, by rw [if_neg hpid], ?_, rfl⟩
      simp only [slab_free]
      exact hperm
  · intro hb hne
    rw [proc_free_spec proc k dir hdir]
    rw [if_pos (dec32_iterate_ne proc.mem_pages _ hb hlen hne)]
    exact ⟨_, rfl⟩

/-- Concrete page table for the C1 witness: one page (frame 7) mapped
at entry 3. -/
def tabW : PageTable := { addr := 6, entry := fun pte => if pte = 3 then (7, 2) else (0, 0) }

/-- Concrete directory for the C1 witness: one table at slot 0. -/
def dirW : PageDir :=
  { addr := 5, slot := fun pde => if pde = 0 then some (tabW, 2) else none,
    kernelCopied := false }

/-- Concrete process for the C1 witness: owns 3 frames, counted. -/
def procW : Process := { zeroProcess with pid := 1, page_dir := some dirW, mem_pages := 3 }

set_option maxRecDepth 10000 in
theorem proc_free_frame_conservation_witness :
    ∃ k2, proc_free procW initKernel = .ok k2 ∧
      k2.pmm_free.Perm (ownedFrames dirW ++ initKernel.pmm_free) ∧
      k2.slab_avail = initKernel.slab_avail + 1 :=
  (proc_free_frame_conservation procW initKernel dirW rfl).1 (by decide)

/-- Page-directory index of a virtual address: which directory slot the
two-level walk uses, `addr / (NUM_PTE * PAGE_SIZE)`. -/
def pde_index (addr : Nat) : Nat := addr / (NUM_PTE * PAGE_SIZE)

/-- C8: the fixed virtual page holding the kernel stack
(`PROC_KERNEL_STACK - PAGE_SIZE = KERNEL_BASE - 17 * PAGE_SIZE`) and the
fixed virtual page holding the user stack
(`PROC_USER_STACK - PAGE_SIZE = KERNEL_BASE - 1025 * PAGE_SIZE`) fall in
distinct page-directory slots, so the two stacks never share a
page-table-directory entry. -/
theorem stack_pde_distinct :
    PROC_KERNEL_STACK - PAGE_SIZE = KERNEL_BASE - 17 * PAGE_SIZE ∧
    PROC_USER_STACK - PAGE_SIZE = KERNEL_BASE - 1025 * PAGE_SIZE ∧
    pde_index (PROC_KERNEL_STACK - PAGE_SIZE) ≠
      pde_index (PROC_USER_STACK - PAGE_SIZE) := by
  refine ⟨by decide, by decide, by decide⟩

theorem idt_pmm_alloc (k : Kernel) :
    (pmm_alloc_page_address k).2.idt_vectors = k.idt_vectors := by
  cases h : k.pmm_free <;> simp [pmm_alloc_page_address, h]

theorem idt_alloc_pid_loop (N : Nat) :
    ∀ fuel (k : Kernel), ((alloc_pid_loop N fuel k).2).idt_vectors = k.idt_vectors := by
  intro fuel
  induction fuel with
  | zero => intro k; rfl
  | succ fuel ih =>
    intro k
    simp only [alloc_pid_loop]
    by_cases h : pid_test k.pid_map k.pid_gen
    · rw [if_pos h, ih]
    · rw [if_neg h]

theorem idt_free_ptes :
    ∀ (l : List Nat) (tab : PageTable) (mp : Nat) (k : Kernel),
      ((free_ptes l tab mp k).2.2).idt_vectors = k.idt_vectors := by
  intro l
  induction l with
  | nil => intro tab mp k; rfl
  | cons pte rest ih =>
    intro tab mp k
    simp only [free_ptes, vmm_unmap_page_index]
    by_cases h : (tab.entry pte).1 ≠ 0
    · rw [if_pos h, ih]
      rfl
    · rw [if_neg h, ih]

theorem idt_free_pdes :
    ∀ (l : List Nat) (dir : PageDir) (mp : Nat) (k : Kernel),
      ((free_pdes l dir mp k).2.2).idt_vectors = k.idt_vectors := by
  intro l
  induction l with
  | nil => intro dir mp k; rfl
  | cons pde rest ih =>
    intro dir mp k
    simp only [free_pdes, vmm_unmap_page_table_index]
    cases h : dir.slot pde with
    | none =>
      simp only [h, Option.map]
      rw [ih]
    | some tf =>
      simp only [h, Option.map]
      rw [ih]
      simp only [vmm_free_page_table, pmm_free_page_address]
      exact idt_free_ptes _ _ _ _

theorem idt_slab_branch (c : Prop) [Decidable c] (p : Nat) (k : Kernel) :
    (slab_free (if c then free_pid p k else k)).idt_vectors = k.idt_vectors := by
  by_cases h : c <;> simp [h, slab_free, free_pid]

theorem idt_proc_free (proc : Process) (k : Kernel) (res : Kernel)
    (h : proc_free proc k = .ok res) : res.idt_vectors = k.idt_vectors := by
  cases hdir : proc.page_dir with
  | none =>
    simp only [proc_free, hdir] at h
    by_cases hm : proc.mem_pages ≠ 0
    · rw [if_pos hm] at h
      cases h
    · rw [if_neg hm] at h
      injection h with h
      subst h
      exact idt_slab_branch _ _ _
  | some dir =>
    rw [proc_free_spec proc k dir hdir] at h
    by_cases hz : dec32^[(ownedFrames dir).length] proc.mem_pages ≠ 0
    · rw [if_pos hz] at h
      cases h
    · rw [if_neg hz] at h
      injection h with h
      subst h
      exact idt_slab_branch _ _ _

theorem idt_proc_alloc (N : Nat) (k : Kernel) (res : Option Process × Kernel)
    (h : proc_alloc N k = .ok res) : res.2.idt_vectors = k.idt_vectors := by
  simp only [proc_alloc] at h
  by_cases hs : (slab_alloc k).1 = false
  · rw [hs] at h
    simp only [Bool.not_false, if_true] at h
    injection h with h
    subst h
    cases hv : k.slab_avail <;> simp [slab_alloc, hv]
  · have hs2 : (slab_alloc k).1 = true := by
      cases hb : (slab_alloc k).1
      · exact absurd hb hs
      · rfl
    rw [hs2] at h
    simp only [Bool.not_true, if_false] at h
    have hslab : (slab_alloc k).2.idt_vectors = k.idt_vectors := by
      cases hv : k.slab_avail <;> simp [slab_alloc, hv]
    by_cases hp : (alloc_pid N (slab_alloc k).2).1 = -1
    · rw [if_pos hp] at h
      cases hfree : proc_free { zeroProcess with pid := (alloc_pid N (slab_alloc k).2).1 }
          (alloc_pid N (slab_alloc k).2).2 with
      | error e =>
        rw [hfree] at h
        cases h
      | ok k3 =>
        rw [hfree] at h
        injection h with h
        subst h
        have h1 := idt_proc_free _ _ _ hfree
        have h2 : ((alloc_pid N (slab_alloc k).2).2).idt_vectors =
            (slab_alloc k).2.idt_vectors := idt_alloc_pid_loop N N _
        simp only [h1, h2, hslab]
    · rw [if_neg hp] at h
      injection h with h
      subst h
      have h2 : ((alloc_pid N (slab_alloc k).2).2).idt_vectors =
          (slab_alloc k).2.idt_vectors := idt_alloc_pid_loop N N _
      simp only [h2, hslab]

theorem idt_vmm_map (dir : PageDir) (va pa fl : Nat) (k : Kernel) :
    ((vmm_map dir va pa fl k).2.2).idt_vectors = k.idt_vectors := by
  simp only [vmm_map]
  cases hslot : dir.slot (va / (NUM_PTE * PAGE_SIZE)) with
  | some tf => simp [hslot]
  | none =>
    simp only [hslot]
    by_cases hz : (pmm_alloc_page_address k).1 = 0
    · rw [if_pos hz]
    · rw [if_neg hz]
      exact idt_pmm_alloc k

theorem idt_elf_map_pages :
    ∀ (pages : List (Nat × Nat × PageData)) (proc : Process) (k : Kernel),
      ((elf_map_pages pages proc k).2.2).idt_vectors = k.idt_vectors := by
  intro pages
  induction pages with
  | nil => intro proc k; rfl
  | cons pg rest ih =>
    intro proc k
    obtain ⟨va, fl, data⟩ := pg
    simp only [elf_map_pages]
    by_cases h1 : (pmm_alloc_page_address k).1 = 0
    · rw [if_pos h1]
      exact idt_pmm_alloc k
    · rw [if_neg h1]
      by_cases h2 : (vmm_map (proc.page_dir.getD emptyDir) va
          (pmm_alloc_page_address k).1 fl (pmm_alloc_page_address k).2).1 < 0
      · rw [if_pos h2]
        simp only [pmm_free_page_address]
        rw [idt_vmm_map]
        exact idt_pmm_alloc k
      · rw [if_neg h2, ih]
        simp only [mem_write]
        rw [idt_vmm_map]
        exact idt_pmm_alloc k

theorem idt_alloc_proc_stacks (proc : Process) (k : Kernel) :
    ((alloc_proc_stacks proc k).2.2).idt_vectors = k.idt_vectors := by
  simp only [alloc_proc_stacks]
  by_cases h1 : (pmm_alloc_page_address k).1 = 0
  · rw [if_pos h1]
    exact idt_pmm_alloc k
  · rw [if_neg h1]
    by_cases h2 : (vmm_map (proc.page_dir.getD emptyDir)
        (PROC_KERNEL_STACK - PAGE_SIZE) (pmm_alloc_page_address k).1 VMM_WRITABLE
        (pmm_alloc_page_address k).2).1 < 0
    · rw [if_pos h2]
      simp only [pmm_free_page_address]
      rw [idt_vmm_map]
      exact idt_pmm_alloc k
    · rw [if_neg h2]
      by_cases h3 : (pmm_alloc_page_address (vmm_map (proc.page_dir.getD emptyDir)
          (PROC_KERNEL_STACK - PAGE_SIZE) (pmm_alloc_page_address k).1 VMM_WRITABLE
          (pmm_alloc_page_address k).2).2.2).1 = 0
      · rw [if_pos h3]
        rw [idt_pmm_alloc, idt_vmm_map]
        exact idt_pmm_alloc k
      · rw [if_neg h3]
        by_cases h4 : (vmm_map (vmm_map (proc.page_dir.getD emptyDir)
            (PROC_KERNEL_STACK - PAGE_SIZE) (pmm_alloc_page_address k).1 VMM_WRITABLE
            (pmm_alloc_page_address k).2).2.1 (PROC_USER_STACK - PAGE_SIZE)
            (pmm_alloc_page_address (vmm_map (proc.page_dir.getD emptyDir)
              (PROC_KERNEL_STACK - PAGE_SIZE) (pmm_alloc_page_address k).1 VMM_WRITABLE
              (pmm_alloc_page_address k).2).2.2).1 (VMM_WRITABLE ||| VMM_USER)
            (pmm_alloc_page_address (vmm_map (proc.page_dir.getD emptyDir)
              (PROC_KERNEL_STACK - PAGE_SIZE) (pmm_alloc_page_address k).1 VMM_WRITABLE
              (pmm_alloc_page_address k).2).2.2).2).1 < 0
        · rw [if_pos h4]
          simp only [pmm_free_page_address]
          rw [idt_vmm_map, idt_pmm_alloc, idt_vmm_map]
          exact idt_pmm_alloc k
        · rw [if_neg h4]
          rw [idt_vmm_map, idt_pmm_alloc, idt_vmm_map]
          exact idt_pmm_alloc k

theorem idt_vmm_alloc_vaddr_space (k : Kernel) :
    ((vmm_alloc_vaddr_space k).2).idt_vectors = k.idt_vectors := by
  simp only [vmm_alloc_vaddr_space]
  by_cases h : (pmm_alloc_page_address k).1 = 0
  · rw [if_pos h]
    exact idt_pmm_alloc k
  · rw [if_neg h]
    exact idt_pmm_alloc k

theorem idt_elf_load_program (img : Image) (proc : Process) (k : Kernel) :
    ((elf_load_program img proc k).2.2).idt_vectors = k.idt_vectors := by
  simp only [elf_load_program]
  cases hv : img.valid
  · rfl
  · simp only [Bool.not_true, Bool.false_eq_true, if_false]
    exact idt_elf_map_pages _ _ _

theorem idt_init_proc_from_elf (proc : Process) (img : Image) (k : Kernel) :
    ((init_proc_from_elf proc img k).2.2).idt_vectors = k.idt_vectors := by
  have hk1 : (vmm_alloc_vaddr_space k).2.idt_vectors = k.idt_vectors :=
    idt_vmm_alloc_vaddr_space k
  simp only [init_proc_from_elf]
  generalize hX : vmm_alloc_vaddr_space k = X at *
  obtain ⟨d1, k1⟩ := X
  cases d1 with
  | none => exact hk1
  | some dir =>
    simp only []
    generalize hT : elf_load_program img
      { proc with page_dir := some dir, mem_pages := inc32 proc.mem_pages } k1 = T
    have hTidt : T.2.2.idt_vectors = k1.idt_vectors := by
      rw [← hT]
      exact idt_elf_load_program _ _ _
    obtain ⟨tb, tp, tk⟩ := T
    cases tb with
    | false => simpa using hTidt.trans hk1
    | true =>
      simp only [Bool.not_true, Bool.false_eq_true, if_false]
      generalize hU : alloc_proc_stacks tp tk = U
      have hUidt : U.2.2.idt_vectors = tk.idt_vectors := by
        rw [← hU]
        exact idt_alloc_proc_stacks _ _
      obtain ⟨ub, up, uk⟩ := U
      have hfin : uk.idt_vectors = k.idt_vectors := by
        simp only at hUidt hTidt
        rw [hUidt, hTidt, hk1]
      cases ub with
      | false => simpa using hfin
      | true => simpa using hfin

theorem idt_vmm_alloc_page_table (k : Kernel) :
    ((vmm_alloc_page_table k).2).idt_vectors = k.idt_vectors := by
  simp only [vmm_alloc_page_table]
  by_cases h : (pmm_alloc_page_address k).1 = 0
  · rw [if_pos h]
    exact idt_pmm_alloc k
  · rw [if_neg h]
    exact idt_pmm_alloc k

theorem idt_clone_ptes :
    ∀ (l : List Nat) (stab ctab : PageTable) (mp : Nat) (k : Kernel),
      ((clone_ptes l stab ctab mp k).2.2.2).idt_vectors = k.idt_vectors := by
  intro l
  induction l with
  | nil => intro stab ctab mp k; rfl
  | cons pte rest ih =>
    intro stab ctab mp k
    simp only [clone_ptes]
    by_cases hg : (vmm_get_page_index stab pte).1 ≠ 0
    · rw [if_pos hg]
      by_cases hp : (pmm_alloc_page_address k).1 = 0
      · rw [if_pos hp]
        exact idt_pmm_alloc k
      · rw [if_neg hp, ih]
        simp only [memcpy_page, mem_write]
        exact idt_pmm_alloc k
    · rw [if_neg hg, ih]

set_option maxRecDepth 8000 in
theorem idt_clone_pdes :
    ∀ (l : List Nat) (sdir cdir : PageDir) (mp : Nat) (k : Kernel),
      ((clone_pdes l sdir cdir mp k).2.2.2).idt_vectors = k.idt_vectors := by
  intro l
  induction l with
  | nil => intro sdir cdir mp k; rfl
  | cons pde rest ih =>
    intro sdir cdir mp k
    simp only [clone_pdes, vmm_get_page_table_index]
    cases hslot : sdir.slot pde with
    | none =>
      simp only [hslot]
      exact ih _ _ _ _
    | some tf =>
      obtain ⟨stab, tflag⟩ := tf
      simp only [hslot]
      have ha : ((vmm_alloc_page_table k).2).idt_vectors = k.idt_vectors :=
        idt_vmm_alloc_page_table k
      generalize hX : vmm_alloc_page_table k = X at *
      obtain ⟨c1, ka⟩ := X
      cases c1 with
      | none => exact ha
      | some ctab0 =>
        simp only []
        have hc : ((clone_ptes (List.range NUM_PTE) stab ctab0 (inc32 mp) ka).2.2.2).idt_vectors
            = ka.idt_vectors := idt_clone_ptes _ _ _ _ _
        by_cases hs : (clone_ptes (List.range NUM_PTE) stab ctab0 (inc32 mp) ka).1 = true
        · rw [if_pos hs, ih]
          simp only at ha hc
          rw [hc, ha]
        · rw [if_neg hs]
          simp only at ha hc ⊢
          rw [hc, ha]

set_option maxRecDepth 8000 in
theorem idt_init_proc_from_proc (clone proc : Process) (k : Kernel) :
    ((init_proc_from_proc clone proc k).2.2).idt_vectors = k.idt_vectors := by
  have hk1 : (vmm_alloc_vaddr_space k).2.idt_vectors = k.idt_vectors :=
    idt_vmm_alloc_vaddr_space k
  simp only [init_proc_from_proc]
  generalize hX : vmm_alloc_vaddr_space k = X at *
  obtain ⟨d1, k1⟩ := X
  cases d1 with
  | none => exact hk1
  | some cdir0 =>
    simp only []
    have hc : ((clone_pdes (List.range USER_PDE) (proc.page_dir.getD emptyDir)
        cdir0 (inc32 clone.mem_pages) k1).2.2.2).idt_vectors = k1.idt_vectors :=
      idt_clone_pdes _ _ _ _ _
    by_cases hs : (clone_pdes (List.range USER_PDE) (proc.page_dir.getD emptyDir)
        cdir0 (inc32 clone.mem_pages) k1).1 = true
    · rw [if_pos hs]
      simp only at hc ⊢
      rw [hc, hk1]
    · rw [if_neg hs]
      simp only at hc ⊢
      rw [hc, hk1]

theorem idt_proc_exec (N : Nat) (img : Image) (k : Kernel) (r : Bool × Kernel)
    (h : proc_exec N img k = .ok r) : r.2.idt_vectors = k.idt_vectors := by
  simp only [proc_exec] at h
  cases hpa : proc_alloc N k with
  | error e =>
    rw [hpa] at h
    cases h
  | ok pr =>
    rw [hpa] at h
    have hk1 := idt_proc_alloc N k pr hpa
    obtain ⟨po, k1⟩ := pr
    cases po with
    | none =>
      simp only at h
      injection h with h
      subst h
      exact hk1
    | some proc =>
      simp only at h hk1
      have ht : ((init_proc_from_elf proc img k1).2.2).idt_vectors = k1.idt_vectors :=
        idt_init_proc_from_elf _ _ _
      by_cases hb : (init_proc_from_elf proc img k1).1 = true
      · rw [hb] at h
        simp only [Bool.not_true, Bool.false_eq_true, if_false] at h
        injection h with h
        subst h
        simp only [sched_add]
        rw [ht, hk1]
      · have hb2 : (init_proc_from_elf proc img k1).1 = false := by
          cases hx : (init_proc_from_elf proc img k1).1
          · rfl
          · exact absurd hx hb
        rw [hb2] at h
        simp only [Bool.not_false, if_true] at h
        cases hfree : proc_free (init_proc_from_elf proc img k1).2.1
            (init_proc_from_elf proc img k1).2.2 with
        | error e =>
          rw [hfree] at h
          cases h
        | ok k3 =>
          rw [hfree] at h
          injection h with h
          subst h
          have := idt_proc_free _ _ _ hfree
          simp only at this ⊢
          rw [this, ht, hk1]

theorem idt_proc_clone (N : Nat) (proc : Process) (k : Kernel)
    (r : Option Process × Kernel) (h : proc_clone N proc k = .ok r) :
    r.2.idt_vectors = k.idt_vectors := by
  simp only [proc_clone] at h
  cases hpa : proc_alloc N k with
  | error e =>
    rw [hpa] at h
    cases h
  | ok pr =>
    rw [hpa] at h
    have hk1 := idt_proc_alloc N k pr hpa
    obtain ⟨po, k1⟩ := pr
    cases po with
    | none =>
      simp only at h
      injection h with h
      subst h
      exact hk1
    | some clone =>
      simp only at h hk1
      have ht : ((init_proc_from_proc clone proc k1).2.2).idt_vectors = k1.idt_vectors :=
        idt_init_proc_from_proc _ _ _
      by_cases hb : (init_proc_from_proc clone proc k1).1 = true
      · rw [hb] at h
        simp only [Bool.not_true, Bool.false_eq_true, if_false] at h
        by_cases hm : (init_proc_from_proc clone proc k1).2.1.mem_pages ≠ proc.mem_pages
        · rw [if_pos hm] at h
          cases h
        · rw [if_neg hm] at h
          injection h with h
          subst h
          simp only [sched_add]
          rw [ht, hk1]
      · have hb2 : (init_proc_from_proc clone proc k1).1 = false := by
          cases hx : (init_proc_from_proc clone proc k1).1
          · rfl
          · exact absurd hx hb
        rw [hb2] at h
        simp only [Bool.not_false, if_true] at h
        cases hfree : proc_free (init_proc_from_proc clone proc k1).2.1
            (init_proc_from_proc clone proc k1).2.2 with
        | error e =>
          rw [hfree] at h
          cases h
        | ok k3 =>
          rw [hfree] at h
          injection h with h
          subst h
          have := idt_proc_free _ _ _ hfree
          simp only at this ⊢
          rw [this, ht, hk1]

/-- Boot-time kernel with five free frames, used to drive a first
process creation. -/
def k9 : Kernel := { initKernel with pmm_free := [10, 11, 12, 13, 14] }

/-- A minimal valid image with no segment pages and entry address 7. -/
def img9 : Image := { valid := true, entry := 7, pages := [] }

set_option maxRecDepth 8000 in
/-- C9 counterexample: the system-call gate (vector `0x80`) is already
installed — by ` proc_initialize`, the module's one-time setup — before
any process exists, and the first process creation (a successful
`proc_exec`) performs no installation at all: the installed-vector list
is `[0x80]` before the first creation and still `[0x80]` after it.
This refutes the claim that the handler is installed at the time of the
first process creation. -/
theorem syscall_gate_not_installed_at_first_creation :
    ( proc_initialize 1 k9).idt_vectors = [SYSCALL_INT_NUM] ∧
    (proc_exec 4 img9 ( proc_initialize 1 k9)).map (fun r => r.1) = .ok true ∧
    (proc_exec 4 img9 ( proc_initialize 1 k9)).map (fun r => r.2.idt_vectors) =
      .ok [SYSCALL_INT_NUM] :=
  ⟨rfl, rfl, rfl⟩

/-- C9 (amended): the trap handler routing the system-call interrupt
(vector `0x80`) is installed exactly once, by ` proc_initialize` — the
module's one-time setup, which runs before any process creation — and
process creations themselves (`proc_exec`, `proc_clone`) never install
it: whenever they return, the installed-vector list is exactly what it
was on entry. -/
theorem syscall_gate_installed_once_at_module_init :
    (∀ (cap : Nat) (k : Kernel),
      ( proc_initialize cap k).idt_vectors = k.idt_vectors ++ [SYSCALL_INT_NUM]) ∧
    (∀ (N : Nat) (img : Image) (k : Kernel),
      (proc_exec N img k).map (fun r => r.2.idt_vectors) =
        (proc_exec N img k).map (fun _ => k.idt_vectors)) ∧
    (∀ (N : Nat) (proc : Process) (k : Kernel),
      (proc_clone N proc k).map (fun r => r.2.idt_vectors) =
        (proc_clone N proc k).map (fun _ => k.idt_vectors)) := by
  refine ⟨fun cap k => rfl, ?_, ?_⟩
  · intro N img k
    cases hres : proc_exec N img k with
    | error e => rfl
    | ok r =>
      simp only [Except.map]
      rw [idt_proc_exec N img k r hres]
  · intro N proc k
    cases hres : proc_clone N proc k with
    | error e => rfl
    | ok r =>
      simp only [Except.map]
      rw [idt_proc_clone N proc k r hres]

theorem proc_free_null_record (k : Kernel) :
    proc_free { zeroProcess with pid := -1 } k = .ok (slab_free k) := rfl

theorem slab_alloc_fields (k : Kernel) :
    (slab_alloc k).2.pid_gen = k.pid_gen ∧ (slab_alloc k).2.pid_map = k.pid_map ∧
    (slab_alloc k).2.pmm_free = k.pmm_free := by
  cases h : k.slab_avail <;> simp [slab_alloc, h]

/-- C6: `proc_alloc` zero-initializes every field of the acquired record
before assigning the PID, and a record is only ever handed out with a
valid PID; if PID allocation fails the record goes straight back to the
pool and `proc_alloc` returns no record; consequently, when every PID
is already assigned, a further `proc_exec` reports failure and consumes
no record and no frame. -/
theorem proc_alloc_zeroed_and_exec_exhaustion (N : Nat) (k : Kernel)
    (h0 : 0 < N) (hg : k.pid_gen < N) :
    (∀ proc1 k1, proc_alloc N k = .ok (some proc1, k1) →
      proc1 = { zeroProcess with pid := proc1.pid } ∧ proc1.pid ≠ -1) ∧
    ((∀ p, p < N → pid_test k.pid_map p = true) →
      (∃ k2, proc_alloc N k = .ok (none, k2) ∧
        k2.slab_avail = k.slab_avail ∧ k2.pmm_free = k.pmm_free) ∧
      (∀ img, ∃ k3, proc_exec N img k = .ok (false, k3) ∧
        k3.slab_avail = k.slab_avail ∧ k3.pmm_free = k.pmm_free)) := by
  constructor
  · intro proc1 k1 h
    simp only [proc_alloc] at h
    cases hb : (slab_alloc k).1 with
    | false =>
      rw [hb] at h
      simp only [Bool.not_false, if_true] at h
      cases h
    | true =>
      rw [hb] at h
      simp only [Bool.not_true, Bool.false_eq_true, if_false] at h
      by_cases hp : (alloc_pid N (slab_alloc k).2).1 = -1
      · rw [if_pos hp] at h
        cases hfree : proc_free { zeroProcess with pid := (alloc_pid N (slab_alloc k).2).1 }
            (alloc_pid N (slab_alloc k).2).2 with
        | error e =>
          rw [hfree] at h
          cases h
        | ok k3 =>
          rw [hfree] at h
          cases h
      · rw [if_neg hp] at h
        injection h with h
        injection h with h1 h2
        have h1s := h1.symm
        injection h1s with h1
        constructor
        · rw [h1]
        · rw [h1]
          exact hp
  · intro hfull
    cases hv : k.slab_avail with
    | zero =>
      have hsa : slab_alloc k = (false, k) := by simp [slab_alloc, hv]
      constructor
      · exact ⟨k, by simp [proc_alloc, hsa], hv, rfl⟩
      · intro img
        exact ⟨k, by simp [proc_exec, proc_alloc, hsa], hv, rfl⟩
    | succ n =>
      have hsa : slab_alloc k = (true, { k with slab_avail := n }) := by
        simp [slab_alloc, hv]
      have hgen2 : ({ k with slab_avail := n } : Kernel).pid_gen < N := hg
      have halloc : alloc_pid N { k with slab_avail := n } =
          (-1, { k with slab_avail := n }) := by
        unfold alloc_pid
        have hall : ∀ i, i < N →
            pid_test ({ k with slab_avail := n } : Kernel).pid_map
              ((({ k with slab_avail := n } : Kernel).pid_gen + i) % N) = true := by
          intro i _
          exact hfull _ (Nat.mod_lt _ h0)
        rw [alloc_pid_loop_none N h0 N _ hgen2 hall]
        have he : (({ k with slab_avail := n } : Kernel).pid_gen + N) % N = k.pid_gen := by
          rw [Nat.add_mod_right]
          exact Nat.mod_eq_of_lt hg
        rw [he]
      have hpa : proc_alloc N k = .ok (none, { k with slab_avail := n + 1 }) := by
        simp only [proc_alloc, hsa, Bool.not_true, Bool.false_eq_true, if_false,
          halloc]
        rfl
      constructor
      · exact ⟨{ k with slab_avail := n + 1 }, hpa, rfl, rfl⟩
      · intro img
        refine ⟨{ k with slab_avail := n + 1 }, ?_, rfl, rfl⟩
        simp only [proc_exec, hpa]

/-- Concrete allocator state for the C6 witness: one pooled record, the
single PID 0 already assigned. -/
def k6 : Kernel :=
  { initKernel with slab_avail := 1, pid_map := fun i => if i = 0 then 1 else 0 }

theorem proc_alloc_zeroed_and_exec_exhaustion_witness :
    (∃ k2, proc_alloc 1 k6 = .ok (none, k2) ∧
      k2.slab_avail = k6.slab_avail ∧ k2.pmm_free = k6.pmm_free) ∧
    (∀ img, ∃ k3, proc_exec 1 img k6 = .ok (false, k3) ∧
      k3.slab_avail = k6.slab_avail ∧ k3.pmm_free = k6.pmm_free) :=
  (proc_alloc_zeroed_and_exec_exhaustion 1 k6 (by norm_num) (by decide)).2 (by decide)

/-- The physical page mapped at virtual page number `vp` (virtual
address divided by `PAGE_SIZE`) in a directory; `0` when unmapped. -/
def dirPage (dir : PageDir) (vp : Nat) : Nat :=
  match dir.slot (vp / NUM_PTE) with
  | none => 0
  | some (tab, _) => (tab.entry (vp % NUM_PTE)).1

theorem vp_div (vaddr : Nat) :
    vaddr / PAGE_SIZE / NUM_PTE = vaddr / (NUM_PTE * PAGE_SIZE) := by
  rw [Nat.div_div_eq_div_mul, Nat.mul_comm]

theorem filterMap_none_all {α β : Type} (l : List α) (f : α → Option β)
    (h : ∀ a ∈ l, f a = none) : l.filterMap f = [] := by
  induction l with
  | nil => rfl
  | cons a rest ih =>
    rw [List.filterMap_cons, h a (List.mem_cons_self a rest)]
    exact ih (fun b hb => h b (List.mem_cons_of_mem a hb))

theorem tableFrames_fresh (a : Nat) :
    tableFrames ⟨a, fun _ => (0, 0)⟩ = [] := by
  apply filterMap_none_all
  intro i _
  simp

theorem dirPage_map_table (dir : PageDir) (pde : Nat) (tab : PageTable)
    (tflag vq : Nat) :
    dirPage (vmm_map_page_table_index dir pde tab tflag) vq =
      if vq / NUM_PTE = pde then (tab.entry (vq % NUM_PTE)).1 else dirPage dir vq := by
  unfold dirPage vmm_map_page_table_index
  by_cases h : vq / NUM_PTE = pde
  · simp [h]
  · simp [h]

theorem vq_eq_of_parts (vq vaddr : Nat) (hd : vq / NUM_PTE = vaddr / (NUM_PTE * PAGE_SIZE))
    (hm : vq % NUM_PTE = vaddr / PAGE_SIZE % NUM_PTE) : vq = vaddr / PAGE_SIZE := by
  have hd2 : vq / NUM_PTE = vaddr / PAGE_SIZE / NUM_PTE := by rw [hd, vp_div]
  have hN : 0 < NUM_PTE := by norm_num [NUM_PTE]
  calc vq = NUM_PTE * (vq / NUM_PTE) + vq % NUM_PTE := (Nat.div_add_mod vq NUM_PTE).symm
    _ = NUM_PTE * (vaddr / PAGE_SIZE / NUM_PTE) + vaddr / PAGE_SIZE % NUM_PTE := by
        rw [hd2, hm]
    _ = vaddr / PAGE_SIZE := Nat.div_add_mod _ NUM_PTE

set_option maxRecDepth 8000 in
theorem vmm_map_spec (dir : PageDir) (vaddr paddr flags : Nat) (k : Kernel)
    (hpde : vaddr / (NUM_PTE * PAGE_SIZE) < USER_PDE)
    (hempty : dirPage dir (vaddr / PAGE_SIZE) = 0)
    (hpaddr : paddr ≠ 0) (h0pmm : 0 ∉ k.pmm_free) :
    (k.pmm_free = [] ∧ vmm_map dir vaddr paddr flags k = (-1, dir, k))
    ∨ (∃ (e : Nat) (D : PageDir), e ≤ 1 ∧ e ≤ k.pmm_free.length ∧
        vmm_map dir vaddr paddr flags k =
          ((e : Int), D, { k with pmm_free := k.pmm_free.drop e }) ∧
        D.addr = dir.addr ∧
        (ownedFrames D).Perm (paddr :: (k.pmm_free.take e ++ ownedFrames dir)) ∧
        (∀ vq, dirPage D vq =
          if vq = vaddr / PAGE_SIZE then paddr else dirPage dir vq)) := by
  have hpdein : vaddr / (NUM_PTE * PAGE_SIZE) ∈ List.range USER_PDE :=
    List.mem_range.mpr hpde
  have hptelt : (vaddr / PAGE_SIZE) % NUM_PTE < NUM_PTE :=
    Nat.mod_lt _ (by norm_num [NUM_PTE])
  have hptein : (vaddr / PAGE_SIZE) % NUM_PTE ∈ List.range NUM_PTE :=
    List.mem_range.mpr hptelt
  cases hslot : dir.slot (vaddr / (NUM_PTE * PAGE_SIZE)) with
  | some tf =>
    obtain ⟨tab, tflag⟩ := tf
    right
    have hentry : (tab.entry ((vaddr / PAGE_SIZE) % NUM_PTE)).1 = 0 := by
      unfold dirPage at hempty
      rw [vp_div] at hempty
      rw [hslot] at hempty
      exact hempty
    refine ⟨0,
      vmm_map_page_table_index dir (vaddr / (NUM_PTE * PAGE_SIZE))
        (vmm_map_page_index tab ((vaddr / PAGE_SIZE) % NUM_PTE) paddr flags) tflag,
      by omega, by omega, ?_, rfl, ?_, ?_⟩
    · simp only [vmm_map, hslot, List.drop_zero]
      rfl
    · have htab : (tableFrames (vmm_map_page_index tab ((vaddr / PAGE_SIZE) % NUM_PTE)
          paddr flags)).Perm (paddr :: tableFrames tab) := by
        unfold tableFrames tableFramesOn
        apply filterMap_update_perm paddr (List.range NUM_PTE)
          ((vaddr / PAGE_SIZE) % NUM_PTE) _ _ (List.nodup_range _) hptein
        · intro i hi
          simp [vmm_map_page_index, hi]
        · simp [hentry]
        · simp [vmm_map_page_index, hpaddr]
      have huser : (userFrames (vmm_map_page_table_index dir
          (vaddr / (NUM_PTE * PAGE_SIZE))
          (vmm_map_page_index tab ((vaddr / PAGE_SIZE) % NUM_PTE) paddr flags)
          tflag)).Perm ([paddr] ++ userFrames dir) := by
        unfold userFrames userFramesOn
        apply flatMap_update_perm [paddr] (List.range USER_PDE)
          (vaddr / (NUM_PTE * PAGE_SIZE)) _ _ (List.nodup_range _) hpdein
        · intro i hi
          simp [slotFrames, vmm_map_page_table_index, hi]
        · simp only [slotFrames, vmm_map_page_table_index, if_pos rfl, hslot]
          refine (htab.append_right _).trans ?_
          simp [vmm_map_page_index]
      rw [List.take_zero, List.nil_append]
      unfold ownedFrames
      refine (huser.cons _).trans ?_
      simp only [List.singleton_append, vmm_map_page_table_index]
      exact List.Perm.swap paddr dir.addr _
    · intro vq
      rw [dirPage_map_table]
      by_cases hq : vq = vaddr / PAGE_SIZE
      · subst hq
        rw [if_pos rfl, if_pos (vp_div vaddr)]
        simp [vmm_map_page_index]
      · rw [if_neg hq]
        by_cases hqd : vq / NUM_PTE = vaddr / (NUM_PTE * PAGE_SIZE)
        · rw [if_pos hqd]
          have hne : ¬ (vq % NUM_PTE = vaddr / PAGE_SIZE % NUM_PTE) := by
            intro hm
            exact hq (vq_eq_of_parts vq vaddr hqd hm)
          simp only [vmm_map_page_index, if_neg hne]
          unfold dirPage
          rw [hqd, hslot]
        · rw [if_neg hqd]
  | none =>
    cases hpmm : k.pmm_free with
    | nil =>
      left
      refine ⟨rfl, ?_⟩
      simp [vmm_map, hslot, pmm_alloc_page_address, hpmm]
    | cons ta rest =>
      right
      have hta : ¬ (ta = 0) := by
        intro h
        subst h
        exact h0pmm (hpmm ▸ List.mem_cons_self _ _)
      have hdropped : k.pmm_free.drop 1 = rest := by rw [hpmm]; rfl
      have htaken : k.pmm_free.take 1 = [ta] := by rw [hpmm]; rfl
      refine ⟨1,
        vmm_map_page_table_index dir (vaddr / (NUM_PTE * PAGE_SIZE))
          (vmm_map_page_index ⟨ta, fun _ => (0, 0)⟩ ((vaddr / PAGE_SIZE) % NUM_PTE)
            paddr flags) flags,
        by omega, by rw [List.length_cons]; omega, ?_, rfl, ?_, ?_⟩
      · simp only [vmm_map, hslot, pmm_alloc_page_address, hpmm, if_neg hta, hdropped]
        rfl
      · have htab : (tableFrames (vmm_map_page_index ⟨ta, fun _ => (0, 0)⟩
            ((vaddr / PAGE_SIZE) % NUM_PTE) paddr flags)).Perm [paddr] := by
          have := filterMap_update_perm paddr (List.range NUM_PTE)
            ((vaddr / PAGE_SIZE) % NUM_PTE)
            (fun i => if ((0, 0) : Nat × Nat).1 ≠ 0 then some ((0, 0) : Nat × Nat).1 else none)
            (fun i => if ((vmm_map_page_index ⟨ta, fun _ => (0, 0)⟩
              ((vaddr / PAGE_SIZE) % NUM_PTE) paddr flags).entry i).1 ≠ 0 then
              some ((vmm_map_page_index ⟨ta, fun _ => (0, 0)⟩
                ((vaddr / PAGE_SIZE) % NUM_PTE) paddr flags).entry i).1 else none)
            (List.nodup_range _) hptein ?_ ?_ ?_
          · refine this.trans ?_
            rw [filterMap_none_all]
            intro a _
            simp
          · intro i hi
            simp [vmm_map_page_index, hi]
          · simp
          · simp [vmm_map_page_index, hpaddr]
        have huser : (userFrames (vmm_map_page_table_index dir
            (vaddr / (NUM_PTE * PAGE_SIZE))
            (vmm_map_page_index ⟨ta, fun _ => (0, 0)⟩ ((vaddr / PAGE_SIZE) % NUM_PTE)
              paddr flags) flags)).Perm ([paddr, ta] ++ userFrames dir) := by
          unfold userFrames userFramesOn
          apply flatMap_update_perm [paddr, ta] (List.range USER_PDE)
            (vaddr / (NUM_PTE * PAGE_SIZE)) _ _ (List.nodup_range _) hpdein
          · intro i hi
            simp [slotFrames, vmm_map_page_table_index, hi]
          · simp only [slotFrames, vmm_map_page_table_index, if_pos rfl, hslot]
            rw [List.append_nil]
            exact htab.append_right [ta]
        simp only [List.take_succ_cons, List.take_zero]
        unfold ownedFrames
        refine (huser.cons _).trans ?_
        simp only [List.cons_append, List.nil_append, vmm_map_page_table_index]
        refine (List.Perm.swap paddr dir.addr _).trans ?_
        exact (List.Perm.swap ta dir.addr _).cons paddr
      · intro vq
        rw [dirPage_map_table]
        by_cases hq : vq = vaddr / PAGE_SIZE
        · subst hq
          rw [if_pos rfl, if_pos (vp_div vaddr)]
          simp [vmm_map_page_index]
        · rw [if_neg hq]
          by_cases hqd : vq / NUM_PTE = vaddr / (NUM_PTE * PAGE_SIZE)
          · rw [if_pos hqd]
            have hne : ¬ (vq % NUM_PTE = vaddr / PAGE_SIZE % NUM_PTE) := by
              intro hm
              exact hq (vq_eq_of_parts vq vaddr hqd hm)
            simp only [vmm_map_page_index, if_neg hne]
            unfold dirPage
            rw [hqd, hslot]
          · rw [if_neg hqd]

theorem alloc_pid_loop_fields (N : Nat) :
    ∀ fuel (k : Kernel),
      ((alloc_pid_loop N fuel k).2).pmm_free = k.pmm_free ∧
      ((alloc_pid_loop N fuel k).2).mem = k.mem ∧
      ((alloc_pid_loop N fuel k).2).slab_avail = k.slab_avail ∧
      ((alloc_pid_loop N fuel k).2).sched_queue = k.sched_queue := by
  intro fuel
  induction fuel with
  | zero => intro k; exact ⟨rfl, rfl, rfl, rfl⟩
  | succ fuel ih =>
    intro k
    simp only [alloc_pid_loop]
    by_cases h : pid_test k.pid_map k.pid_gen
    · rw [if_pos h]
      exact ih _
    · rw [if_neg h]
      exact ⟨rfl, rfl, rfl, rfl⟩

theorem proc_alloc_cases (N : Nat) (k : Kernel) :
    (∃ k1, proc_alloc N k = .ok (none, k1) ∧ k1.pmm_free = k.pmm_free ∧
      k1.mem = k.mem ∧ k1.slab_avail = k.slab_avail ∧
      k1.idt_vectors = k.idt_vectors ∧ k1.sched_queue = k.sched_queue)
    ∨ (∃ proc1 k1, proc_alloc N k = .ok (some proc1, k1) ∧
      proc1.page_dir = none ∧ proc1.mem_pages = 0 ∧ proc1.pid ≠ -1 ∧
      k1.pmm_free = k.pmm_free ∧ k1.mem = k.mem ∧
      k1.slab_avail + 1 = k.slab_avail ∧ k1.idt_vectors = k.idt_vectors ∧
      k1.sched_queue = k.sched_queue) := by
  simp only [proc_alloc]
  cases hv : k.slab_avail with
  | zero =>
    left
    have hsa : slab_alloc k = (false, k) := by simp [slab_alloc, hv]
    rw [hsa]
    exact ⟨k, rfl, rfl, rfl, by rw [hv], rfl, rfl⟩
  | succ n =>
    have hsa : slab_alloc k = (true, { k with slab_avail := n }) := by
      simp [slab_alloc, hv]
    rw [hsa]
    simp only [Bool.not_true, Bool.false_eq_true, if_false]
    obtain ⟨hf1, hf2, hf3, hf4⟩ := alloc_pid_loop_fields N N { k with slab_avail := n }
    by_cases hp : (alloc_pid N { k with slab_avail := n }).1 = -1
    · left
      rw [if_pos hp, hp, proc_free_null_record]
      refine ⟨_, rfl, ?_, ?_, ?_, ?_, ?_⟩
      · simp only [slab_free]
        exact hf1
      · simp only [slab_free]
        exact hf2
      · simp only [slab_free]
        unfold alloc_pid
        rw [hf3]
      · simp only [slab_free]
        exact idt_alloc_pid_loop N N _
      · simp only [slab_free]
        exact hf4
    · right
      rw [if_neg hp]
      exact ⟨_, _, rfl, rfl, rfl, hp, hf1, hf2, by unfold alloc_pid; rw [hf3], idt_alloc_pid_loop N N _, hf4⟩

theorem proc_free_nodir (proc : Process) (k : Kernel) (hdir : proc.page_dir = none)
    (hmp : proc.mem_pages = 0) :
    proc_free proc k =
      .ok (slab_free (if proc.pid ≠ -1 then free_pid proc.pid.toNat k else k)) := by
  simp [proc_free, hdir, hmp]

theorem proc_free_reclaims (proc : Process) (k : Kernel) (dir : PageDir)
    (hdir : proc.page_dir = some dir)
    (hmp : proc.mem_pages = (ownedFrames dir).length) :
    ∃ k2, proc_free proc k = .ok k2 ∧
      k2.pmm_free.Perm (ownedFrames dir ++ k.pmm_free) ∧
      k2.slab_avail = k.slab_avail + 1 ∧ k2.mem = k.mem ∧
      k2.idt_vectors = k.idt_vectors ∧ k2.sched_queue = k.sched_queue ∧
      k2.pid_gen = k.pid_gen := by
  rw [proc_free_spec proc k dir hdir]
  have hz : dec32^[(ownedFrames dir).length] proc.mem_pages = 0 := by
    rw [hmp]
    exact dec32_iterate_self _ (ownedFrames_length_lt dir)
  rw [hz]
  simp only [ne_eq, not_true_eq_false, if_false]
  have hperm : (dir.addr :: ((userFrames dir).reverse ++ k.pmm_free)).Perm
      (ownedFrames dir ++ k.pmm_free) := by
    rw [show ownedFrames dir ++ k.pmm_free =
      dir.addr :: (userFrames dir ++ k.pmm_free) from rfl]
    exact ((List.reverse_perm (userFrames dir)).append_right k.pmm_free).cons dir.addr
  by_cases hpid : proc.pid ≠ -1
  · rw [if_pos hpid]
    exact ⟨_, rfl, by simpa [slab_free, free_pid] using hperm, rfl, rfl, rfl, rfl, rfl⟩
  · rw [if_neg hpid]
    exact ⟨_, rfl, by simpa [slab_free] using hperm, rfl, rfl, rfl, rfl, rfl⟩

theorem flatMap_nil_all {α β : Type} (l : List α) (f : α → List β)
    (h : ∀ a ∈ l, f a = []) : l.flatMap f = [] := by
  induction l with
  | nil => rfl
  | cons a rest ih =>
    rw [List.flatMap_cons, h a (List.mem_cons_self a rest), List.nil_append]
    exact ih (fun b hb => h b (List.mem_cons_of_mem a hb))

theorem ownedFrames_fresh (a : Nat) :
    ownedFrames ⟨a, fun _ => none, false⟩ = [a] := by
  unfold ownedFrames userFrames userFramesOn
  rw [flatMap_nil_all]
  intro pde _
  simp [slotFrames]

theorem dirPage_fresh (a vq : Nat) : dirPage ⟨a, fun _ => none, false⟩ vq = 0 := rfl

theorem ownedFrames_copyk (d : PageDir) :
    ownedFrames (pg_copy_kernel_space d) = ownedFrames d := rfl

set_option maxRecDepth 8000 in
theorem elf_map_pages_spec :
    ∀ (pages : List (Nat × Nat × PageData)) (proc : Process) (k : Kernel)
      (dir : PageDir),
      proc.page_dir = some dir →
      proc.mem_pages = (ownedFrames dir).length →
      (ownedFrames dir).length + k.pmm_free.length < M32 →
      0 ∉ k.pmm_free → 0 ∉ ownedFrames dir →
      (∀ pg ∈ pages, (pg : Nat × Nat × PageData).1 / (NUM_PTE * PAGE_SIZE) < USER_PDE) →
      (∀ pg ∈ pages, dirPage dir ((pg : Nat × Nat × PageData).1 / PAGE_SIZE) = 0) →
      (pages.map (fun pg : Nat × Nat × PageData => pg.1 / PAGE_SIZE)).Nodup →
      ∃ dir2,
        (elf_map_pages pages proc k).2.1.page_dir = some dir2 ∧
        (elf_map_pages pages proc k).2.1.mem_pages = (ownedFrames dir2).length ∧
        (ownedFrames dir2 ++ (elf_map_pages pages proc k).2.2.pmm_free).Perm
          (ownedFrames dir ++ k.pmm_free) ∧
        0 ∉ (elf_map_pages pages proc k).2.2.pmm_free ∧
        0 ∉ ownedFrames dir2 ∧
        (elf_map_pages pages proc k).2.2.slab_avail = k.slab_avail ∧
        (elf_map_pages pages proc k).2.2.pid_map = k.pid_map ∧
        (elf_map_pages pages proc k).2.2.pid_gen = k.pid_gen ∧
        (elf_map_pages pages proc k).2.2.idt_vectors = k.idt_vectors ∧
        (elf_map_pages pages proc k).2.2.sched_queue = k.sched_queue ∧
        (∀ vq, (∀ pg ∈ pages, vq ≠ (pg : Nat × Nat × PageData).1 / PAGE_SIZE) →
          dirPage dir2 vq = dirPage dir vq) := by
  intro pages
  induction pages with
  | nil =>
    intro proc k dir hdir hmp _ h0p h0o _ _ _
    exact ⟨dir, hdir, hmp, List.Perm.refl _, h0p, h0o, rfl, rfl, rfl, rfl, rfl,
      fun vq _ => rfl⟩
  | cons pg rest ih =>
    obtain ⟨va, fl, data⟩ := pg
    intro proc k dir hdir hmp hbound h0p h0o huser hunmapped hnodup
    have hva_user : va / (NUM_PTE * PAGE_SIZE) < USER_PDE :=
      huser _ (List.mem_cons_self _ _)
    have hva_un : dirPage dir (va / PAGE_SIZE) = 0 :=
      hunmapped _ (List.mem_cons_self _ _)
    rw [List.map_cons, List.nodup_cons] at hnodup
    obtain ⟨hhead, htail⟩ := hnodup
    cases hpmm : k.pmm_free with
    | nil =>
      have hp0 : pmm_alloc_page_address k = (0, k) := by
        simp [pmm_alloc_page_address, hpmm]
      have hstep : elf_map_pages ((va, fl, data) :: rest) proc k = (false, proc, k) := by
        simp [elf_map_pages, hdir, hp0]
      rw [hstep]
      refine ⟨dir, hdir, hmp, ?_, ?_, h0o, rfl, rfl, rfl, rfl, rfl,
        fun vq _ => rfl⟩
      · simp [hpmm]
      · simp [hpmm]
    | cons fr rest2 =>
      have hfr : ¬ (fr = 0) := by
        intro h
        apply h0p
        rw [hpmm, ← h]
        exact List.mem_cons_self _ _
      have h0p2 : 0 ∉ rest2 := by
        intro h
        apply h0p
        rw [hpmm]
        exact List.mem_cons_of_mem _ h
      have hp0 : pmm_alloc_page_address k = (fr, { k with pmm_free := rest2 }) := by
        simp [pmm_alloc_page_address, hpmm]
      obtain hfail | hsucc := vmm_map_spec dir va fr fl { k with pmm_free := rest2 }
        hva_user hva_un hfr h0p2
      · obtain ⟨hnil, heq⟩ := hfail
        have hstep : elf_map_pages ((va, fl, data) :: rest) proc k =
            (false, proc, { k with pmm_free := fr :: rest2 }) := by
          simp [elf_map_pages, hdir, hp0, heq, hfr, pmm_free_page_address]
        rw [hstep]
        refine ⟨dir, hdir, hmp, ?_, ?_, h0o, rfl, rfl, rfl, rfl, rfl,
          fun vq _ => rfl⟩
        · exact List.Perm.refl _
        · simp only [List.mem_cons]
          rintro (h | h)
          · exact hfr h.symm
          · exact h0p2 h
      · obtain ⟨e, D, he1, helen, heq, haddr, hperm, hdirpage⟩ := hsucc
        have helen2 : e ≤ rest2.length := helen
        have hperm2 : (ownedFrames D).Perm
            (fr :: (rest2.take e ++ ownedFrames dir)) := hperm
        have hdrop2 : ({ k with pmm_free := rest2 } : Kernel).pmm_free.drop e =
            rest2.drop e := rfl
        have hstep : elf_map_pages ((va, fl, data) :: rest) proc k =
            elf_map_pages rest
              { proc with page_dir := some D,
                          mem_pages := add32 proc.mem_pages (e + 1) }
              (mem_write { k with pmm_free := rest2.drop e } fr data) := by
          simp [elf_map_pages, hdir, hp0, heq, hfr,
            show ¬ ((e : Int) < 0) from by omega]
        rw [hstep]
        have hlenD : (ownedFrames D).length = e + (ownedFrames dir).length + 1 := by
          rw [hperm2.length_eq]
          rw [List.length_cons, List.length_append, List.length_take]
          omega
        rw [hpmm, List.length_cons] at hbound
        have hmp2 : add32 proc.mem_pages (e + 1) = (ownedFrames D).length := by
          rw [add32, hmp, hlenD]
          have hM : (ownedFrames dir).length + (e + 1) < M32 := by omega
          rw [Nat.mod_eq_of_lt hM]
          omega
        have hbound2 : (ownedFrames D).length +
            (mem_write { k with pmm_free := rest2.drop e } fr data).pmm_free.length
            < M32 := by
          simp only [mem_write, hlenD, List.length_drop]
          omega
        have h0oD : 0 ∉ ownedFrames D := by
          intro h
          have := hperm2.mem_iff.mp h
          simp only [List.mem_cons, List.mem_append] at this
          rcases this with h | h | h
          · exact hfr h.symm
          · exact h0p2 (List.take_subset e rest2 h)
          · exact h0o h
        have h0pd : (0 : Nat) ∉
            (mem_write { k with pmm_free := rest2.drop e } fr data).pmm_free := by
          simp only [mem_write]
          intro h
          exact h0p2 (List.drop_subset e rest2 h)
        have hunm2 : ∀ pg ∈ rest,
            dirPage D ((pg : Nat × Nat × PageData).1 / PAGE_SIZE) = 0 := by
          intro pg hpg
          rw [hdirpage]
          have hne : ¬ ((pg : Nat × Nat × PageData).1 / PAGE_SIZE = va / PAGE_SIZE) := by
            intro h
            apply hhead
            rw [← h]
            exact List.mem_map_of_mem _ hpg
          rw [if_neg hne]
          exact hunmapped _ (List.mem_cons_of_mem _ hpg)
        obtain ⟨dir2, c1, c2, c3, c4, c5, c6, c7, c8, c9, c10, c11⟩ :=
          ih { proc with page_dir := some D,
                         mem_pages := add32 proc.mem_pages (e + 1) }
            (mem_write { k with pmm_free := rest2.drop e } fr data) D rfl hmp2
            hbound2 h0pd h0oD
            (fun pg hpg => huser _ (List.mem_cons_of_mem _ hpg)) hunm2 htail
        refine ⟨dir2, c1, c2, ?_, c4, c5, c6, c7, c8, c9, c10, ?_⟩
        · refine c3.trans ?_
          simp only [mem_write]
          refine (hperm2.append_right (rest2.drop e)).trans ?_
          rw [List.cons_append, List.append_assoc]
          have hmid : fr :: (rest2.take e ++ (ownedFrames dir ++ rest2.drop e)) =
              fr :: (rest2.take e ++ ownedFrames dir ++ rest2.drop e) := by
            rw [List.append_assoc]
          rw [hmid]
          refine (List.Perm.cons fr ?_).trans List.perm_middle.symm
          refine ((List.perm_append_comm).append_right (rest2.drop e)).trans ?_
          rw [List.append_assoc, List.take_append_drop]
        · intro vq hvq
          rw [c11 vq (fun pg hpg => hvq pg (List.mem_cons_of_mem _ hpg))]
          rw [hdirpage, if_neg (hvq _ (List.mem_cons_self _ _))]

theorem step_perm (fr e : Nat) (rest2 owned ownedD : List Nat)
    (hperm : ownedD.Perm (fr :: (rest2.take e ++ owned))) :
    (ownedD ++ rest2.drop e).Perm (owned ++ fr :: rest2) := by
  refine (hperm.append_right (rest2.drop e)).trans ?_
  rw [List.cons_append, List.append_assoc]
  have hmid : fr :: (rest2.take e ++ (owned ++ rest2.drop e)) =
      fr :: (rest2.take e ++ owned ++ rest2.drop e) := by
    rw [List.append_assoc]
  rw [hmid]
  refine (List.Perm.cons fr ?_).trans List.perm_middle.symm
  refine ((List.perm_append_comm).append_right (rest2.drop e)).trans ?_
  rw [List.append_assoc, List.take_append_drop]

theorem step_len (fr e : Nat) (rest2 owned ownedD : List Nat)
    (hperm : ownedD.Perm (fr :: (rest2.take e ++ owned)))
    (he : e ≤ rest2.length) : ownedD.length = e + owned.length + 1 := by
  rw [hperm.length_eq, List.length_cons, List.length_append, List.length_take]
  omega

theorem step_zero (fr e : Nat) (rest2 owned ownedD : List Nat)
    (hperm : ownedD.Perm (fr :: (rest2.take e ++ owned)))
    (hfr : ¬ fr = 0) (h0r : 0 ∉ rest2) (h0o : 0 ∉ owned) : 0 ∉ ownedD := by
  intro h
  have := hperm.mem_iff.mp h
  simp only [List.mem_cons, List.mem_append] at this
  rcases this with h | h | h
  · exact hfr h.symm
  · exact h0r (List.take_subset e rest2 h)
  · exact h0o h

set_option maxRecDepth 8000 in
theorem alloc_proc_stacks_spec (proc : Process) (k : Kernel) (dir : PageDir)
    (hdir : proc.page_dir = some dir)
    (hmp : proc.mem_pages = (ownedFrames dir).length)
    (hbound : (ownedFrames dir).length + k.pmm_free.length < M32)
    (h0p : 0 ∉ k.pmm_free) (h0o : 0 ∉ ownedFrames dir)
    (hks : dirPage dir ((PROC_KERNEL_STACK - PAGE_SIZE) / PAGE_SIZE) = 0)
    (hus : dirPage dir ((PROC_USER_STACK - PAGE_SIZE) / PAGE_SIZE) = 0) :
    ∃ dir2,
      (alloc_proc_stacks proc k).2.1.page_dir = some dir2 ∧
      (alloc_proc_stacks proc k).2.1.mem_pages = (ownedFrames dir2).length ∧
      (ownedFrames dir2 ++ (alloc_proc_stacks proc k).2.2.pmm_free).Perm
        (ownedFrames dir ++ k.pmm_free) ∧
      (alloc_proc_stacks proc k).2.2.slab_avail = k.slab_avail ∧
      (alloc_proc_stacks proc k).2.2.pid_map = k.pid_map ∧
      (alloc_proc_stacks proc k).2.2.pid_gen = k.pid_gen ∧
      (alloc_proc_stacks proc k).2.2.idt_vectors = k.idt_vectors ∧
      (alloc_proc_stacks proc k).2.2.sched_queue = k.sched_queue := by
  have hpde1 : (PROC_KERNEL_STACK - PAGE_SIZE) / (NUM_PTE * PAGE_SIZE) < USER_PDE := by
    decide
  have hpde2 : (PROC_USER_STACK - PAGE_SIZE) / (NUM_PTE * PAGE_SIZE) < USER_PDE := by
    decide
  have hvpne : ¬ ((PROC_USER_STACK - PAGE_SIZE) / PAGE_SIZE =
      (PROC_KERNEL_STACK - PAGE_SIZE) / PAGE_SIZE) := by decide
  cases hpmm : k.pmm_free with
  | nil =>
    have hp0 : pmm_alloc_page_address k = (0, k) := by
      simp [pmm_alloc_page_address, hpmm]
    have hstep : alloc_proc_stacks proc k = (false, proc, k) := by
      simp [alloc_proc_stacks, hdir, hp0]
    rw [hstep]
    exact ⟨dir, hdir, hmp, by simp [hpmm], rfl, rfl, rfl, rfl, rfl⟩
  | cons fr rest2 =>
    rw [hpmm, List.length_cons] at hbound
    have hfr : ¬ (fr = 0) := by
      intro h
      apply h0p
      rw [hpmm, ← h]
      exact List.mem_cons_self _ _
    have h0p2 : 0 ∉ rest2 := by
      intro h
      apply h0p
      rw [hpmm]
      exact List.mem_cons_of_mem _ h
    have hp0 : pmm_alloc_page_address k = (fr, { k with pmm_free := rest2 }) := by
      simp [pmm_alloc_page_address, hpmm]
    obtain hfail | hsucc := vmm_map_spec dir (PROC_KERNEL_STACK - PAGE_SIZE) fr
      VMM_WRITABLE { k with pmm_free := rest2 } hpde1 hks hfr h0p2
    · obtain ⟨hnil, heq⟩ := hfail
      have hstep : alloc_proc_stacks proc k =
          (false, proc, { k with pmm_free := fr :: rest2 }) := by
        simp [alloc_proc_stacks, hdir, hp0, heq, hfr, pmm_free_page_address]
      rw [hstep]
      exact ⟨dir, hdir, hmp, List.Perm.refl _, rfl, rfl, rfl, rfl, rfl⟩
    · obtain ⟨e1, D1, he11, he1len, heq1, haddr1, hperm1x, hdirpage1⟩ := hsucc
      have he1len2 : e1 ≤ rest2.length := he1len
      have hperm1 : (ownedFrames D1).Perm
          (fr :: (rest2.take e1 ++ ownedFrames dir)) := hperm1x
      have hlenD1 : (ownedFrames D1).length = e1 + (ownedFrames dir).length + 1 :=
        step_len fr e1 rest2 _ _ hperm1 he1len2
      have h0oD1 : 0 ∉ ownedFrames D1 :=
        step_zero fr e1 rest2 _ _ hperm1 hfr h0p2 h0o
      have hmp1 : add32 proc.mem_pages (e1 + 1) = (ownedFrames D1).length := by
        rw [add32, hmp, hlenD1]
        have hM : (ownedFrames dir).length + (e1 + 1) < M32 := by omega
        rw [Nat.mod_eq_of_lt hM]
        omega
      cases hrest : rest2.drop e1 with
      | nil =>
        have hp0b : pmm_alloc_page_address { k with pmm_free := rest2.drop e1 } =
            (0, { k with pmm_free := rest2.drop e1 }) := by
          simp [pmm_alloc_page_address, hrest]
        have hstep : alloc_proc_stacks proc k =
            (false,
             { proc with page_dir := some D1,
                         mem_pages := add32 proc.mem_pages (e1 + 1) },
             { k with pmm_free := rest2.drop e1 }) := by
          simp [alloc_proc_stacks, hdir, hp0, heq1, hfr, hp0b,
            show ¬ ((e1 : Int) < 0) from by omega]
        rw [hstep]
        refine ⟨D1, rfl, hmp1, ?_, rfl, rfl, rfl, rfl, rfl⟩
        exact step_perm fr e1 rest2 _ _ hperm1
      | cons fr2 rest3 =>
        have hfr2 : ¬ (fr2 = 0) := by
          intro h
          apply h0p2
          apply List.drop_subset e1 rest2
          rw [hrest, ← h]
          exact List.mem_cons_self _ _
        have h0p3 : 0 ∉ rest3 := by
          intro h
          apply h0p2
          apply List.drop_subset e1 rest2
          rw [hrest]
          exact List.mem_cons_of_mem _ h
        have hp0b : pmm_alloc_page_address { k with pmm_free := rest2.drop e1 } =
            (fr2, { k with pmm_free := rest3 }) := by
          simp [pmm_alloc_page_address, hrest]
        have husD1 : dirPage D1 ((PROC_USER_STACK - PAGE_SIZE) / PAGE_SIZE) = 0 := by
          rw [hdirpage1, if_neg hvpne]
          exact hus
        obtain hfail2 | hsucc2 := vmm_map_spec D1 (PROC_USER_STACK - PAGE_SIZE) fr2
          (VMM_WRITABLE ||| VMM_USER) { k with pmm_free := rest3 } hpde2 husD1
          hfr2 h0p3
        · obtain ⟨hnil2, heq2⟩ := hfail2
          have hstep : alloc_proc_stacks proc k =
              (false,
               { proc with page_dir := some D1,
                           mem_pages := add32 proc.mem_pages (e1 + 1) },
               { k with pmm_free := fr2 :: rest3 }) := by
            simp [alloc_proc_stacks, hdir, hp0, heq1, hfr, hp0b, hfr2, heq2,
              pmm_free_page_address, show ¬ ((e1 : Int) < 0) from by omega]
          rw [hstep]
          refine ⟨D1, rfl, hmp1, ?_, rfl, rfl, rfl, rfl, rfl⟩
          rw [← hrest]
          exact step_perm fr e1 rest2 _ _ hperm1
        · obtain ⟨e2, D2, he21, he2len, heq2, haddr2, hperm2x, hdirpage2⟩ := hsucc2
          have he2len2 : e2 ≤ rest3.length := he2len
          have hperm2 : (ownedFrames D2).Perm
              (fr2 :: (rest3.take e2 ++ ownedFrames D1)) := hperm2x
          have hlenD2 : (ownedFrames D2).length = e2 + (ownedFrames D1).length + 1 :=
            step_len fr2 e2 rest3 _ _ hperm2 he2len2
          have hstep : alloc_proc_stacks proc k =
              (true,
               { proc with page_dir := some D2,
                           mem_pages := add32 (add32 proc.mem_pages (e1 + 1)) (e2 + 1),
                           kernel_stack := PROC_KERNEL_STACK,
                           user_stack := PROC_USER_STACK },
               { k with pmm_free := rest3.drop e2 }) := by
            simp [alloc_proc_stacks, hdir, hp0, heq1, hfr, hp0b, hfr2, heq2,
              show ¬ ((e1 : Int) < 0) from by omega,
              show ¬ ((e2 : Int) < 0) from by omega]
          rw [hstep]
          have hdroplen : (rest2.drop e1).length = rest2.length - e1 :=
            List.length_drop e1 rest2
          have hmp2 : add32 (add32 proc.mem_pages (e1 + 1)) (e2 + 1) =
              (ownedFrames D2).length := by
            rw [hmp1, add32, hlenD2]
            have hr3 : rest3.length + 1 = rest2.length - e1 := by
              rw [← hdroplen, hrest, List.length_cons]
            have hM : (ownedFrames D1).length + (e2 + 1) < M32 := by omega
            rw [Nat.mod_eq_of_lt hM]
            omega
          refine ⟨D2, rfl, hmp2, ?_, rfl, rfl, rfl, rfl, rfl⟩
          refine (step_perm fr2 e2 rest3 _ _ hperm2).trans ?_
          rw [← hrest]
          exact step_perm fr e1 rest2 _ _ hperm1

set_option maxRecDepth 8000 in
theorem init_proc_from_elf_spec (proc : Process) (img : Image) (k : Kernel)
    (hmp0 : proc.mem_pages = 0)
    (hbound : k.pmm_free.length < M32)
    (h0p : 0 ∉ k.pmm_free)
    (huser : ∀ pg ∈ img.pages,
      (pg : Nat × Nat × PageData).1 / (NUM_PTE * PAGE_SIZE) < USER_PDE)
    (hnodup : (img.pages.map
      (fun pg : Nat × Nat × PageData => pg.1 / PAGE_SIZE)).Nodup)
    (hksne : ∀ pg ∈ img.pages, ¬ ((pg : Nat × Nat × PageData).1 / PAGE_SIZE =
      (PROC_KERNEL_STACK - PAGE_SIZE) / PAGE_SIZE))
    (husne : ∀ pg ∈ img.pages, ¬ ((pg : Nat × Nat × PageData).1 / PAGE_SIZE =
      (PROC_USER_STACK - PAGE_SIZE) / PAGE_SIZE)) :
    (k.pmm_free = [] ∧ init_proc_from_elf proc img k = (false, proc, k))
    ∨ (∃ dir2,
        (init_proc_from_elf proc img k).2.1.page_dir = some dir2 ∧
        (init_proc_from_elf proc img k).2.1.mem_pages = (ownedFrames dir2).length ∧
        (ownedFrames dir2 ++
          (init_proc_from_elf proc img k).2.2.pmm_free).Perm k.pmm_free ∧
        (init_proc_from_elf proc img k).2.2.slab_avail = k.slab_avail ∧
        (init_proc_from_elf proc img k).2.2.idt_vectors = k.idt_vectors ∧
        (init_proc_from_elf proc img k).2.2.sched_queue = k.sched_queue) := by
  cases hpmm : k.pmm_free with
  | nil =>
    left
    have hd : vmm_alloc_vaddr_space k = (none, k) := by
      simp [vmm_alloc_vaddr_space, pmm_alloc_page_address, hpmm]
    exact ⟨rfl, by simp [init_proc_from_elf, hd]⟩
  | cons a rest =>
    right
    rw [hpmm, List.length_cons] at hbound
    have ha : ¬ (a = 0) := by
      intro h
      apply h0p
      rw [hpmm, ← h]
      exact List.mem_cons_self _ _
    have h0r : 0 ∉ rest := by
      intro h
      apply h0p
      rw [hpmm]
      exact List.mem_cons_of_mem _ h
    have hd : vmm_alloc_vaddr_space k =
        (some ⟨a, fun _ => none, false⟩, { k with pmm_free := rest }) := by
      simp [vmm_alloc_vaddr_space, pmm_alloc_page_address, hpmm, ha]
    have hof0 : ownedFrames ⟨a, fun _ => none, false⟩ = [a] := ownedFrames_fresh a
    have hmp1 : inc32 proc.mem_pages =
        (ownedFrames ⟨a, fun _ => none, false⟩).length := by
      rw [hmp0, hof0]
      rfl
    have h0o0 : 0 ∉ ownedFrames ⟨a, fun _ => none, false⟩ := by
      rw [hof0]
      intro h
      exact ha (List.mem_singleton.mp h).symm
    by_cases hval : img.valid
    · have hboundE : (ownedFrames ⟨a, fun _ => none, false⟩).length + rest.length
          < M32 := by
        rw [hof0, List.length_singleton]
        omega
      obtain ⟨dir2, c1, c2, c3, c4, c5, c6, c7, c8, c9, c10, c11⟩ :=
        elf_map_pages_spec img.pages
          { proc with page_dir := some ⟨a, fun _ => none, false⟩,
                      mem_pages := inc32 proc.mem_pages,
                      entry := img.entry }
          { k with pmm_free := rest } ⟨a, fun _ => none, false⟩
          rfl hmp1 hboundE h0r h0o0 huser
          (fun pg _ => dirPage_fresh a _) hnodup
      rcases helf : elf_map_pages img.pages
          { proc with page_dir := some ⟨a, fun _ => none, false⟩,
                      mem_pages := inc32 proc.mem_pages,
                      entry := img.entry }
          { k with pmm_free := rest } with ⟨b1, proc2, k2⟩
      rw [helf] at c1 c2 c3 c4 c6 c9 c10
      have c1n : proc2.page_dir = some dir2 := c1
      have c2n : proc2.mem_pages = (ownedFrames dir2).length := c2
      have c3n : (ownedFrames dir2 ++ k2.pmm_free).Perm (a :: rest) := by
        have h : (ownedFrames dir2 ++ k2.pmm_free).Perm
            (ownedFrames ⟨a, fun _ => none, false⟩ ++ rest) := c3
        rw [hof0] at h
        exact h
      have c4n : 0 ∉ k2.pmm_free := c4
      have c6n : k2.slab_avail = k.slab_avail := c6
      have c9n : k2.idt_vectors = k.idt_vectors := c9
      have c10n : k2.sched_queue = k.sched_queue := c10
      cases b1 with
      | false =>
        have hstep : init_proc_from_elf proc img k = (false, proc2, k2) := by
          simp [init_proc_from_elf, hd, elf_load_program, hval, helf]
        rw [hstep]
        exact ⟨dir2, c1n, c2n, c3n, c6n, c9n, c10n⟩
      | true =>
        have hboundS : (ownedFrames dir2).length + k2.pmm_free.length < M32 := by
          have hl := c3n.length_eq
          rw [List.length_append, List.length_cons] at hl
          omega
        have hksD : dirPage dir2 ((PROC_KERNEL_STACK - PAGE_SIZE) / PAGE_SIZE)
            = 0 := by
          rw [c11 _ (fun pg hpg h => hksne pg hpg h.symm)]
          exact dirPage_fresh a _
        have husD : dirPage dir2 ((PROC_USER_STACK - PAGE_SIZE) / PAGE_SIZE)
            = 0 := by
          rw [c11 _ (fun pg hpg h => husne pg hpg h.symm)]
          exact dirPage_fresh a _
        obtain ⟨dir3, d1, d2, d3, d4, d5, d6, d7, d8⟩ :=
          alloc_proc_stacks_spec proc2 k2 dir2 c1n c2n hboundS c4n c5 hksD husD
        rcases hstk : alloc_proc_stacks proc2 k2 with ⟨b2, proc3, k3⟩
        rw [hstk] at d1 d2 d3 d4 d7 d8
        have d1n : proc3.page_dir = some dir3 := d1
        have d2n : proc3.mem_pages = (ownedFrames dir3).length := d2
        have d3n : (ownedFrames dir3 ++ k3.pmm_free).Perm
            (ownedFrames dir2 ++ k2.pmm_free) := d3
        have d4n : k3.slab_avail = k2.slab_avail := d4
        have d7n : k3.idt_vectors = k2.idt_vectors := d7
        have d8n : k3.sched_queue = k2.sched_queue := d8
        cases b2 with
        | false =>
          have hstep : init_proc_from_elf proc img k = (false, proc3, k3) := by
            simp [init_proc_from_elf, hd, elf_load_program, hval, helf, hstk]
          rw [hstep]
          exact ⟨dir3, d1n, d2n, d3n.trans c3n, d4n.trans c6n,
            d7n.trans c9n, d8n.trans c10n⟩
        | true =>
          have hstep : init_proc_from_elf proc img k =
              (true,
               { proc3 with page_dir := some (pg_copy_kernel_space dir3) },
               k3) := by
            simp [init_proc_from_elf, hd, elf_load_program, hval, helf, hstk, d1n]
          rw [hstep]
          exact ⟨pg_copy_kernel_space dir3, rfl, d2n, d3n.trans c3n,
            d4n.trans c6n, d7n.trans c9n, d8n.trans c10n⟩
    · have hstep : init_proc_from_elf proc img k =
          (false,
           { proc with page_dir := some ⟨a, fun _ => none, false⟩,
                       mem_pages := inc32 proc.mem_pages },
           { k with pmm_free := rest }) := by
        simp [init_proc_from_elf, hd, elf_load_program, hval]
      rw [hstep]
      refine ⟨⟨a, fun _ => none, false⟩, rfl, hmp1, ?_, rfl, rfl, rfl⟩
      rw [hof0]
      exact List.Perm.refl _

def k5W : Kernel := { initKernel with pmm_free := [21, 22], slab_avail := 3 }

def img5W : Image := { valid := true, entry := 64, pages := [] }

/-- C5: if `proc_exec` fails at any step after the record is acquired —
directory allocation, image loading, kernel-stack allocation or mapping,
user-stack allocation or mapping — then every frame allocated up to that
point is reclaimed when the half-built record is destroyed by
`proc_free`: the run raises no panic, reports failure to the caller, and
leaves the free-frame pool equal (as a multiset) to what it was before
the call, with the record back in the slab pool. -/
theorem proc_exec_failure_reclaims (N : Nat) (img : Image) (k : Kernel)
    (hbound : k.pmm_free.length < M32)
    (h0p : 0 ∉ k.pmm_free)
    (huser : ∀ pg ∈ img.pages,
      (pg : Nat × Nat × PageData).1 / (NUM_PTE * PAGE_SIZE) < USER_PDE)
    (hnodup : (img.pages.map
      (fun pg : Nat × Nat × PageData => pg.1 / PAGE_SIZE)).Nodup)
    (hksne : ∀ pg ∈ img.pages, ¬ ((pg : Nat × Nat × PageData).1 / PAGE_SIZE =
      (PROC_KERNEL_STACK - PAGE_SIZE) / PAGE_SIZE))
    (husne : ∀ pg ∈ img.pages, ¬ ((pg : Nat × Nat × PageData).1 / PAGE_SIZE =
      (PROC_USER_STACK - PAGE_SIZE) / PAGE_SIZE)) :
    ∃ b k2, proc_exec N img k = .ok (b, k2) ∧
      (b = false → k2.pmm_free.Perm k.pmm_free ∧ k2.slab_avail = k.slab_avail) := by
  rcases proc_alloc_cases N k with
    ⟨k1, he, hp1, hm1, hs1, hi1, hq1⟩ |
    ⟨proc1, k1, he, hpd, hmp, hpid, hp1, hm1, hs1, hi1, hq1⟩
  · refine ⟨false, k1, ?_, ?_⟩
    · simp [proc_exec, he]
    · intro _
      rw [hp1, hs1]
      exact ⟨List.Perm.refl _, rfl⟩
  · have hbound1 : k1.pmm_free.length < M32 := by rw [hp1]; exact hbound
    have h0p1 : 0 ∉ k1.pmm_free := by rw [hp1]; exact h0p
    rcases init_proc_from_elf_spec proc1 img k1 hmp hbound1 h0p1 huser hnodup
        hksne husne with
      ⟨hnil, heqi⟩ | ⟨dir2, c1, c2, c3, c6, c9, c10⟩
    · have hpf := proc_free_nodir proc1 k1 hpd hmp
      rw [if_pos hpid] at hpf
      refine ⟨false, slab_free (free_pid proc1.pid.toNat k1), ?_, ?_⟩
      · simp [proc_exec, he, heqi, hpf]
      · intro _
        refine ⟨?_, ?_⟩
        · show (slab_free (free_pid proc1.pid.toNat k1)).pmm_free.Perm k.pmm_free
          simp [slab_free, free_pid, hp1]
        · show (slab_free (free_pid proc1.pid.toNat k1)).slab_avail = k.slab_avail
          simpa [slab_free, free_pid] using hs1
    · rcases hinit : init_proc_from_elf proc1 img k1 with ⟨b1, procI, kI⟩
      rw [hinit] at c1 c2 c3 c6
      have c1n : procI.page_dir = some dir2 := c1
      have c2n : procI.mem_pages = (ownedFrames dir2).length := c2
      have c3n : (ownedFrames dir2 ++ kI.pmm_free).Perm k1.pmm_free := c3
      have c6n : kI.slab_avail = k1.slab_avail := c6
      cases b1 with
      | false =>
        obtain ⟨k3, hpf, hperm3, hslab3, hm3, hi3, hq3, hg3⟩ :=
          proc_free_reclaims procI kI dir2 c1n c2n
        refine ⟨false, k3, ?_, ?_⟩
        · simp [proc_exec, he, hinit, hpf]
        · intro _
          refine ⟨?_, ?_⟩
          · refine hperm3.trans ?_
            rw [← hp1]
            exact c3n
          · rw [hslab3, c6n]
            exact hs1
      | true =>
        exact ⟨true, sched_add { procI with state := PROC_STATE_RUNNING } kI,
          by simp [proc_exec, he, hinit], fun h => nomatch h⟩

/-- Witness for C5: the theorem applied at a concrete kernel holding two
free frames and three slab records, executing an empty valid image. -/
theorem proc_exec_failure_reclaims_witness :
    ∃ b k2, proc_exec 4 img5W k5W = .ok (b, k2) ∧
      (b = false → k2.pmm_free.Perm k5W.pmm_free ∧
        k2.slab_avail = k5W.slab_avail) :=
  proc_exec_failure_reclaims 4 img5W k5W (by decide) (by decide) (by decide)
    (by decide) (by decide) (by decide)

theorem tableFramesOn_cons (pte : Nat) (l : List Nat) (tab : PageTable) :
    tableFramesOn (pte :: l) tab =
      (if (tab.entry pte).1 ≠ 0 then [(tab.entry pte).1] else []) ++
        tableFramesOn l tab := by
  unfold tableFramesOn
  rw [List.filterMap_cons]
  by_cases h : (tab.entry pte).1 ≠ 0
  · rw [if_pos h, if_pos h]
    rfl
  · rw [if_neg h, if_neg h]
    rfl

set_option maxRecDepth 8000 in
theorem clone_ptes_spec :
    ∀ (l : List Nat) (stab ctab : PageTable) (mp : Nat) (k : Kernel),
      l.Nodup →
      (∀ i ∈ l, ctab.entry i = (0, 0)) →
      k.pmm_free.Nodup →
      0 ∉ k.pmm_free →
      (∀ i ∈ l, (stab.entry i).1 ∉ k.pmm_free) →
      mp < M32 →
      ∃ n, n ≤ k.pmm_free.length ∧
        (clone_ptes l stab ctab mp k).2.2.2.pmm_free = k.pmm_free.drop n ∧
        (∀ x, x ∉ k.pmm_free.take n →
          (clone_ptes l stab ctab mp k).2.2.2.mem x = k.mem x) ∧
        (clone_ptes l stab ctab mp k).2.2.2.pid_map = k.pid_map ∧
        (clone_ptes l stab ctab mp k).2.2.2.pid_gen = k.pid_gen ∧
        (clone_ptes l stab ctab mp k).2.2.2.slab_avail = k.slab_avail ∧
        (clone_ptes l stab ctab mp k).2.2.2.idt_vectors = k.idt_vectors ∧
        (clone_ptes l stab ctab mp k).2.2.2.sched_queue = k.sched_queue ∧
        (clone_ptes l stab ctab mp k).2.1.addr = ctab.addr ∧
        (∀ i, i ∉ l → (clone_ptes l stab ctab mp k).2.1.entry i = ctab.entry i) ∧
        tableFramesOn l (clone_ptes l stab ctab mp k).2.1 = k.pmm_free.take n ∧
        (clone_ptes l stab ctab mp k).2.2.1 = (mp + n) % M32 ∧
        ((clone_ptes l stab ctab mp k).1 = false →
          (clone_ptes l stab ctab mp k).2.2.2.pmm_free = []) ∧
        ((clone_ptes l stab ctab mp k).1 = true →
          n = (tableFramesOn l stab).length ∧
          ∀ i ∈ l,
            ((stab.entry i).1 = 0 →
              (clone_ptes l stab ctab mp k).2.1.entry i = (0, 0)) ∧
            ((stab.entry i).1 ≠ 0 →
              ((clone_ptes l stab ctab mp k).2.1.entry i).1 ≠ 0 ∧
              ((clone_ptes l stab ctab mp k).2.1.entry i).2 = (stab.entry i).2 ∧
              ((clone_ptes l stab ctab mp k).2.1.entry i).1 ∈ k.pmm_free.take n ∧
              (clone_ptes l stab ctab mp k).2.2.2.mem
                ((clone_ptes l stab ctab mp k).2.1.entry i).1 =
                k.mem (stab.entry i).1)) := by
  intro l
  induction l with
  | nil =>
    intro stab ctab mp k _ _ _ _ _ hmpb
    refine ⟨0, Nat.zero_le _, rfl, fun x _ => rfl, rfl, rfl, rfl, rfl, rfl, rfl,
      fun i _ => rfl, rfl, (Nat.mod_eq_of_lt hmpb).symm, ?_, ?_⟩
    · intro h
      exact nomatch h
    · intro _
      exact ⟨rfl, fun i hi => absurd hi (List.not_mem_nil i)⟩
  | cons pte rest ih =>
    intro stab ctab mp k hlnd hfresh hknd h0p hsd hmpb
    rw [List.nodup_cons] at hlnd
    obtain ⟨hpr, hrnd⟩ := hlnd
    by_cases hg : (stab.entry pte).1 ≠ 0
    · cases hpmm : k.pmm_free with
      | nil =>
        have hp : pmm_alloc_page_address k = (0, k) := by
          simp [pmm_alloc_page_address, hpmm]
        have hstep : clone_ptes (pte :: rest) stab ctab mp k =
            (false, ctab, mp, k) := by
          simp [clone_ptes, vmm_get_page_index, hg, hp]
        rw [hstep]
        have htf : tableFramesOn (pte :: rest) ctab = [] := by
          unfold tableFramesOn
          apply filterMap_none_all
          intro i hi
          rw [hfresh i hi]
          simp
        exact ⟨0, Nat.zero_le _, by simp [hpmm], fun x _ => rfl, rfl, rfl, rfl,
          rfl, rfl, rfl, fun i _ => rfl, by rw [htf]; simp [hpmm],
          (Nat.mod_eq_of_lt hmpb).symm, fun _ => by simp [hpmm],
          fun h => nomatch h⟩
      | cons fr rest2 =>
        rw [hpmm] at hsd
        have hfr : ¬ (fr = 0) := by
          intro h
          apply h0p
          rw [hpmm, ← h]
          exact List.mem_cons_self _ _
        have h0p2 : 0 ∉ rest2 := by
          intro h
          apply h0p
          rw [hpmm]
          exact List.mem_cons_of_mem _ h
        rw [hpmm, List.nodup_cons] at hknd
        obtain ⟨hfrnr, hknd2⟩ := hknd
        have hp : pmm_alloc_page_address k = (fr, { k with pmm_free := rest2 }) := by
          simp [pmm_alloc_page_address, hpmm]
        have hstep : clone_ptes (pte :: rest) stab ctab mp k =
            clone_ptes rest stab
              (vmm_map_page_index ctab pte fr (stab.entry pte).2) (inc32 mp)
              (mem_write { k with pmm_free := rest2 } fr
                (k.mem (stab.entry pte).1)) := by
          simp [clone_ptes, vmm_get_page_index, hg, hp, hfr, memcpy_page, mem_write]
        have hfresh1 : ∀ i ∈ rest,
            (vmm_map_page_index ctab pte fr (stab.entry pte).2).entry i = (0, 0) := by
          intro i hi
          have hne : ¬ (i = pte) := fun h => hpr (h ▸ hi)
          simp only [vmm_map_page_index, if_neg hne]
          exact hfresh i (List.mem_cons_of_mem _ hi)
        have hsd2 : ∀ i ∈ rest, (stab.entry i).1 ∉
            (mem_write { k with pmm_free := rest2 } fr
              (k.mem (stab.entry pte).1)).pmm_free := by
          intro i hi h
          exact hsd i (List.mem_cons_of_mem _ hi) (List.mem_cons_of_mem _ h)
        have hmpb2 : inc32 mp < M32 := by
          unfold inc32 M32
          omega
        obtain ⟨n, hn, cpmm, cmem, cpm, cpg, csa, cidt, csq, caddr, cent, ctf,
            cmp, cfail, csucc⟩ :=
          ih stab (vmm_map_page_index ctab pte fr (stab.entry pte).2) (inc32 mp)
            (mem_write { k with pmm_free := rest2 } fr
              (k.mem (stab.entry pte).1))
            hrnd hfresh1 hknd2 h0p2 hsd2 hmpb2
        have hn2 : n ≤ rest2.length := hn
        have cpmm2 : (clone_ptes rest stab
            (vmm_map_page_index ctab pte fr (stab.entry pte).2) (inc32 mp)
            (mem_write { k with pmm_free := rest2 } fr
              (k.mem (stab.entry pte).1))).2.2.2.pmm_free = rest2.drop n := cpmm
        refine ⟨n + 1, ?_, ?_, ?_, ?_, ?_, ?_, ?_, ?_, ?_, ?_, ?_, ?_, ?_, ?_⟩
        · rw [List.length_cons]
          omega
        · rw [hstep, List.drop_succ_cons]
          exact cpmm2
        · intro x hx
          rw [List.take_succ_cons] at hx
          simp only [List.mem_cons, not_or] at hx
          obtain ⟨hxfr, hxt⟩ := hx
          rw [hstep, cmem x hxt]
          simp only [mem_write]
          rw [if_neg hxfr]
        · rw [hstep]
          exact cpm
        · rw [hstep]
          exact cpg
        · rw [hstep]
          exact csa
        · rw [hstep]
          exact cidt
        · rw [hstep]
          exact csq
        · rw [hstep]
          exact caddr
        · intro i hi
          simp only [List.mem_cons, not_or] at hi
          obtain ⟨hip, hir⟩ := hi
          rw [hstep, cent i hir]
          simp only [vmm_map_page_index, if_neg hip]
        · rw [hstep]
          have hpe1 : ((clone_ptes rest stab
              (vmm_map_page_index ctab pte fr (stab.entry pte).2) (inc32 mp)
              (mem_write { k with pmm_free := rest2 } fr
                (k.mem (stab.entry pte).1))).2.1.entry pte).1 = fr := by
            rw [cent pte hpr]
            simp [vmm_map_page_index]
          rw [tableFramesOn_cons, hpe1, if_pos hfr, ctf, List.take_succ_cons]
          rfl
        · rw [hstep, cmp]
          unfold inc32
          rw [Nat.mod_add_mod]
          congr 1
          omega
        · rw [hstep]
          exact cfail
        · rw [hstep]
          intro hs
          obtain ⟨hne, hcorr⟩ := csucc hs
          constructor
          · rw [tableFramesOn_cons, if_pos hg, List.length_append,
              List.length_singleton]
            omega
          · intro i hi
            rcases List.mem_cons.mp hi with hip | hir
            · subst hip
              refine ⟨fun h0 => absurd h0 hg, fun _ => ?_⟩
              have hpe : (clone_ptes rest stab
                  (vmm_map_page_index ctab i fr (stab.entry i).2) (inc32 mp)
                  (mem_write { k with pmm_free := rest2 } fr
                    (k.mem (stab.entry i).1))).2.1.entry i =
                  (fr, (stab.entry i).2) := by
                rw [cent i hpr]
                simp [vmm_map_page_index]
              rw [hpe]
              refine ⟨hfr, rfl, ?_, ?_⟩
              · rw [List.take_succ_cons]
                exact List.mem_cons_self _ _
              · have hfrnt : fr ∉ rest2.take n :=
                  fun h => hfrnr (List.take_subset n rest2 h)
                rw [cmem fr hfrnt]
                simp [mem_write]
            · obtain ⟨hz, hnz⟩ := hcorr i hir
              refine ⟨hz, fun h => ?_⟩
              obtain ⟨w1, w2, w3, w4⟩ := hnz h
              refine ⟨w1, w2, ?_, ?_⟩
              · rw [List.take_succ_cons]
                exact List.mem_cons_of_mem _ w3
              · rw [w4]
                simp only [mem_write]
                have hsne : ¬ ((stab.entry i).1 = fr) := by
                  intro hh
                  exact hsd i (List.mem_cons_of_mem _ hir)
                    (hh ▸ List.mem_cons_self _ _)
                rw [if_neg hsne]
    · have hg0 : (stab.entry pte).1 = 0 := not_not.mp hg
      have hstep : clone_ptes (pte :: rest) stab ctab mp k =
          clone_ptes rest stab ctab mp k := by
        simp [clone_ptes, vmm_get_page_index, hg0]
      obtain ⟨n, hn, cpmm, cmem, cpm, cpg, csa, cidt, csq, caddr, cent, ctf,
          cmp, cfail, csucc⟩ :=
        ih stab ctab mp k hrnd (fun i hi => hfresh i (List.mem_cons_of_mem _ hi))
          hknd h0p (fun i hi => hsd i (List.mem_cons_of_mem _ hi)) hmpb
      refine ⟨n, hn, ?_, ?_, ?_, ?_, ?_, ?_, ?_, ?_, ?_, ?_, ?_, ?_, ?_⟩ <;>
        rw [hstep]
      · exact cpmm
      · exact cmem
      · exact cpm
      · exact cpg
      · exact csa
      · exact cidt
      · exact csq
      · exact caddr
      · intro i hi
        simp only [List.mem_cons, not_or] at hi
        exact cent i hi.2
      · have hpe1 : ((clone_ptes rest stab ctab mp k).2.1.entry pte).1 = 0 := by
          rw [cent pte hpr, hfresh pte (List.mem_cons_self _ _)]
        rw [tableFramesOn_cons, hpe1, if_neg (fun h => h rfl), List.nil_append]
        exact ctf
      · exact cmp
      · exact cfail
      · intro hs
        obtain ⟨hne, hcorr⟩ := csucc hs
        constructor
        · rw [tableFramesOn_cons, if_neg hg, List.nil_append]
          exact hne
        · intro i hi
          rcases List.mem_cons.mp hi with hip | hir
          · subst hip
            refine ⟨fun _ => ?_, fun h => absurd h hg⟩
            rw [cent i hpr]
            exact hfresh i (List.mem_cons_self _ _)
          · exact hcorr i hir

theorem userFramesOn_cons (p : Nat) (l : List Nat) (dir : PageDir) :
    userFramesOn (p :: l) dir = slotFrames dir p ++ userFramesOn l dir := by
  unfold userFramesOn
  rw [List.flatMap_cons]

theorem mem_tableFrames (stab : PageTable) (i : Nat)
    (hi : i ∈ List.range NUM_PTE) (h : (stab.entry i).1 ≠ 0) :
    (stab.entry i).1 ∈ tableFrames stab := by
  unfold tableFrames tableFramesOn
  exact List.mem_filterMap.mpr ⟨i, hi, by rw [if_pos h]⟩

theorem mem_userFramesOn (l : List Nat) (dir : PageDir) (p : Nat) (hp : p ∈ l)
    (x : Nat) (hx : x ∈ slotFrames dir p) : x ∈ userFramesOn l dir := by
  unfold userFramesOn
  exact List.mem_flatMap.mpr ⟨p, hp, hx⟩

theorem nodup_take_not_mem_drop (l : List Nat) (h : l.Nodup) (n : Nat) (x : Nat)
    (hx : x ∈ l.take n) : x ∉ l.drop n := by
  have h2 := h
  rw [← List.take_append_drop n l] at h2
  exact (List.disjoint_of_nodup_append h2) hx

theorem clone_pdes_cons_none (l : List Nat) (pde : Nat) (sdir cdir : PageDir)
    (mp : Nat) (k : Kernel) (h : sdir.slot pde = none) :
    clone_pdes (pde :: l) sdir cdir mp k = clone_pdes l sdir cdir mp k := by
  simp [clone_pdes, vmm_get_page_table_index, h]

theorem clone_pdes_cons_nopool (l : List Nat) (pde : Nat) (sdir cdir : PageDir)
    (mp : Nat) (k : Kernel) (stab : PageTable) (sf : Nat)
    (hs : sdir.slot pde = some (stab, sf)) (hpmm : k.pmm_free = []) :
    clone_pdes (pde :: l) sdir cdir mp k = (false, cdir, mp, k) := by
  simp [clone_pdes, vmm_get_page_table_index, hs, vmm_alloc_page_table,
    pmm_alloc_page_address, hpmm]

theorem clone_pdes_cons_fail (l : List Nat) (pde : Nat) (sdir cdir : PageDir)
    (mp : Nat) (k : Kernel) (stab : PageTable) (sf : Nat) (ctab0 : PageTable)
    (k1 : Kernel) (ctab1 : PageTable) (mp1 : Nat) (k2 : Kernel)
    (hs : sdir.slot pde = some (stab, sf))
    (ha : vmm_alloc_page_table k = (some ctab0, k1))
    (hc : clone_ptes (List.range NUM_PTE) stab ctab0 (inc32 mp) k1 =
      (false, ctab1, mp1, k2)) :
    clone_pdes (pde :: l) sdir cdir mp k =
      (false, vmm_map_page_table_index cdir pde ctab1 sf, mp1, k2) := by
  simp [clone_pdes, vmm_get_page_table_index, hs, ha, hc]

theorem clone_pdes_cons_ok (l : List Nat) (pde : Nat) (sdir cdir : PageDir)
    (mp : Nat) (k : Kernel) (stab : PageTable) (sf : Nat) (ctab0 : PageTable)
    (k1 : Kernel) (ctab1 : PageTable) (mp1 : Nat) (k2 : Kernel)
    (hs : sdir.slot pde = some (stab, sf))
    (ha : vmm_alloc_page_table k = (some ctab0, k1))
    (hc : clone_ptes (List.range NUM_PTE) stab ctab0 (inc32 mp) k1 =
      (true, ctab1, mp1, k2)) :
    clone_pdes (pde :: l) sdir cdir mp k =
      clone_pdes l sdir (vmm_map_page_table_index cdir pde ctab1 sf) mp1 k2 := by
  simp [clone_pdes, vmm_get_page_table_index, hs, ha, hc]

theorem userFramesOn_empty (l : List Nat) (dir : PageDir)
    (h : ∀ p ∈ l, dir.slot p = none) : userFramesOn l dir = [] := by
  unfold userFramesOn
  apply flatMap_nil_all
  intro p hp
  simp [slotFrames, h p hp]

set_option maxRecDepth 8000 in
theorem clone_pdes_spec :
    ∀ (l : List Nat) (sdir cdir : PageDir) (mp : Nat) (k : Kernel),
      l.Nodup →
      (∀ p ∈ l, cdir.slot p = none) →
      k.pmm_free.Nodup →
      0 ∉ k.pmm_free →
      (∀ x ∈ k.pmm_free, x ∉ userFramesOn l sdir) →
      mp < M32 →
      ∃ n, n ≤ k.pmm_free.length ∧
        (clone_pdes l sdir cdir mp k).2.2.2.pmm_free = k.pmm_free.drop n ∧
        (∀ x, x ∉ k.pmm_free.take n →
          (clone_pdes l sdir cdir mp k).2.2.2.mem x = k.mem x) ∧
        (clone_pdes l sdir cdir mp k).2.2.2.pid_map = k.pid_map ∧
        (clone_pdes l sdir cdir mp k).2.2.2.pid_gen = k.pid_gen ∧
        (clone_pdes l sdir cdir mp k).2.2.2.slab_avail = k.slab_avail ∧
        (clone_pdes l sdir cdir mp k).2.2.2.idt_vectors = k.idt_vectors ∧
        (clone_pdes l sdir cdir mp k).2.2.2.sched_queue = k.sched_queue ∧
        (clone_pdes l sdir cdir mp k).2.1.addr = cdir.addr ∧
        (clone_pdes l sdir cdir mp k).2.1.kernelCopied = cdir.kernelCopied ∧
        (∀ p, p ∉ l →
          (clone_pdes l sdir cdir mp k).2.1.slot p = cdir.slot p) ∧
        (userFramesOn l (clone_pdes l sdir cdir mp k).2.1).Perm
          (k.pmm_free.take n) ∧
        (clone_pdes l sdir cdir mp k).2.2.1 = (mp + n) % M32 ∧
        ((clone_pdes l sdir cdir mp k).1 = false →
          (clone_pdes l sdir cdir mp k).2.2.2.pmm_free = []) ∧
        ((clone_pdes l sdir cdir mp k).1 = true →
          n = (userFramesOn l sdir).length ∧
          ∀ p ∈ l,
            (sdir.slot p = none →
              (clone_pdes l sdir cdir mp k).2.1.slot p = none) ∧
            (∀ stab sf, sdir.slot p = some (stab, sf) →
              ∃ ctab,
                (clone_pdes l sdir cdir mp k).2.1.slot p = some (ctab, sf) ∧
                ∀ i ∈ List.range NUM_PTE,
                  ((stab.entry i).1 = 0 → ctab.entry i = (0, 0)) ∧
                  ((stab.entry i).1 ≠ 0 →
                    (ctab.entry i).1 ≠ 0 ∧
                    (ctab.entry i).2 = (stab.entry i).2 ∧
                    (ctab.entry i).1 ∈ k.pmm_free.take n ∧
                    (clone_pdes l sdir cdir mp k).2.2.2.mem (ctab.entry i).1 =
                      k.mem (stab.entry i).1))) := by
  intro l
  induction l with
  | nil =>
    intro sdir cdir mp k _ _ _ _ _ hmpb
    refine ⟨0, Nat.zero_le _, rfl, fun x _ => rfl, rfl, rfl, rfl, rfl, rfl, rfl,
      rfl, fun p _ => rfl, List.Perm.refl _, (Nat.mod_eq_of_lt hmpb).symm,
      ?_, ?_⟩
    · intro h
      exact nomatch h
    · intro _
      exact ⟨rfl, fun p hp => absurd hp (List.not_mem_nil p)⟩
  | cons pde rest ih =>
    intro sdir cdir mp k hlnd hempty hknd h0p hsdisj hmpb
    rw [List.nodup_cons] at hlnd
    obtain ⟨hpr, hrnd⟩ := hlnd
    cases hslot : sdir.slot pde with
    | none =>
      have hstep := clone_pdes_cons_none rest pde sdir cdir mp k hslot
      have hsd2 : ∀ x ∈ k.pmm_free, x ∉ userFramesOn rest sdir := by
        intro x hx h
        exact hsdisj x hx (by rw [userFramesOn_cons]
                              exact List.mem_append_right _ h)
      obtain ⟨n, qle, qpmm, qmem, qpm, qpg, qsa, qidt, qsq, qaddr, qkc, qslot,
          qperm, qmp, qfail, qsucc⟩ :=
        ih sdir cdir mp k hrnd
          (fun p hp => hempty p (List.mem_cons_of_mem _ hp)) hknd h0p hsd2 hmpb
      refine ⟨n, qle, ?_, ?_, ?_, ?_, ?_, ?_, ?_, ?_, ?_, ?_, ?_, ?_, ?_, ?_⟩ <;>
        rw [hstep]
      · exact qpmm
      · exact qmem
      · exact qpm
      · exact qpg
      · exact qsa
      · exact qidt
      · exact qsq
      · exact qaddr
      · exact qkc
      · intro p hp
        simp only [List.mem_cons, not_or] at hp
        exact qslot p hp.2
      · rw [userFramesOn_cons]
        have hsf : slotFrames (clone_pdes rest sdir cdir mp k).2.1 pde = [] := by
          unfold slotFrames
          rw [qslot pde hpr, hempty pde (List.mem_cons_self _ _)]
        rw [hsf, List.nil_append]
        exact qperm
      · exact qmp
      · exact qfail
      · intro hs
        obtain ⟨hn, qcorr⟩ := qsucc hs
        constructor
        · rw [userFramesOn_cons, List.length_append]
          have hsf : slotFrames sdir pde = [] := by
            unfold slotFrames
            rw [hslot]
          rw [hsf]
          simpa using hn
        · intro p hp
          rcases List.mem_cons.mp hp with hppde | hprest
          · subst hppde
            refine ⟨fun _ => ?_, fun stab sf h => ?_⟩
            · rw [qslot p hpr]
              exact hempty p (List.mem_cons_self _ _)
            · rw [hslot] at h
              exact nomatch h
          · exact qcorr p hprest
    | some tf =>
      obtain ⟨stab, sflag⟩ := tf
      cases hpmm : k.pmm_free with
      | nil =>
        have hstep := clone_pdes_cons_nopool rest pde sdir cdir mp k stab sflag
          hslot hpmm
        refine ⟨0, Nat.zero_le _, ?_, ?_, ?_, ?_, ?_, ?_, ?_, ?_, ?_, ?_, ?_,
            ?_, ?_, ?_⟩ <;> rw [hstep]
        · exact hpmm
        · exact fun x _ => rfl
        · exact fun p _ => rfl
        · rw [userFramesOn_empty (pde :: rest) cdir hempty]
          exact List.Perm.refl _
        · exact (Nat.mod_eq_of_lt hmpb).symm
        · exact fun _ => hpmm
        · intro h
          exact nomatch h
      | cons ta rest2 =>
        have hta : ¬ (ta = 0) := by
          intro h
          apply h0p
          rw [hpmm, ← h]
          exact List.mem_cons_self _ _
        have h0p2 : 0 ∉ rest2 := by
          intro h
          apply h0p
          rw [hpmm]
          exact List.mem_cons_of_mem _ h
        rw [hpmm, List.nodup_cons] at hknd
        obtain ⟨htanr, hknd2⟩ := hknd
        have ha : vmm_alloc_page_table k =
            (some ⟨ta, fun _ => (0, 0)⟩, { k with pmm_free := rest2 }) := by
          simp [vmm_alloc_page_table, pmm_alloc_page_address, hpmm, hta]
        have hsdin : ∀ i ∈ List.range NUM_PTE,
            (stab.entry i).1 ∉ ({ k with pmm_free := rest2 } : Kernel).pmm_free := by
          intro i hi h
          by_cases hz : (stab.entry i).1 = 0
          · rw [hz] at h
            exact h0p2 h
          · refine hsdisj _ (by rw [hpmm]; exact List.mem_cons_of_mem _ h) ?_
            refine mem_userFramesOn (pde :: rest) sdir pde
              (List.mem_cons_self _ _) _ ?_
            unfold slotFrames
            rw [hslot]
            exact List.mem_append_left _ (mem_tableFrames stab i hi hz)
        have hmpb2 : inc32 mp < M32 := by
          unfold inc32 M32
          omega
        obtain ⟨n1, ple, ppmm, pmem, ppm, ppg, psa, pidt, psq, paddr, pent,
            ptf, pmp, pfail, psucc⟩ :=
          clone_ptes_spec (List.range NUM_PTE) stab ⟨ta, fun _ => (0, 0)⟩
            (inc32 mp) { k with pmm_free := rest2 } (List.nodup_range _)
            (fun i _ => rfl) hknd2 h0p2 hsdin hmpb2
        rcases hcp : clone_ptes (List.range NUM_PTE) stab ⟨ta, fun _ => (0, 0)⟩
            (inc32 mp) { k with pmm_free := rest2 } with ⟨b1, ctab1, mp1, k1⟩
        rw [hcp] at ppmm pmem ppm ppg psa pidt psq paddr pent ptf pmp pfail psucc
        have ple2 : n1 ≤ rest2.length := ple
        have ppmm2 : k1.pmm_free = rest2.drop n1 := ppmm
        have pmem2 : ∀ x, x ∉ rest2.take n1 → k1.mem x = k.mem x := by
          intro x hx
          exact pmem x hx
        have ppm2 : k1.pid_map = k.pid_map := ppm
        have ppg2 : k1.pid_gen = k.pid_gen := ppg
        have psa2 : k1.slab_avail = k.slab_avail := psa
        have pidt2 : k1.idt_vectors = k.idt_vectors := pidt
        have psq2 : k1.sched_queue = k.sched_queue := psq
        have paddr2 : ctab1.addr = ta := paddr
        have ptf2 : tableFrames ctab1 = rest2.take n1 := ptf
        have pmp2 : mp1 = (inc32 mp + n1) % M32 := pmp
        cases b1 with
        | false =>
          have hstep := clone_pdes_cons_fail rest pde sdir cdir mp k stab sflag
            ⟨ta, fun _ => (0, 0)⟩ { k with pmm_free := rest2 } ctab1 mp1 k1
            hslot ha hcp
          have pfail2 : k1.pmm_free = [] := pfail rfl
          refine ⟨n1 + 1, ?_, ?_, ?_, ?_, ?_, ?_, ?_, ?_, ?_, ?_, ?_, ?_, ?_,
              ?_, ?_⟩ <;> try rw [hstep]
          · rw [List.length_cons]
            omega
          · rw [List.drop_succ_cons]
            exact ppmm2
          · intro x hx
            rw [List.take_succ_cons] at hx
            simp only [List.mem_cons, not_or] at hx
            exact pmem2 x hx.2
          · exact ppm2
          · exact ppg2
          · exact psa2
          · exact pidt2
          · exact psq2
          · rfl
          · rfl
          · intro p hp
            simp only [List.mem_cons, not_or] at hp
            simp [vmm_map_page_table_index, hp.1]
          · show (userFramesOn (pde :: rest)
                (vmm_map_page_table_index cdir pde ctab1 sflag)).Perm
                ((ta :: rest2).take (n1 + 1))
            rw [userFramesOn_cons]
            have hs1 : (vmm_map_page_table_index cdir pde ctab1 sflag).slot pde =
                some (ctab1, sflag) := by
              simp [vmm_map_page_table_index]
            have hsf : slotFrames (vmm_map_page_table_index cdir pde ctab1 sflag)
                pde = tableFrames ctab1 ++ [ctab1.addr] := by
              unfold slotFrames
              rw [hs1]
            have hrest0 : userFramesOn rest
                (vmm_map_page_table_index cdir pde ctab1 sflag) = [] := by
              apply userFramesOn_empty
              intro p hp
              have hne : ¬ (p = pde) := fun h => hpr (h ▸ hp)
              simp only [vmm_map_page_table_index, if_neg hne]
              exact hempty p (List.mem_cons_of_mem _ hp)
            rw [hsf, hrest0, List.append_nil, paddr2, ptf2, List.take_succ_cons]
            exact List.perm_append_singleton ta (rest2.take n1)
          · show mp1 = (mp + (n1 + 1)) % M32
            rw [pmp2]
            unfold inc32
            rw [Nat.mod_add_mod]
            congr 1
            omega
          · intro _
            exact pfail2
          · intro h
            exact nomatch h
        | true =>
          have hstep := clone_pdes_cons_ok rest pde sdir cdir mp k stab sflag
            ⟨ta, fun _ => (0, 0)⟩ { k with pmm_free := rest2 } ctab1 mp1 k1
            hslot ha hcp
          obtain ⟨hn1len, pcorr⟩ := psucc rfl
          have hempty2 : ∀ p ∈ rest,
              (vmm_map_page_table_index cdir pde ctab1 sflag).slot p = none := by
            intro p hp
            have hne : ¬ (p = pde) := fun h => hpr (h ▸ hp)
            simp only [vmm_map_page_table_index, if_neg hne]
            exact hempty p (List.mem_cons_of_mem _ hp)
          have hknd1 : k1.pmm_free.Nodup := by
            rw [ppmm2]
            exact (List.drop_sublist _ _).nodup hknd2
          have h0p1 : 0 ∉ k1.pmm_free := by
            rw [ppmm2]
            intro h
            exact h0p2 (List.drop_subset _ _ h)
          have hsd1 : ∀ x ∈ k1.pmm_free, x ∉ userFramesOn rest sdir := by
            intro x hx h
            rw [ppmm2] at hx
            refine hsdisj x (by rw [hpmm]
                                exact List.mem_cons_of_mem _
                                  (List.drop_subset _ _ hx)) ?_
            rw [userFramesOn_cons]
            exact List.mem_append_right _ h
          have hmpb1 : mp1 < M32 := by
            rw [pmp2]
            unfold M32
            omega
          obtain ⟨n2, qle, qpmm, qmem, qpm, qpg, qsa, qidt, qsq, qaddr, qkc,
              qslot, qperm, qmp, qfail, qsucc⟩ :=
            ih sdir (vmm_map_page_table_index cdir pde ctab1 sflag) mp1 k1
              hrnd hempty2 hknd1 h0p1 hsd1 hmpb1
          have qle2 : n2 ≤ (rest2.drop n1).length := by
            rw [← ppmm2]
            exact qle
          have hdl : (rest2.drop n1).length = rest2.length - n1 :=
            List.length_drop n1 rest2
          have qperm2 : (userFramesOn rest
              (clone_pdes rest sdir
                (vmm_map_page_table_index cdir pde ctab1 sflag) mp1 k1).2.1).Perm
              ((rest2.drop n1).take n2) := by
            rw [← ppmm2]
            exact qperm
          refine ⟨n1 + n2 + 1, ?_, ?_, ?_, ?_, ?_, ?_, ?_, ?_, ?_, ?_, ?_, ?_,
              ?_, ?_, ?_⟩ <;> try rw [hstep]
          · rw [List.length_cons]
            omega
          · rw [qpmm, ppmm2, List.drop_drop, List.drop_succ_cons]
          · intro x hx
            rw [List.take_succ_cons, List.take_add] at hx
            simp only [List.mem_cons, List.mem_append, not_or] at hx
            obtain ⟨hxta, hx1, hx2⟩ := hx
            rw [qmem x (by rw [ppmm2]; exact hx2)]
            exact pmem2 x hx1
          · rw [qpm]
            exact ppm2
          · rw [qpg]
            exact ppg2
          · rw [qsa]
            exact psa2
          · rw [qidt]
            exact pidt2
          · rw [qsq]
            exact psq2
          · rw [qaddr]
            rfl
          · rw [qkc]
            rfl
          · intro p hp
            simp only [List.mem_cons, not_or] at hp
            rw [qslot p hp.2]
            simp [vmm_map_page_table_index, hp.1]
          · rw [userFramesOn_cons]
            have hs1 : (clone_pdes rest sdir
                (vmm_map_page_table_index cdir pde ctab1 sflag) mp1 k1).2.1.slot
                pde = some (ctab1, sflag) := by
              rw [qslot pde hpr]
              simp [vmm_map_page_table_index]
            have hsf : slotFrames (clone_pdes rest sdir
                (vmm_map_page_table_index cdir pde ctab1 sflag) mp1 k1).2.1 pde =
                tableFrames ctab1 ++ [ctab1.addr] := by
              unfold slotFrames
              rw [hs1]
            rw [hsf, paddr2, ptf2, List.take_succ_cons, List.take_add]
            refine ((List.perm_append_singleton ta
              (rest2.take n1)).append_right _).trans ?_
            exact List.Perm.cons ta (qperm2.append_left (rest2.take n1))
          · rw [qmp, pmp2]
            unfold inc32
            rw [Nat.mod_add_mod, Nat.add_assoc, Nat.mod_add_mod]
            congr 1
            omega
          · exact qfail
          · intro hs
            obtain ⟨hn2len, qcorr⟩ := qsucc hs
            constructor
            · rw [userFramesOn_cons, List.length_append]
              have hsfl : slotFrames sdir pde =
                  tableFrames stab ++ [stab.addr] := by
                unfold slotFrames
                rw [hslot]
              rw [hsfl, List.length_append, List.length_singleton]
              have hn1' : n1 = (tableFrames stab).length := hn1len
              omega
            · intro p hp
              rcases List.mem_cons.mp hp with hppde | hprest
              · subst hppde
                refine ⟨fun h => ?_, fun stab' sf' h => ?_⟩
                · rw [hslot] at h
                  exact nomatch h
                · rw [hslot] at h
                  injection h with h1
                  rw [Prod.mk.injEq] at h1
                  obtain ⟨hst, hsf2⟩ := h1
                  subst hst
                  subst hsf2
                  refine ⟨ctab1, ?_, ?_⟩
                  · rw [qslot p hpr]
                    simp [vmm_map_page_table_index]
                  · intro i hi
                    obtain ⟨pz, pnz⟩ := pcorr i hi
                    refine ⟨pz, fun hz => ?_⟩
                    obtain ⟨w1, w2, w3, w4⟩ := pnz hz
                    have w3c : (ctab1.entry i).1 ∈ rest2.take n1 := w3
                    have w4c : k1.mem (ctab1.entry i).1 =
                        k.mem (stab.entry i).1 := w4
                    refine ⟨w1, w2, ?_, ?_⟩
                    · rw [List.take_succ_cons, List.take_add]
                      exact List.mem_cons_of_mem _ (List.mem_append_left _ w3c)
                    · have hcent : (ctab1.entry i).1 ∉ k1.pmm_free.take n2 := by
                        rw [ppmm2]
                        intro hmem
                        exact (nodup_take_not_mem_drop rest2 hknd2 n1 _ w3c)
                          (List.take_subset _ _ hmem)
                      rw [qmem _ hcent]
                      exact w4c
              · obtain ⟨qz, qnz⟩ := qcorr p hprest
                refine ⟨qz, ?_⟩
                intro stab' sf' h
                obtain ⟨ctab, hct, hcorr2⟩ := qnz stab' sf' h
                refine ⟨ctab, hct, ?_⟩
                intro i hi
                obtain ⟨cz, cnz⟩ := hcorr2 i hi
                refine ⟨cz, fun hz => ?_⟩
                obtain ⟨w1, w2, w3, w4⟩ := cnz hz
                refine ⟨w1, w2, ?_, ?_⟩
                · rw [List.take_succ_cons, List.take_add]
                  have w3c : (ctab.entry i).1 ∈ (rest2.drop n1).take n2 := by
                    rw [ppmm2] at w3
                    exact w3
                  exact List.mem_cons_of_mem _ (List.mem_append_right _ w3c)
                · rw [w4]
                  apply pmem2
                  intro hmem
                  have hsk : (stab'.entry i).1 ∈ k.pmm_free := by
                    rw [hpmm]
                    exact List.mem_cons_of_mem _ (List.take_subset _ _ hmem)
                  refine hsdisj _ hsk ?_
                  rw [userFramesOn_cons]
                  refine List.mem_append_right _
                    (mem_userFramesOn rest sdir p hprest _ ?_)
                  unfold slotFrames
                  rw [h]
                  exact List.mem_append_left _ (mem_tableFrames stab' i hi hz)

set_option maxRecDepth 8000 in
theorem init_proc_from_proc_spec (clone proc : Process) (k : Kernel)
    (sdir : PageDir)
    (hdir : proc.page_dir = some sdir)
    (hmp0 : clone.mem_pages = 0)
    (hknd : k.pmm_free.Nodup)
    (h0p : 0 ∉ k.pmm_free)
    (hbound : k.pmm_free.length < M32)
    (hdisj : ∀ x ∈ k.pmm_free, x ∉ ownedFrames sdir) :
    (k.pmm_free = [] ∧ init_proc_from_proc clone proc k = (false, clone, k))
    ∨ (∃ cdir,
        (init_proc_from_proc clone proc k).2.1.page_dir = some cdir ∧
        (init_proc_from_proc clone proc k).2.1.mem_pages =
          (ownedFrames cdir).length ∧
        (ownedFrames cdir ++
          (init_proc_from_proc clone proc k).2.2.pmm_free).Perm k.pmm_free ∧
        (∀ x, x ∉ k.pmm_free →
          (init_proc_from_proc clone proc k).2.2.mem x = k.mem x) ∧
        (init_proc_from_proc clone proc k).2.2.pid_map = k.pid_map ∧
        (init_proc_from_proc clone proc k).2.2.pid_gen = k.pid_gen ∧
        (init_proc_from_proc clone proc k).2.2.slab_avail = k.slab_avail ∧
        (init_proc_from_proc clone proc k).2.2.idt_vectors = k.idt_vectors ∧
        (init_proc_from_proc clone proc k).2.2.sched_queue = k.sched_queue ∧
        ((init_proc_from_proc clone proc k).1 = true →
          (init_proc_from_proc clone proc k).2.1.mem_pages =
            (ownedFrames sdir).length ∧
          ∀ p ∈ List.range USER_PDE,
            (sdir.slot p = none → cdir.slot p = none) ∧
            (∀ stab sf, sdir.slot p = some (stab, sf) →
              ∃ ctab, cdir.slot p = some (ctab, sf) ∧
                ∀ i ∈ List.range NUM_PTE,
                  ((stab.entry i).1 = 0 → ctab.entry i = (0, 0)) ∧
                  ((stab.entry i).1 ≠ 0 →
                    (ctab.entry i).1 ≠ 0 ∧
                    (ctab.entry i).2 = (stab.entry i).2 ∧
                    (ctab.entry i).1 ∈ k.pmm_free ∧
                    (init_proc_from_proc clone proc k).2.2.mem
                      (ctab.entry i).1 = k.mem (stab.entry i).1)))) := by
  cases hpmm : k.pmm_free with
  | nil =>
    left
    have hd : vmm_alloc_vaddr_space k = (none, k) := by
      simp [vmm_alloc_vaddr_space, pmm_alloc_page_address, hpmm]
    exact ⟨rfl, by simp [init_proc_from_proc, hd]⟩
  | cons a rest =>
    right
    rw [hpmm, List.length_cons] at hbound
    rw [hpmm, List.nodup_cons] at hknd
    obtain ⟨hanr, hkndr⟩ := hknd
    have ha : ¬ (a = 0) := by
      intro h
      apply h0p
      rw [hpmm, ← h]
      exact List.mem_cons_self _ _
    have h0r : 0 ∉ rest := by
      intro h
      apply h0p
      rw [hpmm]
      exact List.mem_cons_of_mem _ h
    have hd : vmm_alloc_vaddr_space k =
        (some ⟨a, fun _ => none, false⟩, { k with pmm_free := rest }) := by
      simp [vmm_alloc_vaddr_space, pmm_alloc_page_address, hpmm, ha]
    have hsd : ∀ x ∈ ({ k with pmm_free := rest } : Kernel).pmm_free,
        x ∉ userFramesOn (List.range USER_PDE) sdir := by
      intro x hx h
      exact hdisj x (by rw [hpmm]; exact List.mem_cons_of_mem _ hx)
        (List.mem_cons_of_mem _ h)
    have hmpb : inc32 clone.mem_pages < M32 := by
      unfold inc32 M32
      omega
    obtain ⟨n, qle, qpmm, qmem, qpm, qpg, qsa, qidt, qsq, qaddr, qkc, qslot,
        qperm, qmp, qfail, qsucc⟩ :=
      clone_pdes_spec (List.range USER_PDE) sdir ⟨a, fun _ => none, false⟩
        (inc32 clone.mem_pages) { k with pmm_free := rest }
        (List.nodup_range _) (fun p _ => rfl) hkndr h0r hsd hmpb
    rcases hcp : clone_pdes (List.range USER_PDE) sdir ⟨a, fun _ => none, false⟩
        (inc32 clone.mem_pages) { k with pmm_free := rest } with
      ⟨b, cdir1, mp1, k1⟩
    rw [hcp] at qpmm qmem qpm qpg qsa qidt qsq qaddr
    rw [hcp] at qkc qslot qperm qmp qfail qsucc
    have qle2 : n ≤ rest.length := qle
    have qpmm2 : k1.pmm_free = rest.drop n := qpmm
    have qmem2 : ∀ x, x ∉ rest.take n → k1.mem x = k.mem x := by
      intro x hx
      exact qmem x hx
    have qperm2 : (userFrames cdir1).Perm (rest.take n) := qperm
    have qaddr2 : cdir1.addr = a := qaddr
    have qmp2 : mp1 = (inc32 clone.mem_pages + n) % M32 := qmp
    have qpm2 : k1.pid_map = k.pid_map := qpm
    have qpg2 : k1.pid_gen = k.pid_gen := qpg
    have qsa2 : k1.slab_avail = k.slab_avail := qsa
    have qidt2 : k1.idt_vectors = k.idt_vectors := qidt
    have qsq2 : k1.sched_queue = k.sched_queue := qsq
    have hulen : (userFrames cdir1).length = n := by
      rw [qperm2.length_eq, List.length_take]
      omega
    have hmplen : mp1 = (ownedFrames cdir1).length := by
      rw [qmp2, hmp0]
      show (inc32 0 + n) % M32 = (cdir1.addr :: userFrames cdir1).length
      rw [List.length_cons, hulen]
      have hb2 : rest.length + 1 < 4294967296 := hbound
      unfold inc32 M32
      omega
    have hperm : (ownedFrames cdir1 ++ k1.pmm_free).Perm (a :: rest) := by
      show (cdir1.addr :: (userFrames cdir1 ++ k1.pmm_free)).Perm (a :: rest)
      rw [qaddr2, qpmm2]
      refine List.Perm.cons a ?_
      refine (qperm2.append_right _).trans ?_
      rw [List.take_append_drop]
    have hmem : ∀ x, x ∉ a :: rest → k1.mem x = k.mem x := by
      intro x hx
      simp only [List.mem_cons, not_or] at hx
      exact qmem2 x (fun h => hx.2 (List.take_subset _ _ h))
    cases b with
    | false =>
      have hstep : init_proc_from_proc clone proc k =
          (false, { clone with page_dir := some cdir1, mem_pages := mp1 },
           k1) := by
        simp [init_proc_from_proc, hd, hdir, hcp]
      rw [hstep]
      refine ⟨cdir1, rfl, hmplen, hperm, hmem, qpm2, qpg2, qsa2, qidt2, qsq2,
        ?_⟩
      intro h
      exact nomatch h
    | true =>
      have hstep : init_proc_from_proc clone proc k =
          (true,
           { clone with page_dir := some (pg_copy_kernel_space cdir1),
                        mem_pages := mp1 },
           k1) := by
        simp [init_proc_from_proc, hd, hdir, hcp]
      rw [hstep]
      obtain ⟨hnlen, qcorr⟩ := qsucc rfl
      have hnlen2 : n = (userFrames sdir).length := hnlen
      refine ⟨pg_copy_kernel_space cdir1, rfl, hmplen, hperm, hmem, qpm2,
        qpg2, qsa2, qidt2, qsq2, ?_⟩
      intro _
      constructor
      · show mp1 = (sdir.addr :: userFrames sdir).length
        rw [hmplen]
        show (cdir1.addr :: userFrames cdir1).length =
          (sdir.addr :: userFrames sdir).length
        rw [List.length_cons, List.length_cons, hulen, hnlen2]
      · intro p hp
        obtain ⟨qz, qnz⟩ := qcorr p hp
        refine ⟨qz, ?_⟩
        intro stab sf h
        obtain ⟨ctab, hct, hcorr2⟩ := qnz stab sf h
        refine ⟨ctab, hct, ?_⟩
        intro i hi
        obtain ⟨cz, cnz⟩ := hcorr2 i hi
        refine ⟨cz, fun hz => ?_⟩
        obtain ⟨w1, w2, w3, w4⟩ := cnz hz
        have w3c : (ctab.entry i).1 ∈ rest.take n := w3
        refine ⟨w1, w2, ?_, w4⟩
        exact List.mem_cons_of_mem _ (List.take_subset _ _ w3c)

/-- C2: for every living source process (well-accounted directory, pool
disjoint from its owned frames), `proc_clone` either returns no clone
with the free-frame pool restored, the record returned to the slab pool
and every source-owned frame's contents untouched, or returns a clone
whose parent field is the source's pid and whose address space maps
every user-space page of the source at the same directory slot and
table index, with identical flags, to a frame that is none of the
source's owned frames (so writing a cloned page never changes a source
page) and holds a byte-for-byte copy of the source page; unmapped
source entries stay unmapped in the clone, and the source's frames are
unmodified in either outcome. -/
theorem proc_clone_fidelity (N : Nat) (proc : Process) (k : Kernel)
    (sdir : PageDir)
    (hdir : proc.page_dir = some sdir)
    (hmp : proc.mem_pages = (ownedFrames sdir).length)
    (hknd : k.pmm_free.Nodup)
    (h0p : 0 ∉ k.pmm_free)
    (hbound : k.pmm_free.length < M32)
    (hdisj : ∀ x ∈ k.pmm_free, x ∉ ownedFrames sdir) :
    ∃ r, proc_clone N proc k = .ok r ∧
      (r.1 = none → r.2.pmm_free.Perm k.pmm_free ∧
        r.2.slab_avail = k.slab_avail ∧
        ∀ x ∈ ownedFrames sdir, r.2.mem x = k.mem x) ∧
      (∀ clone2, r.1 = some clone2 →
        clone2.parent = some proc.pid ∧
        ∃ cdir, clone2.page_dir = some cdir ∧
          (∀ x ∈ ownedFrames sdir, r.2.mem x = k.mem x) ∧
          ∀ p ∈ List.range USER_PDE,
            (sdir.slot p = none → cdir.slot p = none) ∧
            (∀ stab sf, sdir.slot p = some (stab, sf) →
              ∃ ctab, cdir.slot p = some (ctab, sf) ∧
                ∀ i ∈ List.range NUM_PTE,
                  ((stab.entry i).1 = 0 → ctab.entry i = (0, 0)) ∧
                  ((stab.entry i).1 ≠ 0 →
                    (ctab.entry i).1 ≠ 0 ∧
                    (ctab.entry i).2 = (stab.entry i).2 ∧
                    (ctab.entry i).1 ∉ ownedFrames sdir ∧
                    r.2.mem (ctab.entry i).1 = k.mem (stab.entry i).1))) := by
  rcases proc_alloc_cases N k with
    ⟨k1, he, hp1, hm1, hs1, hi1, hq1⟩ |
    ⟨clone1, k1, he, hpd, hmpc, hpid, hp1, hm1, hs1, hi1, hq1⟩
  · refine ⟨(none, k1), by simp [proc_clone, he], ?_, fun clone2 h => nomatch h⟩
    intro _
    refine ⟨by rw [hp1], hs1, fun x _ => by rw [hm1]⟩
  · have hbound1 : k1.pmm_free.length < M32 := by rw [hp1]; exact hbound
    have h0p1 : 0 ∉ k1.pmm_free := by rw [hp1]; exact h0p
    have hknd1 : k1.pmm_free.Nodup := by rw [hp1]; exact hknd
    have hdisj1 : ∀ x ∈ k1.pmm_free, x ∉ ownedFrames sdir := by
      rw [hp1]
      exact hdisj
    rcases init_proc_from_proc_spec clone1 proc k1 sdir hdir hmpc hknd1 h0p1
        hbound1 hdisj1 with
      ⟨hnil, heqi⟩ | ⟨cdir, c1, c2, c3, c4, c5, c6, c7, c8, c9, c10⟩
    · have hpf := proc_free_nodir clone1 k1 hpd hmpc
      rw [if_pos hpid] at hpf
      refine ⟨(none, slab_free (free_pid clone1.pid.toNat k1)), ?_, ?_,
        fun clone2 h => nomatch h⟩
      · simp [proc_clone, he, heqi, hpf]
      · intro _
        refine ⟨?_, ?_, ?_⟩
        · show (slab_free (free_pid clone1.pid.toNat k1)).pmm_free.Perm
            k.pmm_free
          simp [slab_free, free_pid, hp1]
        · show (slab_free (free_pid clone1.pid.toNat k1)).slab_avail =
            k.slab_avail
          simpa [slab_free, free_pid] using hs1
        · intro x _
          show (slab_free (free_pid clone1.pid.toNat k1)).mem x = k.mem x
          simp [slab_free, free_pid, hm1]
    · rcases hinit : init_proc_from_proc clone1 proc k1 with ⟨b, procI, kI⟩
      rw [hinit] at c1 c2 c3 c4 c5 c6 c7 c8 c9 c10
      have c1n : procI.page_dir = some cdir := c1
      have c2n : procI.mem_pages = (ownedFrames cdir).length := c2
      have c3n : (ownedFrames cdir ++ kI.pmm_free).Perm k1.pmm_free := c3
      have c4n : ∀ x, x ∉ k1.pmm_free → kI.mem x = k1.mem x := by
        intro x hx
        exact c4 x hx
      have c7n : kI.slab_avail = k1.slab_avail := c7
      have hmemS : ∀ x ∈ ownedFrames sdir, kI.mem x = k.mem x := by
        intro x hx
        rw [c4n x (fun h => hdisj1 x h hx), hm1]
      cases b with
      | false =>
        obtain ⟨k3, hpf, hperm3, hslab3, hm3, hi3, hq3, hg3⟩ :=
          proc_free_reclaims procI kI cdir c1n c2n
        refine ⟨(none, k3), ?_, ?_, fun clone2 h => nomatch h⟩
        · simp [proc_clone, he, hinit, hpf]
        · intro _
          refine ⟨?_, ?_, ?_⟩
          · refine hperm3.trans ?_
            rw [← hp1]
            exact c3n
          · rw [hslab3, c7n]
            exact hs1
          · intro x hx
            rw [hm3]
            exact hmemS x hx
      | true =>
        obtain ⟨hmpS, hcorr⟩ := c10 rfl
        have hmpS2 : procI.mem_pages = (ownedFrames sdir).length := hmpS
        have heqmp : procI.mem_pages = proc.mem_pages := by rw [hmpS2, hmp]
        refine ⟨(some { procI with
            state := PROC_STATE_RUNNING,
            context := proc.context,
            entry := proc.entry,
            kernel_stack := proc.kernel_stack,
            user_stack := proc.user_stack,
            parent := some proc.pid },
          sched_add { procI with
            state := PROC_STATE_RUNNING,
            context := proc.context,
            entry := proc.entry,
            kernel_stack := proc.kernel_stack,
            user_stack := proc.user_stack,
            parent := some proc.pid } kI), ?_, ?_, ?_⟩
        · simp [proc_clone, he, hinit, heqmp]
        · intro h
          exact nomatch h
        · intro clone2 h
          have h2 : { procI with
              state := PROC_STATE_RUNNING,
              context := proc.context,
              entry := proc.entry,
              kernel_stack := proc.kernel_stack,
              user_stack := proc.user_stack,
              parent := some proc.pid } = clone2 := by
            injection h
          rw [← h2]
          refine ⟨rfl, cdir, c1n, hmemS, ?_⟩
          intro p hp
          obtain ⟨qz, qnz⟩ := hcorr p hp
          refine ⟨qz, ?_⟩
          intro stab sf hsl
          obtain ⟨ctab, hct, hcorr2⟩ := qnz stab sf hsl
          refine ⟨ctab, hct, ?_⟩
          intro i hi
          obtain ⟨cz, cnz⟩ := hcorr2 i hi
          refine ⟨cz, fun hz => ?_⟩
          obtain ⟨w1, w2, w3, w4⟩ := cnz hz
          have w3n : (ctab.entry i).1 ∈ k1.pmm_free := w3
          have w4n : kI.mem (ctab.entry i).1 = k1.mem (stab.entry i).1 := w4
          refine ⟨w1, w2, hdisj1 _ w3n, ?_⟩
          show kI.mem (ctab.entry i).1 = k.mem (stab.entry i).1
          rw [w4n, hm1]

/-- C3: under the precondition that the source's `mem_pages` equals one
(its directory) plus its user-space tables plus their mapped pages,
`proc_clone` never reaches the frame-count-mismatch panic (it always
returns without error), and every walk that completes successfully
yields a clone whose `mem_pages` equals the source's exactly. -/
theorem proc_clone_counts_match (N : Nat) (proc : Process) (k : Kernel)
    (sdir : PageDir)
    (hdir : proc.page_dir = some sdir)
    (hmp : proc.mem_pages = (ownedFrames sdir).length)
    (hknd : k.pmm_free.Nodup)
    (h0p : 0 ∉ k.pmm_free)
    (hbound : k.pmm_free.length < M32)
    (hdisj : ∀ x ∈ k.pmm_free, x ∉ ownedFrames sdir) :
    ∃ r, proc_clone N proc k = .ok r ∧
      ∀ clone2, r.1 = some clone2 → clone2.mem_pages = proc.mem_pages := by
  rcases proc_alloc_cases N k with
    ⟨k1, he, hp1, hm1, hs1, hi1, hq1⟩ |
    ⟨clone1, k1, he, hpd, hmpc, hpid, hp1, hm1, hs1, hi1, hq1⟩
  · exact ⟨(none, k1), by simp [proc_clone, he], fun clone2 h => nomatch h⟩
  · have hbound1 : k1.pmm_free.length < M32 := by rw [hp1]; exact hbound
    have h0p1 : 0 ∉ k1.pmm_free := by rw [hp1]; exact h0p
    have hknd1 : k1.pmm_free.Nodup := by rw [hp1]; exact hknd
    have hdisj1 : ∀ x ∈ k1.pmm_free, x ∉ ownedFrames sdir := by
      rw [hp1]
      exact hdisj
    rcases init_proc_from_proc_spec clone1 proc k1 sdir hdir hmpc hknd1 h0p1
        hbound1 hdisj1 with
      ⟨hnil, heqi⟩ | ⟨cdir, c1, c2, c3, c4, c5, c6, c7, c8, c9, c10⟩
    · have hpf := proc_free_nodir clone1 k1 hpd hmpc
      rw [if_pos hpid] at hpf
      refine ⟨(none, slab_free (free_pid clone1.pid.toNat k1)), ?_,
        fun clone2 h => nomatch h⟩
      simp [proc_clone, he, heqi, hpf]
    · rcases hinit : init_proc_from_proc clone1 proc k1 with ⟨b, procI, kI⟩
      rw [hinit] at c1 c2 c10
      have c1n : procI.page_dir = some cdir := c1
      have c2n : procI.mem_pages = (ownedFrames cdir).length := c2
      cases b with
      | false =>
        obtain ⟨k3, hpf, hperm3, hslab3, hm3, hi3, hq3, hg3⟩ :=
          proc_free_reclaims procI kI cdir c1n c2n
        refine ⟨(none, k3), ?_, fun clone2 h => nomatch h⟩
        simp [proc_clone, he, hinit, hpf]
      | true =>
        obtain ⟨hmpS, hcorr⟩ := c10 rfl
        have hmpS2 : procI.mem_pages = (ownedFrames sdir).length := hmpS
        have heqmp : procI.mem_pages = proc.mem_pages := by rw [hmpS2, hmp]
        refine ⟨(some { procI with
            state := PROC_STATE_RUNNING,
            context := proc.context,
            entry := proc.entry,
            kernel_stack := proc.kernel_stack,
            user_stack := proc.user_stack,
            parent := some proc.pid },
          sched_add { procI with
            state := PROC_STATE_RUNNING,
            context := proc.context,
            entry := proc.entry,
            kernel_stack := proc.kernel_stack,
            user_stack := proc.user_stack,
            parent := some proc.pid } kI), ?_, ?_⟩
        · simp [proc_clone, he, hinit, heqmp]
        · intro clone2 h
          have h2 : { procI with
              state := PROC_STATE_RUNNING,
              context := proc.context,
              entry := proc.entry,
              kernel_stack := proc.kernel_stack,
              user_stack := proc.user_stack,
              parent := some proc.pid } = clone2 := by
            injection h
          rw [← h2]
          exact heqmp

def stabW2 : PageTable := ⟨101, fun i => if i = 0 then (102, 7) else (0, 0)⟩

def sdirW2 : PageDir :=
  ⟨100, fun p => if p = 0 then some (stabW2, 7) else none, false⟩

def procW2 : Process :=
  { zeroProcess with pid := 5, page_dir := some sdirW2, mem_pages := 3 }

def kW2 : Kernel :=
  { initKernel with pmm_free := [21, 22, 23, 24, 25], slab_avail := 2 }

set_option maxRecDepth 10000 in
/-- Witness for C2: the fidelity theorem applied to a concrete source
process owning one table with one mapped page, and a five-frame pool. -/
theorem proc_clone_fidelity_witness :
    ∃ r, proc_clone 4 procW2 kW2 = .ok r ∧
      (r.1 = none → r.2.pmm_free.Perm kW2.pmm_free ∧
        r.2.slab_avail = kW2.slab_avail ∧
        ∀ x ∈ ownedFrames sdirW2, r.2.mem x = kW2.mem x) ∧
      (∀ clone2, r.1 = some clone2 →
        clone2.parent = some procW2.pid ∧
        ∃ cdir, clone2.page_dir = some cdir ∧
          (∀ x ∈ ownedFrames sdirW2, r.2.mem x = kW2.mem x) ∧
          ∀ p ∈ List.range USER_PDE,
            (sdirW2.slot p = none → cdir.slot p = none) ∧
            (∀ stab sf, sdirW2.slot p = some (stab, sf) →
              ∃ ctab, cdir.slot p = some (ctab, sf) ∧
                ∀ i ∈ List.range NUM_PTE,
                  ((stab.entry i).1 = 0 → ctab.entry i = (0, 0)) ∧
                  ((stab.entry i).1 ≠ 0 →
                    (ctab.entry i).1 ≠ 0 ∧
                    (ctab.entry i).2 = (stab.entry i).2 ∧
                    (ctab.entry i).1 ∉ ownedFrames sdirW2 ∧
                    r.2.mem (ctab.entry i).1 = kW2.mem (stab.entry i).1))) :=
  proc_clone_fidelity 4 procW2 kW2 sdirW2 rfl (by decide) (by decide)
    (by decide) (by decide) (by decide)

set_option maxRecDepth 10000 in
/-- Witness for C3: the count theorem applied to the same concrete
source process and kernel. -/
theorem proc_clone_counts_match_witness :
    ∃ r, proc_clone 4 procW2 kW2 = .ok r ∧
      ∀ clone2, r.1 = some clone2 → clone2.mem_pages = procW2.mem_pages :=
  proc_clone_counts_match 4 procW2 kW2 sdirW2 rfl (by decide) (by decide)
    (by decide) (by decide) (by decide)
